import Mathlib

/-!
# Runtime events producer (`runtime/runtime_events.c`)

A shallow embedding of the producer side of the runtime-events transport:
the per-domain ring writer `write_to_ring`, the lifecycle operations
(`caml_runtime_events_start`, `caml_runtime_events_destroy`, pause and resume),
the event encoders (`caml_ev_begin` .. `caml_ev_alloc_flush`,
`caml_runtime_events_user_write`) and the custom event registry
(`caml_runtime_events_user_register`, `caml_runtime_events_user_resolve`).

Conventions of the embedding.

* The process-wide statics of the C file are the fields of `State`; every
  operation is a function from `State` to an outcome.
* `uint64_t` values are natural numbers kept below `2 ^ 64`; every C
  operation that can wrap is followed by `% UINT64_MOD`.
* A variable of type `int` that receives a wider value holds `to_int` of it
  (the value modulo `2 ^ 32`, read as a signed number), and `to_uint64` turns
  an `int` back into a 64-bit word.
* The mapped region `*current_metadata` is a `Region`: its header fields, the
  array of ring metadata records (indexed by slot), the ring data area as one
  array of 64-bit words (word `w` of the area is byte `data_offset + 8 * w` of
  the region) and the custom event table (indexed by slot). Indices beyond an
  array stand for the memory that follows it.
* Inputs the C code takes from its environment are explicit arguments: the id
  of the calling domain (`Caml_state->id`), the value of `caml_time_counter`,
  the process id, the contents of the file just mapped, the behaviour of an
  OCaml callback.
* Loops that need not terminate take a `fuel` argument and report
  `Fault.out_of_fuel` when it is used up.
-/

namespace RuntimeEvents

/-! ## Constants and macros of `caml/runtime_events.h` -/

/-- Number of values of a `uint64_t`. -/
def UINT64_MOD : Nat := 2 ^ 64

/-- Number of values of a 32-bit `int`. -/
def INT_MOD : Nat := 2 ^ 32

/-- The format version written into the region header (`#define` at line 50). -/
def RUNTIME_EVENTS_VERSION : Nat := 1

/-- Modelled from the spec: the header `caml/runtime_events.h` that defines this
constant is not among the sources. The value is the one the comment at
`write_to_ring` documents, "length must be less than 2^10". -/
def RUNTIME_EVENTS_MAX_MSG_LENGTH : Nat := 1 <<< 10

/-- Modelled from the spec: defined in the absent `caml/runtime_events.h`. The
value is the one of the layout comment at the top of `runtime_events.c`,
"Custom event IDs, 2^13 char[128]". -/
def RUNTIME_EVENTS_MAX_CUSTOM_EVENTS : Nat := 1 <<< 13

/-- Modelled from the spec: defined in the absent `caml/runtime_events.h`. The
value is the one of the layout comment at the top of `runtime_events.c`,
"Custom event IDs, 2^13 char[128]". -/
def RUNTIME_EVENTS_CUSTOM_EVENT_ID_LENGTH : Nat := 128

/-- Modelled from the spec: the macro is defined in the absent
`caml/runtime_events.h`. The length of an item is the ten-bit field in bits
54..63 of its header word, the position at which `write_to_ring` stores the
length of a padding record (`ring_distance_to_end << 54`). -/
def RUNTIME_EVENTS_ITEM_LENGTH (header : Nat) : Nat :=
  (header >>> 54) &&& ((1 <<< 10) - 1)

/-- Modelled from the spec: the category bit of a header word (bit 53), clear
for a runtime event and set for a user event, so that the all-zero fields are
the reserved padding triple. -/
def RUNTIME_EVENTS_ITEM_IS_RUNTIME (header : Nat) : Bool :=
  (header &&& (1 <<< 53)) == 0

/-- Modelled from the spec: the four-bit subtype field of a header word
(bits 49..52). -/
def RUNTIME_EVENTS_ITEM_TYPE (header : Nat) : Nat :=
  (header >>> 49) &&& ((1 <<< 4) - 1)

/-- Modelled from the spec: the thirteen-bit event id field of a header word
(bits 36..48). -/
def RUNTIME_EVENTS_ITEM_ID (header : Nat) : Nat :=
  (header >>> 36) &&& ((1 <<< 13) - 1)

/-- Modelled from the spec: the header-building macro of the absent
`caml/runtime_events.h`: "event header word bit-fields: total length, category
bit (runtime vs. user), subtype, event id". Every operand is converted to
`uint64_t`, shifted to its field and the fields are or-ed together; bits
shifted beyond bit 63 are lost. -/
def RUNTIME_EVENTS_HEADER (length : Nat) (is_runtime : Bool) (event_type : Nat)
    (event_id : Nat) : Nat :=
  (((length <<< 54) % UINT64_MOD) ||| (if is_runtime then 0 else 1 <<< 53) |||
    ((event_type <<< 49) % UINT64_MOD) ||| ((event_id <<< 36) % UINT64_MOD))

/-- Conversion of a C `int` (given as an integer) to `uint64_t`. -/
def to_uint64 (i : Int) : Nat := (i % (UINT64_MOD : Int)).toNat

/-- Conversion of an unsigned value to a 32-bit C `int`. -/
def to_int (n : Nat) : Int :=
  if n % INT_MOD < INT_MOD / 2 then ((n % INT_MOD : Nat) : Int)
  else ((n % INT_MOD : Nat) : Int) - (INT_MOD : Int)

/-- The event category, `typedef enum { EV_RUNTIME, EV_USER } ev_category`. -/
inductive ev_category where
  | EV_RUNTIME
  | EV_USER
deriving DecidableEq, Repr

/-- Modelled from the spec: the runtime message types of the absent
`caml/runtime_events.h`, in declaration order; `EV_INTERNAL` is the subtype of
the reserved padding triple. -/
inductive ev_runtime_message_type where
  | EV_INTERNAL
  | EV_LIFECYCLE
  | EV_BEGIN
  | EV_EXIT
  | EV_COUNTER
  | EV_ALLOC
  | EV_FLUSH
deriving DecidableEq, Repr

/-- The integer value of a runtime message type. -/
def ev_runtime_message_type.code : ev_runtime_message_type → Nat
  | .EV_INTERNAL => 0
  | .EV_LIFECYCLE => 1
  | .EV_BEGIN => 2
  | .EV_EXIT => 3
  | .EV_COUNTER => 4
  | .EV_ALLOC => 5
  | .EV_FLUSH => 6

/-- Modelled from the spec: the user message types of the absent
`caml/runtime_events.h`, in declaration order. -/
inductive ev_user_message_type where
  | EV_USER_MSG_TYPE_UNIT
  | EV_USER_MSG_TYPE_INT
  | EV_USER_MSG_TYPE_SPAN_BEGIN
  | EV_USER_MSG_TYPE_SPAN_END
  | EV_USER_MSG_TYPE_CUSTOM
deriving DecidableEq, Repr

/-- The integer value of a user message type. -/
def ev_user_message_type.code : ev_user_message_type → Nat
  | .EV_USER_MSG_TYPE_UNIT => 0
  | .EV_USER_MSG_TYPE_INT => 1
  | .EV_USER_MSG_TYPE_SPAN_BEGIN => 2
  | .EV_USER_MSG_TYPE_SPAN_END => 3
  | .EV_USER_MSG_TYPE_CUSTOM => 4

/-- Modelled from the spec: the lifecycle events of the absent
`caml/runtime_events.h`, in declaration order ("a reserved event category
marking ring start/pause/resume/stop transitions"). -/
inductive ev_lifecycle where
  | EV_RING_START
  | EV_RING_STOP
  | EV_RING_PAUSE
  | EV_RING_RESUME
  | EV_FORK_PARENT
  | EV_FORK_CHILD
  | EV_DOMAIN_SPAWN
  | EV_DOMAIN_TERMINATE
deriving DecidableEq, Repr

/-- The integer value of a lifecycle event. -/
def ev_lifecycle.code : ev_lifecycle → Nat
  | .EV_RING_START => 0
  | .EV_RING_STOP => 1
  | .EV_RING_PAUSE => 2
  | .EV_RING_RESUME => 3
  | .EV_FORK_PARENT => 4
  | .EV_FORK_CHILD => 5
  | .EV_DOMAIN_SPAWN => 6
  | .EV_DOMAIN_TERMINATE => 7

/-- Modelled from the spec: the kinds of user event types known to the C side
(`ev_user_ml_type` of the absent header): the built-in kinds unit, int and
span, and the generic custom kind. -/
inductive ev_user_ml_type where
  | EV_USER_ML_TYPE_UNIT
  | EV_USER_ML_TYPE_INT
  | EV_USER_ML_TYPE_SPAN
  | EV_USER_ML_TYPE_CUSTOM
deriving DecidableEq, Repr

/-! ## Data model -/

/-- The ring metadata record of one domain slot,
`struct runtime_events_buffer_header`. -/
structure runtime_events_buffer_header where
  ring_head : Nat
  ring_tail : Nat
deriving DecidableEq, Repr

/-- The constants of the build that the absent `caml/runtime_events.h` fixes
and whose values the sources do not show: the sizes of its three structures,
as `sizeof` gives them, and the three allocation bucket counts. -/
structure Build where
  sizeof_metadata_header : Nat
  sizeof_buffer_header : Nat
  sizeof_custom_event : Nat
  RUNTIME_EVENTS_NUM_ALLOC_BUCKETS_SINGLE : Nat
  RUNTIME_EVENTS_NUM_ALLOC_BUCKETS_DECADE : Nat
  RUNTIME_EVENTS_NUM_ALLOC_BUCKETS : Nat
deriving DecidableEq, Repr

/-- The contents of the shared mapping: the array of ring metadata records, the
ring data area in 64-bit words and the custom event table, one name slot of
`RUNTIME_EVENTS_CUSTOM_EVENT_ID_LENGTH` bytes per entry. The three parts are
kept apart and without a length; in the code they are ranges of one mapping of
`current_ring_total_size` bytes. The two agree for the accesses that fall
inside the part they address, which holds for the rings and records of the
domains below `max_domains` in a region with the layout `MappedLayout`
(`mapped_ring`). -/
structure Mapping where
  headers : Nat → runtime_events_buffer_header
  data : Nat → Nat
  custom_events : Int → Nat → Nat

/-- The mapped region `*current_metadata`: the fields of
`struct runtime_events_metadata_header` followed by the contents of the
mapping. -/
structure Region extends Mapping where
  version : Nat
  max_domains : Nat
  ring_header_size_bytes : Nat
  ring_size_bytes : Nat
  ring_size_elements : Nat
  headers_offset : Nat
  data_offset : Nat
  custom_events_offset : Nat

/-- The OCaml type of a user event, `'a Type.t`: one of the constant
constructors `Unit`, `Int`, `Span`, or a block `Custom` holding the serializer
closure (here named by a number, see `Callback`). -/
inductive event_type where
  | Unit
  | Int
  | Span
  | Custom (serializer : Nat)
deriving DecidableEq, Repr

/-- The OCaml record of a registered user event,
`{ id : int; name : string; typ : 'a Type.t; tag : tag }`. Names are byte
strings. -/
structure user_event where
  id : Int
  name : List Nat
  typ : event_type
  tag : Option Nat
deriving DecidableEq, Repr

/-- The process-wide state of `runtime_events.c`: its static variables and the
two fields of `caml_params` it reads. -/
structure State where
  /-- The build constants of the absent header. -/
  build : Build
  /-- The field `caml_params->max_domains`. -/
  max_domains : Nat
  /-- The field `caml_params->runtime_events_log_wsize`. -/
  runtime_events_log_wsize : Nat
  current_metadata : Option Region
  current_ring_total_size : Int
  runtime_events_path : Option String
  current_ring_loc : Option String
  ring_size_words : Nat
  preserve_ring : Nat
  runtime_events_enabled : Nat
  runtime_events_paused : Nat
  runtime_custom_event_index : Nat
  user_events : List user_event
  alloc_buckets : Nat → Nat

/-- The ways an operation can fail to return to its caller. -/
inductive Fault where
  /-- A loop did not finish within the fuel given. -/
  | out_of_fuel
  /-- The null pointer `current_metadata` was dereferenced. -/
  | null_metadata
  /-- The process was aborted by `caml_fatal_error`. -/
  | fatal_error (msg : String)
deriving DecidableEq, Repr

/-- An OCaml exception raised by an operation. -/
inductive Exn where
  | Invalid_argument (msg : String)
  | Failure (msg : String)
  /-- An exception raised by user code, named by a number. -/
  | User (e : Nat)
deriving DecidableEq, Repr

/-- The outcome of an operation that may raise an OCaml exception: a normal
return, or an exception, each with the state left behind, or a fault. -/
inductive Outcome (α : Type) where
  | ret (v : α) (s : State)
  | raise (e : Exn) (s : State)
  | fault (f : Fault)

/-! ## The ring writer -/

/-- The word of the ring data area that `ring_ptr[i]` denotes for the domain
`domain_id`: `ring_ptr` is `data_offset + domain_id * ring_size_bytes` bytes
into the region. -/
def ring_ptr (m : Region) (domain_id : Nat) (i : Nat) : Nat :=
  domain_id * m.ring_size_bytes / 8 + i

/-- The ring metadata record of a domain, `get_ring_buffer_by_domain_id`: the
record at `headers_offset + domain_id * ring_header_size_bytes`, which is slot
`domain_id` of the metadata array. -/
def get_ring_buffer_by_domain_id (m : Region) (domain_id : Nat) :
    runtime_events_buffer_header :=
  m.headers domain_id

/-- Store one ring metadata record. -/
def set_ring_buffer (headers : Nat → runtime_events_buffer_header) (domain_id : Nat)
    (h : runtime_events_buffer_header) : Nat → runtime_events_buffer_header :=
  fun d => if d = domain_id then h else headers d

/-- Store one word, `a[i] = v`. -/
def store (a : Nat → Nat) (i v : Nat) : Nat → Nat :=
  fun j => if j = i then v else a j

/-- Copy `n` words of `content`, from word `word_offset` on, to `dst[0 .. n-1]`
(the `memcpy` of `write_to_ring`). -/
def memcpy_words (a : Nat → Nat) (dst : Nat) (content : List Nat) (word_offset n : Nat) :
    Nat → Nat :=
  fun j => if dst ≤ j ∧ j < dst + n then content.getD (word_offset + (j - dst)) 0 else a j

/-- The head-advancing loop of `write_to_ring` (lines 576-586): while the write
up to `target = ring_tail + length_with_header_ts + padding_required` would
take the tail over the head, skip the item at the head. `ring` reads a word of
the domain's ring. The result is the final `ring_head`. -/
def advance_head (ring_size_words ring_mask : Nat) (ring : Nat → Nat) (target : Nat) :
    Nat → Nat → Except Fault Nat
  | 0, ring_head =>
    if (target + UINT64_MOD - ring_head) % UINT64_MOD ≥ ring_size_words then
      .error .out_of_fuel
    else .ok ring_head
  | fuel + 1, ring_head =>
    if (target + UINT64_MOD - ring_head) % UINT64_MOD ≥ ring_size_words then
      let head_header := ring (ring_head &&& ring_mask)
      advance_head ring_size_words ring_mask ring target fuel
        ((ring_head + RUNTIME_EVENTS_ITEM_LENGTH head_header) % UINT64_MOD)
    else .ok ring_head

/-- The values `write_to_ring` computes before it touches the ring
(lines 532-573). -/
structure WritePlan where
  length_with_header_ts : Nat
  ring_head : Nat
  ring_tail : Nat
  ring_mask : Nat
  ring_tail_offset : Nat
  ring_distance_to_end : Nat
  padding_required : Nat
deriving DecidableEq, Repr

/-- The computation of lines 532-573 of `write_to_ring`. -/
def write_plan (m : Region) (domain_id : Nat) (event_length : Nat) : WritePlan :=
  let length_with_header_ts := (event_length + 2) % UINT64_MOD
  let domain_ring_header := get_ring_buffer_by_domain_id m domain_id
  let ring_head := domain_ring_header.ring_head
  let ring_tail := domain_ring_header.ring_tail
  let ring_mask := (m.ring_size_elements + UINT64_MOD - 1) % UINT64_MOD
  let ring_tail_offset := ring_tail &&& ring_mask
  let ring_distance_to_end :=
    (m.ring_size_elements + UINT64_MOD - ring_tail_offset) % UINT64_MOD
  let padding_required :=
    if ring_distance_to_end < length_with_header_ts then ring_distance_to_end else 0
  { length_with_header_ts, ring_head, ring_tail, ring_mask, ring_tail_offset,
    ring_distance_to_end, padding_required }

/-- The stores of lines 588-618 of `write_to_ring`, once the head has been
advanced to `ring_head`: the padding header if padding is required, then the
header word, the timestamp and the payload, and the new tail. -/
def write_item (m : Region) (domain_id : Nat) (p : WritePlan) (ring_head timestamp : Nat)
    (category : ev_category) (type : Nat) (event_id : Int) (event_length : Nat)
    (content : Option (List Nat)) (word_offset : Nat) : Region :=
  let data0 :=
    if p.padding_required > 0 then
      store m.data (ring_ptr m domain_id p.ring_tail_offset)
        ((p.ring_distance_to_end <<< 54) % UINT64_MOD)
    else m.data
  let ring_tail :=
    if p.padding_required > 0 then (p.ring_tail + p.ring_distance_to_end) % UINT64_MOD
    else p.ring_tail
  let ring_tail_offset := if p.padding_required > 0 then 0 else p.ring_tail_offset
  let data1 := store data0 (ring_ptr m domain_id ring_tail_offset)
    (RUNTIME_EVENTS_HEADER p.length_with_header_ts (category == .EV_RUNTIME)
      type (to_uint64 event_id))
  let data2 := store data1 (ring_ptr m domain_id (ring_tail_offset + 1)) timestamp
  let data3 :=
    match content with
    | some c => memcpy_words data2 (ring_ptr m domain_id (ring_tail_offset + 2)) c
        word_offset event_length
    | none => data2
  { m with
    data := data3
    headers := set_ring_buffer m.headers domain_id
      { ring_head := ring_head
        ring_tail := (ring_tail + p.length_with_header_ts) % UINT64_MOD } }

/-- The ring writer `write_to_ring`, run by the domain `caml_state_id` at time
`timestamp`. `type` is the value of the union `ev_message_type` (both members
share their storage, so `type.runtime | type.user` is that value). -/
def write_to_ring (fuel : Nat) (caml_state_id timestamp : Nat) (category : ev_category)
    (type : Nat) (event_id : Int) (event_length : Nat) (content : Option (List Nat))
    (word_offset : Nat) (s : State) : Except Fault State :=
  match s.current_metadata with
  | none => .error .null_metadata
  | some m =>
    let p := write_plan m caml_state_id event_length
    match advance_head (s.ring_size_words % UINT64_MOD) p.ring_mask
        (fun i => m.data (ring_ptr m caml_state_id i))
        ((p.ring_tail + p.length_with_header_ts + p.padding_required) % UINT64_MOD)
        fuel p.ring_head with
    | .error f => .error f
    | .ok ring_head =>
      .ok { s with
        current_metadata := some (write_item m caml_state_id p ring_head timestamp
          category type event_id event_length content word_offset) }

/-! ## Encoders -/

/-- The test `ring_is_active`: enabled and not paused. -/
def ring_is_active (s : State) : Bool :=
  s.runtime_events_enabled != 0 && !(s.runtime_events_paused != 0)

/-- The exported `caml_runtime_events_are_active`. -/
def caml_runtime_events_are_active (s : State) : Bool :=
  ring_is_active s

/-- The encoder `caml_ev_begin`. -/
def caml_ev_begin (fuel caml_state_id timestamp : Nat) (phase : Int) (s : State) :
    Except Fault State :=
  if ring_is_active s then
    write_to_ring fuel caml_state_id timestamp .EV_RUNTIME
      ev_runtime_message_type.EV_BEGIN.code phase 0 none 0 s
  else .ok s

/-- The encoder `caml_ev_end`. -/
def caml_ev_end (fuel caml_state_id timestamp : Nat) (phase : Int) (s : State) :
    Except Fault State :=
  if ring_is_active s then
    write_to_ring fuel caml_state_id timestamp .EV_RUNTIME
      ev_runtime_message_type.EV_EXIT.code phase 0 none 0 s
  else .ok s

/-- The encoder `caml_ev_counter`. -/
def caml_ev_counter (fuel caml_state_id timestamp : Nat) (counter : Int) (val : Nat)
    (s : State) : Except Fault State :=
  if ring_is_active s then
    write_to_ring fuel caml_state_id timestamp .EV_RUNTIME
      ev_runtime_message_type.EV_COUNTER.code counter 1 (some [val]) 0 s
  else .ok s

/-- The encoder `caml_ev_lifecycle`; `data` is an `int64_t` read as one
64-bit word. -/
def caml_ev_lifecycle (fuel caml_state_id timestamp : Nat) (lifecycle : ev_lifecycle)
    (data : Int) (s : State) : Except Fault State :=
  if ring_is_active s then
    write_to_ring fuel caml_state_id timestamp .EV_RUNTIME
      ev_runtime_message_type.EV_LIFECYCLE.code lifecycle.code 1
      (some [to_uint64 data]) 0 s
  else .ok s

/-- The encoder `caml_ev_alloc`: count one allocation of `sz` words in its
bucket. -/
def caml_ev_alloc (sz : Nat) (s : State) : State :=
  if !ring_is_active s then s
  else
    let idx :=
      if sz < 10 * s.build.RUNTIME_EVENTS_NUM_ALLOC_BUCKETS_SINGLE then sz
      else if (sz + UINT64_MOD - 10 * s.build.RUNTIME_EVENTS_NUM_ALLOC_BUCKETS_SINGLE)
          % UINT64_MOD < 10 * s.build.RUNTIME_EVENTS_NUM_ALLOC_BUCKETS_DECADE then
        sz / 10 + 9 * s.build.RUNTIME_EVENTS_NUM_ALLOC_BUCKETS_SINGLE
      else s.build.RUNTIME_EVENTS_NUM_ALLOC_BUCKETS - 1
    { s with
      alloc_buckets := store s.alloc_buckets idx ((s.alloc_buckets idx + 1) % UINT64_MOD) }

/-- The encoder `caml_ev_alloc_flush`: write the buckets as one `EV_ALLOC`
event, then run the reset loop `for (i = 1; i < NUM_ALLOC_BUCKETS; i++)`. -/
def caml_ev_alloc_flush (fuel caml_state_id timestamp : Nat) (s : State) :
    Except Fault State :=
  if !ring_is_active s then .ok s
  else
    match write_to_ring fuel caml_state_id timestamp .EV_RUNTIME
        ev_runtime_message_type.EV_ALLOC.code 0 s.build.RUNTIME_EVENTS_NUM_ALLOC_BUCKETS
        (some ((List.range s.build.RUNTIME_EVENTS_NUM_ALLOC_BUCKETS).map s.alloc_buckets))
        0 s with
    | .error f => .error f
    | .ok s1 =>
      .ok { s1 with
        alloc_buckets := fun i =>
          if 1 ≤ i ∧ i < s1.build.RUNTIME_EVENTS_NUM_ALLOC_BUCKETS then 0
          else s1.alloc_buckets i }

/-! ## The custom event registry -/

/-- The length of the C string held in a byte sequence: the number of bytes
before the first zero byte. -/
def c_strlen (bytes : List Nat) : Nat :=
  (bytes.takeWhile (fun b => b != 0)).length

/-- The C library `strncpy(dest, src, n)`: the bytes of the C string `src`, at
most `n` of them, then zero bytes up to `n` bytes in all. -/
def strncpy (dest : Nat → Nat) (src : List Nat) (n : Nat) : Nat → Nat :=
  fun i => if i < n then (if i < c_strlen src then src.getD i 0 else 0) else dest i

/-- The function `events_register_write_buffer`: copy the name into slot `idx`
of the custom event table of the mapped region. -/
def events_register_write_buffer (idx : Int) (event_name : List Nat) (m : Region) :
    Region :=
  { m with
    custom_events := fun i =>
      if i = idx then
        strncpy (m.custom_events idx) event_name (RUNTIME_EVENTS_CUSTOM_EVENT_ID_LENGTH - 1)
      else m.custom_events i }

/-- Modelled from the spec: `caml_string_is_c_safe` is defined outside the
sources; a name is safe when it "contains no embedded terminator byte". -/
def caml_string_is_c_safe (name : List Nat) : Bool :=
  name.all (fun b => b != 0)

/-- The message of the capacity error of `caml_runtime_events_user_register`. -/
def msg_capacity : String :=
  "Runtime_events.User.register: maximum number of custom events exceeded"

/-- The message of the name length error of `caml_runtime_events_user_register`. -/
def msg_length : String :=
  "Runtime_events.User.register: maximum length for event name exceeded"

/-- The message of the zero byte error of `caml_runtime_events_user_register`. -/
def msg_null : String :=
  "Runtime_events.User.register: event name has null characters"

/-- The primitive `caml_runtime_events_user_register`. -/
def caml_runtime_events_user_register (event_name : List Nat) (event_tag : Option Nat)
    (typ : event_type) (s : State) : Outcome user_event :=
  let index : Int := to_int s.runtime_custom_event_index
  let s1 := { s with
    runtime_custom_event_index := (s.runtime_custom_event_index + 1) % UINT64_MOD }
  if index > (RUNTIME_EVENTS_MAX_CUSTOM_EVENTS : Int) then
    .raise (.Invalid_argument msg_capacity) s1
  else
    let length : Int := to_int event_name.length
    if length > (RUNTIME_EVENTS_CUSTOM_EVENT_ID_LENGTH : Int) - 1 then
      .raise (.Invalid_argument msg_length) s1
    else if !caml_string_is_c_safe event_name then
      .raise (.Invalid_argument msg_null) s1
    else
      let event : user_event :=
        { id := index, name := event_name, typ := typ, tag := event_tag }
      let metadata :=
        if s1.runtime_events_enabled != 0 then
          s1.current_metadata.map (events_register_write_buffer index event_name)
        else s1.current_metadata
      .ret event { s1 with current_metadata := metadata, user_events := event :: s1.user_events }

/-! ## The lifecycle coordinator -/

/-- The teardown `runtime_events_teardown_from_stw_single`: the region is
unmapped (and the file removed when `remove_file` is set, which leaves no trace
in this state), `current_metadata` is reset and the enabled flag cleared. -/
def runtime_events_teardown_from_stw_single (_remove_file : Nat) (s : State) : State :=
  { s with current_metadata := none, runtime_events_enabled := 0 }

/-- The path of the ring file, as the two `snprintf_os` calls print it into a
buffer of `RUNTIME_EVENTS_MAX_MSG_LENGTH` characters. -/
def ring_file_location (runtime_events_path : Option String) (pid : Int) : String :=
  match runtime_events_path with
  | some dir => (dir ++ "/" ++ toString pid ++ ".events").take (RUNTIME_EVENTS_MAX_MSG_LENGTH - 1)
  | none => (toString pid ++ ".events").take (RUNTIME_EVENTS_MAX_MSG_LENGTH - 1)

/-- The replay loop at the end of the create step (lines 394-398): every entry
of the snapshot of the registration list is written to the custom event
table. -/
def replay_user_events : List user_event → Region → Region
  | [], m => m
  | event :: rest, m =>
    replay_user_events rest (events_register_write_buffer event.id event.name m)

/-- The sum of lines 263-268 in exact arithmetic: the size of the region in
bytes. -/
def ring_total_size (s : State) : Nat :=
  RUNTIME_EVENTS_MAX_CUSTOM_EVENTS * s.build.sizeof_custom_event +
    s.max_domains * (s.ring_size_words * 8 + s.build.sizeof_buffer_header) +
    s.build.sizeof_metadata_header

/-- The value lines 263-268 store in `current_ring_total_size`: the sum is
computed in `size_t` and assigned to a variable of type `int`. -/
def stored_ring_total_size (s : State) : Int :=
  to_int (ring_total_size s % UINT64_MOD)

/-- The region as lines 343-379 of the create step set it up over the new
mapping `f`: the header fields are filled in and the ring metadata record of
every domain slot below `max_domains` is zeroed. The two lengths are local
variables of type `int` (line 245) that receive a `size_t` product; the offsets
are 64-bit fields of the header of the region. -/
def create_region (f : Mapping) (s : State) : Region :=
  let ring_headers_length : Int :=
    to_int (s.max_domains * s.build.sizeof_buffer_header % UINT64_MOD)
  let ring_data_length : Int :=
    to_int (s.max_domains * s.ring_size_words * 8 % UINT64_MOD)
  let headers_offset := s.build.sizeof_metadata_header
  let data_offset := (headers_offset + to_uint64 ring_headers_length) % UINT64_MOD
  { version := RUNTIME_EVENTS_VERSION
    max_domains := s.max_domains
    ring_header_size_bytes := s.build.sizeof_buffer_header
    ring_size_bytes := s.ring_size_words * 8
    ring_size_elements := s.ring_size_words
    headers_offset := headers_offset
    data_offset := data_offset
    custom_events_offset := (data_offset + to_uint64 ring_data_length) % UINT64_MOD
    headers := fun domain_num =>
      if domain_num < s.max_domains then { ring_head := 0, ring_tail := 0 }
      else f.headers domain_num
    data := f.data
    custom_events := f.custom_events }

/-- The create step `runtime_events_create_from_stw_single`, run by the domain
`caml_state_id` of the process `pid`. `file` is what opening, resizing and
mapping the ring file gives: `none` when one of the three fails (the process is
then aborted by `caml_fatal_error`; the three failures are not told apart, the
fault carries the message of the first), else the contents of the new mapping.
The stores of the step are made whatever the number `current_ring_total_size`
of mapped bytes is: they fall inside the mapping when the region has the
layout `MappedLayout`, which `created_mapped` proves for a total size below
`2 ^ 31`. -/
def runtime_events_create_from_stw_single (fuel caml_state_id timestamp : Nat) (pid : Int)
    (file : Option Mapping) (s : State) : Except Fault State :=
  if s.runtime_events_enabled = 0 then
    match file with
    | none => .error (.fatal_error "Couldn't open ring buffer loc")
    | some f =>
      let current_user_event := s.user_events
      let s1 : State :=
        { s with
          current_ring_loc := some (ring_file_location s.runtime_events_path pid)
          current_ring_total_size := stored_ring_total_size s
          current_metadata := some (create_region f s)
          runtime_events_enabled := 1
          runtime_events_paused := 0 }
      match caml_ev_lifecycle fuel caml_state_id timestamp .EV_RING_START pid s1 with
      | .error e => .error e
      | .ok s2 =>
        .ok { s2 with
          current_metadata := s2.current_metadata.map (replay_user_events current_user_event) }
  else .ok s

/-- Modelled from the spec: `caml_try_run_on_all_domains` with the handler
`stw_create_runtime_events` is defined outside the sources. "Runs a barrier
across every live worker and, once all have arrived, exactly one participant
performs region creation": the handler body runs once, in the domain
`stw_domain` that arrives last. -/
def stw_create_runtime_events (fuel stw_domain timestamp : Nat) (pid : Int)
    (file : Option Mapping) (s : State) : Except Fault State :=
  runtime_events_create_from_stw_single fuel stw_domain timestamp pid file s

/-- Modelled from the spec: `caml_try_run_on_all_domains` with the handler
`stw_teardown_runtime_events`: the handler body runs once, in one
participant. -/
def stw_teardown_runtime_events (remove_file : Nat) (s : State) : State :=
  runtime_events_teardown_from_stw_single remove_file s

/-- The exported `caml_runtime_events_start`: the loop
`while (!enabled) caml_try_run_on_all_domains(create)`. -/
def caml_runtime_events_start (stw_domain timestamp : Nat) (pid : Int)
    (file : Option Mapping) : Nat → State → Except Fault State
  | 0, s => if s.runtime_events_enabled = 0 then .error .out_of_fuel else .ok s
  | fuel + 1, s =>
    if s.runtime_events_enabled = 0 then
      match stw_create_runtime_events (fuel + 1) stw_domain timestamp pid file s with
      | .error e => .error e
      | .ok s1 => caml_runtime_events_start stw_domain timestamp pid file fuel s1
    else .ok s

/-- The loop `do teardown while (enabled)` of `caml_runtime_events_destroy`. -/
def destroy_loop (remove_file : Nat) : Nat → State → Except Fault State
  | 0, _ => .error .out_of_fuel
  | fuel + 1, s =>
    let s1 := stw_teardown_runtime_events remove_file s
    if s1.runtime_events_enabled != 0 then destroy_loop remove_file fuel s1 else .ok s1

/-- The exported `caml_runtime_events_destroy` (the stop operation): write the
`EV_RING_STOP` lifecycle event, then tear the ring buffers down. -/
def caml_runtime_events_destroy (fuel caml_state_id timestamp : Nat) (s : State) :
    Except Fault State :=
  if s.runtime_events_enabled != 0 then
    match write_to_ring fuel caml_state_id timestamp .EV_RUNTIME
        ev_runtime_message_type.EV_LIFECYCLE.code ev_lifecycle.EV_RING_STOP.code 0 none 0 s with
    | .error e => .error e
    | .ok s1 =>
      let remove_file := if s1.preserve_ring != 0 then 0 else 1
      destroy_loop remove_file (fuel + 1) s1
  else .ok s

/-- The exported `caml_runtime_events_pause`. -/
def caml_runtime_events_pause (fuel caml_state_id timestamp : Nat) (s : State) :
    Except Fault State :=
  if s.runtime_events_enabled = 0 then .ok s
  else if s.runtime_events_paused = 0 then
    caml_ev_lifecycle fuel caml_state_id timestamp .EV_RING_PAUSE 0
      { s with runtime_events_paused := 1 }
  else .ok s

/-- The exported `caml_runtime_events_resume`. -/
def caml_runtime_events_resume (fuel caml_state_id timestamp : Nat) (s : State) :
    Except Fault State :=
  if s.runtime_events_enabled = 0 then .ok s
  else if s.runtime_events_paused = 1 then
    caml_ev_lifecycle fuel caml_state_id timestamp .EV_RING_RESUME 0
      { s with runtime_events_paused := 0 }
  else .ok s

/-- The hook `caml_runtime_events_post_fork`, run in the child after a fork. -/
def caml_runtime_events_post_fork (fuel caml_state_id timestamp : Nat) (pid : Int)
    (file : Option Mapping) (s : State) : Except Fault State :=
  if s.runtime_events_enabled != 0 then
    caml_runtime_events_start caml_state_id timestamp pid file fuel
      (runtime_events_teardown_from_stw_single 0 s)
  else .ok s

/-- The exported `caml_runtime_events_current_location`: the path of the ring
file, or `none` (the null pointer) when tracing is not enabled. -/
def caml_runtime_events_current_location (s : State) : Option String :=
  if s.runtime_events_enabled != 0 then s.current_ring_loc else none

/-- The stub `caml_eventlog_resume`, kept for linking: it always fails. -/
def caml_eventlog_resume (s : State) : Outcome Unit :=
  .raise (.Failure "Called caml_eventlog_resume in runtime5: not supported.") s

/-- The stub `caml_eventlog_pause`, kept for linking: it always fails. -/
def caml_eventlog_pause (s : State) : Outcome Unit :=
  .raise (.Failure "Called caml_eventlog_pause in runtime5: not supported.") s

/-- The state of the statics when the program is loaded: no region, tracing
neither enabled nor paused, an empty registry with counter 0 and zeroed
allocation buckets. -/
def initial_state (build : Build) (max_domains runtime_events_log_wsize : Nat) : State :=
  { build := build
    max_domains := max_domains
    runtime_events_log_wsize := runtime_events_log_wsize
    current_metadata := none
    current_ring_total_size := 0
    runtime_events_path := none
    current_ring_loc := none
    ring_size_words := 0
    preserve_ring := 0
    runtime_events_enabled := 0
    runtime_events_paused := 0
    runtime_custom_event_index := 0
    user_events := []
    alloc_buckets := fun _ => 0 }

/-- The initialisation `caml_runtime_events_init`. The three arguments `env_`
are the values of the environment variables `OCAML_RUNTIME_EVENTS_DIR`,
`OCAML_RUNTIME_EVENTS_PRESERVE` and `OCAML_RUNTIME_EVENTS_START`. The variable
`ring_size_words` is a `static int`: the value of the shift is stored as an
`int`, and the state holds the 64-bit value that the uses of the variable
convert it to (for a width below 31 that is `2 ^ runtime_events_log_wsize`). -/
def caml_runtime_events_init (fuel caml_state_id timestamp : Nat) (pid : Int)
    (file : Option Mapping) (env_dir : Option String) (env_preserve env_start : Bool)
    (s : State) : Except Fault State :=
  let s1 : State :=
    { s with
      runtime_events_path := env_dir
      ring_size_words := to_uint64 (to_int (1 <<< s.runtime_events_log_wsize))
      preserve_ring := if env_preserve then 1 else 0 }
  if env_start then
    runtime_events_create_from_stw_single fuel caml_state_id timestamp pid file s1
  else .ok s1

/-! ## User events -/

/-- What a call of an OCaml serializer closure gives back: its result (an
exception, named by a number, or the integer returned), the contents of the
write buffer and the process state it leaves. -/
structure CallbackReturn where
  result : Except Nat Int
  buffer : List Nat
  state : State

/-- Modelled from the spec: `caml_callback2_exn` applied to a serializer
closure is defined outside the sources. A callback environment gives, for the
serializer named `serializer`, the write buffer, the event content and the
state at the call, what the call gives back. -/
def Callback : Type := (serializer : Nat) → (write_buffer : List Nat) → (content : Int) →
  State → CallbackReturn

/-- The 64-bit word at word index `i` of a byte buffer (little-endian, as
`(uint64_t *) Bytes_val(write_buffer)` reads it). -/
def word_of_bytes (buffer : List Nat) (i : Nat) : Nat :=
  (List.range 8).foldr (fun k acc => buffer.getD (8 * i + k) 0 % 256 + 256 * acc) 0

/-- The primitive `caml_runtime_events_user_write`. The value returned is the
write buffer as the call leaves it. -/
def caml_runtime_events_user_write (callback : Callback) (fuel caml_state_id timestamp : Nat)
    (write_buffer : List Nat) (event : user_event) (event_content : Int) (s : State) :
    Outcome (List Nat) :=
  if !ring_is_active s then .ret write_buffer s
  else
    let event_id := event.id
    match event.typ with
    | .Custom serializer =>
      let r := callback serializer write_buffer event_content s
      match r.result with
      | .error e => .raise (.User e) r.state
      | .ok res =>
        if !ring_is_active r.state then .ret r.buffer r.state
        else
          let len_bytes := to_uint64 res
          let len_64bit_word := (len_bytes + 8) % UINT64_MOD / 8
          let offset_index := (len_64bit_word * 8 + UINT64_MOD - 1) % UINT64_MOD
          let buffer := r.buffer.set offset_index
            ((offset_index + UINT64_MOD - len_bytes) % UINT64_MOD % 256)
          match write_to_ring fuel caml_state_id timestamp .EV_USER
              ev_user_message_type.EV_USER_MSG_TYPE_CUSTOM.code event_id
              (to_int len_64bit_word).toNat
              (some ((List.range (to_int len_64bit_word).toNat).map (word_of_bytes buffer)))
              0 r.state with
          | .error f => .fault f
          | .ok s1 => .ret buffer s1
    | .Unit =>
      match write_to_ring fuel caml_state_id timestamp .EV_USER
          ev_user_message_type.EV_USER_MSG_TYPE_UNIT.code event_id 0 none 0 s with
      | .error f => .fault f
      | .ok s1 => .ret write_buffer s1
    | .Int =>
      match write_to_ring fuel caml_state_id timestamp .EV_USER
          ev_user_message_type.EV_USER_MSG_TYPE_INT.code event_id 1
          (some [to_uint64 event_content]) 0 s with
      | .error f => .fault f
      | .ok s1 => .ret write_buffer s1
    | .Span =>
      let message_type :=
        if event_content = 0 then ev_user_message_type.EV_USER_MSG_TYPE_SPAN_BEGIN
        else ev_user_message_type.EV_USER_MSG_TYPE_SPAN_END
      match write_to_ring fuel caml_state_id timestamp .EV_USER
          message_type.code event_id 0 none 0 s with
      | .error f => .fault f
      | .ok s1 => .ret write_buffer s1

/-- The bytes of a C string: the bytes before the first zero byte. -/
def c_string (bytes : List Nat) : List Nat :=
  bytes.takeWhile (fun b => b != 0)

/-- The C library test `strncmp(a, b, n) == 0`: the two C strings agree on
their first `n` bytes. -/
def strncmp_eq (a b : List Nat) (n : Nat) : Bool :=
  (c_string a).take n == (c_string b).take n

/-- The OCaml value of a built-in event type id, `Val_int(event_type_id)`. -/
def event_type_of_id : ev_user_ml_type → event_type
  | .EV_USER_ML_TYPE_UNIT => .Unit
  | .EV_USER_ML_TYPE_INT => .Int
  | .EV_USER_ML_TYPE_SPAN => .Span
  | .EV_USER_ML_TYPE_CUSTOM => .Custom 0

/-- The lookup `caml_runtime_events_user_resolve`; `none` is `Val_none`. -/
def caml_runtime_events_user_resolve (event_name : List Nat) (event_type_id : ev_user_ml_type)
    (s : State) : Outcome (Option user_event) :=
  match s.user_events.find?
      (fun event => strncmp_eq event.name event_name RUNTIME_EVENTS_CUSTOM_EVENT_ID_LENGTH) with
  | some event => .ret (some event) s
  | none =>
    if event_type_id ≠ .EV_USER_ML_TYPE_CUSTOM then
      let event_name_len := min (c_strlen event_name) RUNTIME_EVENTS_CUSTOM_EVENT_ID_LENGTH
      let ml_event_name := event_name.take event_name_len
      match caml_runtime_events_user_register ml_event_name none
          (event_type_of_id event_type_id) s with
      | .ret event s1 => .ret (some event) s1
      | .raise e s1 => .raise e s1
      | .fault f => .fault f
    else .ret none s

/-! ## Sequences of calls -/

/-- The arguments of one call of `write_to_ring`, with the time at which it is
made. -/
structure write_call where
  timestamp : Nat
  category : ev_category
  type : Nat
  event_id : Int
  event_length : Nat
  content : Option (List Nat)
  word_offset : Nat
deriving DecidableEq, Repr

/-- One call of `write_to_ring` by the domain `caml_state_id`. -/
def write_call.run (fuel caml_state_id : Nat) (c : write_call) (s : State) :
    Except Fault State :=
  write_to_ring fuel caml_state_id c.timestamp c.category c.type c.event_id c.event_length
    c.content c.word_offset s

/-- Successive calls of `write_to_ring` by the domain `caml_state_id`. -/
def write_calls (fuel caml_state_id : Nat) : List write_call → State → Except Fault State
  | [], s => .ok s
  | c :: rest, s =>
    match c.run fuel caml_state_id s with
    | .error f => .error f
    | .ok s1 => write_calls fuel caml_state_id rest s1

/-- One call of an encoder, with the calling domain and the time of the call
where the encoder uses them. -/
inductive encoder_call where
  | ev_begin (caml_state_id timestamp : Nat) (phase : Int)
  | ev_end (caml_state_id timestamp : Nat) (phase : Int)
  | ev_counter (caml_state_id timestamp : Nat) (counter : Int) (val : Nat)
  | ev_lifecycle (caml_state_id timestamp : Nat) (lifecycle : ev_lifecycle) (data : Int)
  | ev_alloc (sz : Nat)
  | ev_alloc_flush (caml_state_id timestamp : Nat)
  | user_write (caml_state_id timestamp : Nat) (write_buffer : List Nat) (event : user_event)
      (event_content : Int)

/-- Lift a result without exceptions to an outcome. -/
def Outcome.ofExcept : Except Fault State → Outcome Unit
  | .ok s => .ret () s
  | .error f => .fault f

/-- Run one encoder call. -/
def encoder_call.run (callback : Callback) (fuel : Nat) : encoder_call → State → Outcome Unit
  | .ev_begin d t phase, s => .ofExcept (caml_ev_begin fuel d t phase s)
  | .ev_end d t phase, s => .ofExcept (caml_ev_end fuel d t phase s)
  | .ev_counter d t counter val, s => .ofExcept (caml_ev_counter fuel d t counter val s)
  | .ev_lifecycle d t l data, s => .ofExcept (caml_ev_lifecycle fuel d t l data s)
  | .ev_alloc sz, s => .ret () (caml_ev_alloc sz s)
  | .ev_alloc_flush d t, s => .ofExcept (caml_ev_alloc_flush fuel d t s)
  | .user_write d t buffer event content, s =>
    match caml_runtime_events_user_write callback fuel d t buffer event content s with
    | .ret _ s1 => .ret () s1
    | .raise e s1 => .raise e s1
    | .fault f => .fault f

/-- Run successive encoder calls, up to the first that does not return. -/
def run_encoders (callback : Callback) (fuel : Nat) : List encoder_call → State → Outcome Unit
  | [], s => .ret () s
  | c :: rest, s =>
    match c.run callback fuel s with
    | .ret _ s1 => run_encoders callback fuel rest s1
    | .raise e s1 => .raise e s1
    | .fault f => .fault f

/-- Successive registrations of the names given, each with no tag and the type
`typ`: whether each call returned normally, and the final state. -/
def register_sequence (typ : event_type) : List (List Nat) → State → List Bool × State
  | [], s => ([], s)
  | name :: rest, s =>
    match caml_runtime_events_user_register name none typ s with
    | .ret _ s1 => (true :: (register_sequence typ rest s1).1, (register_sequence typ rest s1).2)
    | .raise _ s1 => (false :: (register_sequence typ rest s1).1, (register_sequence typ rest s1).2)
    | .fault _ => ([], s)

/-! ## Auxiliary definitions for the statements -/

/-- The ring metadata record of slot `d` of the current region, if there is a
region. -/
def State.ring_header (s : State) (d : Nat) : Option runtime_events_buffer_header :=
  s.current_metadata.map (fun m => m.headers d)

/-- The state a registration leaves when it returns normally: the counter is
incremented, the name is written to the mapped table if tracing is enabled, and
the new entry is at the front of the registration list. -/
def registered (event_name : List Nat) (event_tag : Option Nat) (typ : event_type)
    (s : State) : State :=
  { s with
    runtime_custom_event_index := (s.runtime_custom_event_index + 1) % UINT64_MOD
    current_metadata :=
      if s.runtime_events_enabled != 0 then
        s.current_metadata.map
          (events_register_write_buffer (to_int s.runtime_custom_event_index) event_name)
      else s.current_metadata
    user_events :=
      { id := to_int s.runtime_custom_event_index, name := event_name, typ := typ,
        tag := event_tag } :: s.user_events }

/-- A chain of records in a ring of `cap` words: starting at the logical index
`p`, the header word found at the physical offset of each record start carries
the length of that record, which is not zero. -/
def Chain (cap : Nat) (ring : Nat → Nat) : Nat → List Nat → Prop
  | _, [] => True
  | p, l :: ls =>
    0 < l ∧ RUNTIME_EVENTS_ITEM_LENGTH (ring (p % cap)) = l ∧ Chain cap ring (p + l) ls

/-- A build with the structure sizes and bucket counts of a 64-bit target,
used for concrete instances. -/
def example_build : Build :=
  { sizeof_metadata_header := 64
    sizeof_buffer_header := 80
    sizeof_custom_event := 128
    RUNTIME_EVENTS_NUM_ALLOC_BUCKETS_SINGLE := 1
    RUNTIME_EVENTS_NUM_ALLOC_BUCKETS_DECADE := 9
    RUNTIME_EVENTS_NUM_ALLOC_BUCKETS := 20 }

/-- The contents of a newly created ring file: all bytes zero. -/
def zero_file : Mapping :=
  { headers := fun _ => { ring_head := 0, ring_tail := 0 }
    data := fun _ => 0
    custom_events := fun _ _ => 0 }

/-- The state after `caml_runtime_events_init` without the start variable, for
two domain slots and rings of `2 ^ log_wsize` words (`log_wsize` below 31). -/
def example_init (log_wsize : Nat) : State :=
  { initial_state example_build 2 log_wsize with ring_size_words := 1 <<< log_wsize }

/-- The state of a result, or the state given when there is none. -/
def state_or (dflt : State) : Except Fault State → State
  | .ok s => s
  | .error _ => dflt

/-- The example state after `caml_runtime_events_start` run by domain 0 of
process 1234 at time 77 on a new ring file. -/
def example_started (log_wsize : Nat) : State :=
  state_or (example_init log_wsize)
    (caml_runtime_events_start 0 77 1234 (some zero_file) 1 (example_init log_wsize))

/-- The state the create step leaves when it is run by domain `d` on a state in
which tracing is not enabled: the new region holds the `EV_RING_START` event
in the ring of `d` and the names of the registration list in its table. -/
def created (d timestamp : Nat) (pid : Int) (f : Mapping) (s : State) : State :=
  { s with
    current_ring_loc := some (ring_file_location s.runtime_events_path pid)
    current_ring_total_size := stored_ring_total_size s
    runtime_events_enabled := 1
    runtime_events_paused := 0
    current_metadata := some (replay_user_events s.user_events
      (write_item (create_region f s) d (write_plan (create_region f s) d 1) 0 timestamp
        .EV_RUNTIME ev_runtime_message_type.EV_LIFECYCLE.code
        ev_lifecycle.EV_RING_START.code 1 (some [to_uint64 pid]) 0)) }

/-- The physical offset at which `write_to_ring` puts the header word of the
event: the start of the ring if padding is required, else the tail offset. -/
def WritePlan.event_offset (p : WritePlan) : Nat :=
  if p.padding_required > 0 then 0 else p.ring_tail_offset

/-- A call of `write_to_ring` for a runtime counter event with a payload of
`n` words, used for concrete instances. -/
def example_call (n : Nat) : write_call :=
  { timestamp := 100
    category := .EV_RUNTIME
    type := ev_runtime_message_type.EV_COUNTER.code
    event_id := 7
    event_length := n
    content := some (List.replicate n 9)
    word_offset := 0 }

/-- The region of a state, or the region given when there is none. -/
def region_or (dflt : Region) (s : State) : Region :=
  s.current_metadata.getD dflt

/-- The word at physical offset `i` of the ring of domain `d`, or 0 when there
is no region. -/
def State.ring_word (s : State) (d i : Nat) : Nat :=
  match s.current_metadata with
  | some m => m.data (ring_ptr m d i)
  | none => 0

/-- The head after `j` rounds of the head-advancing loop of `write_to_ring`. -/
def head_after (ring_mask : Nat) (ring : Nat → Nat) : Nat → Nat → Nat
  | 0, ring_head => ring_head
  | j + 1, ring_head =>
    head_after ring_mask ring j
      ((ring_head + RUNTIME_EVENTS_ITEM_LENGTH (ring (ring_head &&& ring_mask))) % UINT64_MOD)

/-- A region over the all-zero mapping, used as a default. -/
def zero_region : Region :=
  create_region zero_file (example_init 0)

/-- The example state with rings of 16 words after domain 1 wrote two events of
total length 7: the tail of its ring is at offset 14. -/
def example_before_padding : State :=
  state_or (example_init 4)
    (write_calls 16 1 [example_call 5, example_call 5] (example_started 4))

/-- The example state `example_before_padding` after domain 1 wrote one more
event, of total length 4. -/
def example_after_padding : State :=
  state_or (example_init 4) ((example_call 2).run 16 1 example_before_padding)

/-- The state an outcome leaves, if it leaves one. -/
def Outcome.final_state {α : Type} : Outcome α → Option State
  | .ret _ s => some s
  | .raise _ s => some s
  | .fault _ => none

/-- The value returned, if the outcome is a normal return. -/
def Outcome.value {α : Type} : Outcome α → Option α
  | .ret v _ => some v
  | .raise _ _ => none
  | .fault _ => none

/-- The exception raised, if the outcome is an exception. -/
def Outcome.exn {α : Type} : Outcome α → Option Exn
  | .ret _ _ => none
  | .raise e _ => some e
  | .fault _ => none

/-- The `i`-th of a family of distinct two-byte names without zero bytes. -/
def example_name (i : Nat) : List Nat :=
  [1 + i % 255, 1 + i / 255]

/-- The first `n` names of the family `example_name`. -/
def example_names (n : Nat) : List (List Nat) :=
  (List.range n).map example_name

/-- One operation of the registry and lifecycle interface: a registration, a
start (with the domain that runs the create step, the time, the process id and
the contents of the mapped ring file) or a stop. -/
inductive registry_op where
  | register (event_name : List Nat) (event_tag : Option Nat) (typ : event_type)
  | start (stw_domain timestamp : Nat) (pid : Int) (file : Mapping)
  | stop (caml_state_id timestamp : Nat)

/-- Run one operation; `none` when it does not return normally (a registration
that raises, a start or stop that does not return). -/
def registry_op.run (fuel : Nat) : registry_op → State → Option State
  | .register event_name event_tag typ, s =>
    match caml_runtime_events_user_register event_name event_tag typ s with
    | .ret _ s1 => some s1
    | .raise _ _ => none
    | .fault _ => none
  | .start stw_domain timestamp pid file, s =>
    match caml_runtime_events_start stw_domain timestamp pid (some file) fuel s with
    | .ok s1 => some s1
    | .error _ => none
  | .stop caml_state_id timestamp, s =>
    match caml_runtime_events_destroy fuel caml_state_id timestamp s with
    | .ok s1 => some s1
    | .error _ => none

/-- Run successive operations, all of which must return normally. -/
def run_ops (fuel : Nat) : List registry_op → State → Option State
  | [], s => some s
  | op :: rest, s =>
    match op.run fuel s with
    | some s1 => run_ops fuel rest s1
    | none => none

/-- The name of the entry `e` is stored in slot `e.id` of the custom event
table of `m`, as `strncpy` leaves it: the bytes of the name followed by zero
bytes, over the first `RUNTIME_EVENTS_CUSTOM_EVENT_ID_LENGTH - 1` bytes of the
slot. -/
def name_stored (m : Region) (e : user_event) : Prop :=
  ∀ i, i < RUNTIME_EVENTS_CUSTOM_EVENT_ID_LENGTH - 1 → m.custom_events e.id i = e.name.getD i 0

/-- The invariant of the registry along successful operations: the names hold
no zero byte, the ids are distinct and below the counter, the counter is at
most one past the capacity, and while tracing is enabled every name is stored
in the mapped table. -/
def TableInv (s : State) : Prop :=
  (∀ e ∈ s.user_events, 0 ∉ e.name ∧ 0 ≤ e.id ∧ e.id < (s.runtime_custom_event_index : Int)) ∧
  s.runtime_custom_event_index ≤ RUNTIME_EVENTS_MAX_CUSTOM_EVENTS + 1 ∧
  (s.user_events.map (fun e => e.id)).Nodup ∧
  (s.runtime_events_enabled ≠ 0 →
    ∃ m, s.current_metadata = some m ∧ ∀ e ∈ s.user_events, name_stored m e)

/-- A callback environment in which every serializer fails with exception 7
and changes nothing. -/
def failing_serializer : Callback :=
  fun _ write_buffer _ s => { result := .error 7, buffer := write_buffer, state := s }

/-- A descriptor of custom type, with the serializer 0. -/
def example_custom_event : user_event :=
  { id := 0, name := [97], typ := .Custom 0, tag := none }

/-- The example state after a start, paused: the state a pause of the example
state leaves. -/
def example_paused : State :=
  { example_started 4 with runtime_events_paused := 1 }

/-- The state `example_paused` after a resume by domain 0 at time 101. -/
def example_resumed : State :=
  state_or (example_init 4) (caml_runtime_events_resume 16 0 101 example_paused)

/-- The example state with rings of 64 words after the allocation of a block
of size 0, one of size 3 and one of size 12 was counted. -/
def example_allocated : State :=
  caml_ev_alloc 12 (caml_ev_alloc 3 (caml_ev_alloc 0 (example_started 6)))

/-- The state `example_allocated` after a flush by domain 0 at time 100. -/
def example_flushed : State :=
  state_or (example_init 6) (caml_ev_alloc_flush 64 0 100 example_allocated)

/-- The names of the registration list passed the checks of a registration:
at most 127 bytes, none of them zero. -/
def NamesValid (s : State) : Prop :=
  ∀ e ∈ s.user_events, e.name.length ≤ RUNTIME_EVENTS_CUSTOM_EVENT_ID_LENGTH - 1 ∧ 0 ∉ e.name

/-- The example state before a start, after the registration of the names
`[97]`, `[98]` and `[97]` with the type unit. -/
def example_registry : State :=
  (register_sequence .Unit [[97], [98], [97]] (example_init 4)).2

/-- The example state after `caml_runtime_events_start` run by domain
`stw_domain` of process 1234 at time 77 on a new ring file. -/
def example_started_by (stw_domain log_wsize : Nat) : State :=
  state_or (example_init log_wsize)
    (caml_runtime_events_start stw_domain 77 1234 (some zero_file) 1 (example_init log_wsize))

/-- The state `example_started_by 1 2`, with rings of 4 words, after domain 0
wrote two events of total length 2. -/
def example_before_overrun : State :=
  state_or (example_init 2)
    (write_calls 16 0 [example_call 0, example_call 0] (example_started_by 1 2))

/-- The state `example_before_overrun` after domain 0 wrote one more event, of
total length 5. -/
def example_overrun : State :=
  state_or (example_init 2) ((example_call 3).run 16 0 example_before_overrun)

/-- A record of a ring as the writer stored it: the total length in words that
its header word carries, and the words stored from the start of the record
on. -/
structure record where
  length : Nat
  words : List Nat
deriving DecidableEq, Repr

/-- The record `write_to_ring` stores for a call: the header word, the
timestamp and, if there is a content pointer, `event_length` payload words
copied from word `word_offset` of the content on. -/
def event_record (c : write_call) : record :=
  { length := c.event_length + 2
    words :=
      RUNTIME_EVENTS_HEADER ((c.event_length + 2) % UINT64_MOD) (c.category == .EV_RUNTIME)
        c.type (to_uint64 c.event_id) :: c.timestamp ::
      (match c.content with
        | some content =>
          (List.range c.event_length).map (fun i => content.getD (c.word_offset + i) 0)
        | none => []) }

/-- The padding record `write_to_ring` stores when an event does not fit before
the end of the ring: one header word carrying the distance to the end. -/
def padding_record (ring_distance_to_end : Nat) : record :=
  { length := ring_distance_to_end
    words := [(ring_distance_to_end <<< 54) % UINT64_MOD] }

/-- The ring of `cap` words holds the records `rs` one after the other from the
logical index `p` on: the header word at the start of each record decodes to
the length of the record, which is not zero, and the words the writer stored
for the record are still in place. -/
def Records (cap : Nat) (ring : Nat → Nat) : Nat → List record → Prop
  | _, [] => True
  | p, r :: rs =>
    0 < r.length ∧ RUNTIME_EVENTS_ITEM_LENGTH (ring (p % cap)) = r.length ∧
    (∀ i, i < r.words.length → ring ((p + i) % cap) = r.words.getD i 0) ∧
    Records cap ring (p + r.length) rs

/-- Walk a ring from the logical index `p`: add the length decoded from the
header word at `p mod cap` until `tail` is reached, in at most `steps` steps.
The result tells whether `tail` was reached exactly. -/
def walk (cap : Nat) (ring : Nat → Nat) (tail : Nat) : Nat → Nat → Bool
  | 0, p => p == tail
  | steps + 1, p =>
    if p == tail then true
    else if tail < p then false
    else walk cap ring tail steps (p + RUNTIME_EVENTS_ITEM_LENGTH (ring (p % cap)))

/-- The record is one the writer stores in the course of the calls `calls`: a
padding record, or the event record of one of the calls. -/
def WrittenBy (calls : List write_call) (r : record) : Prop :=
  (∃ pad, 0 < pad ∧ r = padding_record pad) ∨ (∃ c ∈ calls, r = event_record c)

/-- The ring of domain `d` of the region `m` holds the records `rs` from its
head to its tail, each of them written in the course of the calls `calls`. -/
def RecordChain (cap : Nat) (m : Region) (d : Nat) (calls : List write_call)
    (rs : List record) : Prop :=
  Records cap (fun i => m.data (ring_ptr m d i)) (m.headers d).ring_head rs ∧
  (m.headers d).ring_head + (rs.map (fun r => r.length)).sum = (m.headers d).ring_tail ∧
  (∀ r ∈ rs, r.words.length ≤ r.length ∧ WrittenBy calls r)

/-- The example state with rings of 16 words after domain 1 wrote one event of
total length 8 to its ring: head 0, tail 8. -/
def example_half_full : State :=
  state_or (example_init 4) ((example_call 6).run 16 1 (example_started 4))

/-- The state `example_half_full` after domain 1 wrote one more event of total
length 8. -/
def example_evicted : State :=
  state_or (example_init 4) ((example_call 6).run 16 1 example_half_full)

/-- The bucket of an allocation of `sz` words as the histogram is specified,
with `S` decades of single-size buckets, `D` buckets of ten sizes each and `N`
buckets in all: the size itself below `10 * S`, one bucket per ten sizes below
`10 * S + 10 * D`, and the last bucket for every larger size. -/
def bucket_of_size (S D N sz : Nat) : Nat :=
  if sz < 10 * S then sz
  else if sz < 10 * S + 10 * D then sz / 10 + 9 * S
  else N - 1

/-- The two assertions of `write_to_ring` on its arguments (lines 564-568):
the payload length is below `RUNTIME_EVENTS_MAX_MSG_LENGTH`, and the event is
not the reserved padding triple, runtime category with subtype `EV_INTERNAL`
and id 0. -/
def write_to_ring_asserts (category : ev_category) (type : Nat) (event_id : Int)
    (event_length : Nat) : Bool :=
  decide (event_length < RUNTIME_EVENTS_MAX_MSG_LENGTH) &&
    !(category == .EV_RUNTIME && type == ev_runtime_message_type.EV_INTERNAL.code &&
      event_id == 0)

/-- A callback environment in which every serializer returns 8184, the number
of bytes it reports to have written, and changes nothing. -/
def oversize_serializer : Callback :=
  fun _ write_buffer _ s => { result := .ok 8184, buffer := write_buffer, state := s }

/-- A callback environment in which every serializer returns 13 and changes
nothing. -/
def example_serializer : Callback :=
  fun _ write_buffer _ s => { result := .ok 13, buffer := write_buffer, state := s }

/-- The number of 64-bit words of a custom payload of `res` bytes, as line 804
computes it: `(len_bytes + sizeof(uint64_t)) / sizeof(uint64_t)`. -/
def custom_len_64bit_word (res : Int) : Nat :=
  (to_uint64 res + 8) % UINT64_MOD / 8

/-- The byte index of the trailer of a custom payload of `res` bytes, as line
805 computes it: `len_64bit_word * sizeof(uint64_t) - 1`. -/
def custom_offset_index (res : Int) : Nat :=
  (custom_len_64bit_word res * 8 + UINT64_MOD - 1) % UINT64_MOD

/-- The write buffer after line 806 stored the trailer byte
`offset_index - len_bytes` at the index `offset_index`. -/
def custom_buffer (buffer : List Nat) (res : Int) : List Nat :=
  buffer.set (custom_offset_index res)
    ((custom_offset_index res + UINT64_MOD - to_uint64 res) % UINT64_MOD % 256)

/-- The state the ring writer leaves when `caml_runtime_events_user_write`
calls it for the result 8184 of `oversize_serializer`, on the example state
with rings of 4096 words. -/
def example_oversize : State :=
  state_or (example_init 12)
    (write_to_ring 16 0 100 .EV_USER ev_user_message_type.EV_USER_MSG_TYPE_CUSTOM.code
      example_custom_event.id 1024
      (some ((List.range 1024).map (word_of_bytes (custom_buffer [] 8184)))) 0
      (example_started 12))

/-- The example state with rings of 4096 words after domain 1 wrote four events
of total length 1023 to its empty ring: the ring holds four records, its head
is 0 and its tail is 4092. -/
def example_nearly_full : State :=
  state_or (example_init 12)
    (write_calls 16 1
      [example_call 1021, example_call 1021, example_call 1021, example_call 1021]
      (example_started 12))

/-- The region `m` has, in the mapping of the state `s`, the layout that lines
343-363 compute when none of their lengths is truncated: the ring metadata
array starts after the header of the region and has `max_domains` records, the
ring data area follows it with `max_domains` rings of `ring_size_bytes` bytes,
eight for each of the `ring_size_elements` words, the custom event table
follows the data area, and its end is the number `current_ring_total_size` of
mapped bytes, a value of type `int`. -/
def MappedLayout (s : State) (m : Region) : Prop :=
  m.headers_offset = s.build.sizeof_metadata_header ∧
  m.ring_header_size_bytes = s.build.sizeof_buffer_header ∧
  m.data_offset = m.headers_offset + m.max_domains * m.ring_header_size_bytes ∧
  m.ring_size_bytes = m.ring_size_elements * 8 ∧
  m.custom_events_offset = m.data_offset + m.max_domains * m.ring_size_bytes ∧
  s.current_ring_total_size =
    ((m.custom_events_offset +
      RUNTIME_EVENTS_MAX_CUSTOM_EVENTS * s.build.sizeof_custom_event : Nat) : Int) ∧
  s.current_ring_total_size < 2 ^ 31

/-- The byte of the mapping at which word `j` of the ring data area starts:
the data area starts `data_offset` bytes into the region. -/
def data_word_offset (m : Region) (j : Nat) : Nat :=
  m.data_offset + 8 * j

/-- Word `j` of the ring data area is one of the words of the ring of domain
`d`: its eight bytes are among the `ring_size_bytes` bytes that start at
`data_offset + d * ring_size_bytes`. -/
def InRing (m : Region) (d j : Nat) : Prop :=
  m.data_offset + d * m.ring_size_bytes ≤ data_word_offset m j ∧
  data_word_offset m j + 8 ≤ m.data_offset + (d + 1) * m.ring_size_bytes

/-- The ring metadata record and the ring of domain `d` lie inside the mapping
of the state `s`, apart from the other parts of the region: the record lies
after the header of the region and ends before the ring data area, the ring
ends before the custom event table, and the table starts inside the
`current_ring_total_size` bytes that are mapped. -/
def RingMapped (s : State) (m : Region) (d : Nat) : Prop :=
  s.build.sizeof_metadata_header ≤ m.headers_offset + d * m.ring_header_size_bytes ∧
  m.headers_offset + d * m.ring_header_size_bytes + s.build.sizeof_buffer_header ≤
    m.data_offset ∧
  m.data_offset + (d + 1) * m.ring_size_bytes ≤ m.custom_events_offset ∧
  ((m.custom_events_offset : Nat) : Int) ≤ s.current_ring_total_size ∧
  s.current_ring_total_size < 2 ^ 31

/-- The regions `m1` and `m` have the same header fields and the same custom
event table. -/
def SameHeader (m1 m : Region) : Prop :=
  m1.version = m.version ∧ m1.max_domains = m.max_domains ∧
  m1.ring_header_size_bytes = m.ring_header_size_bytes ∧
  m1.ring_size_bytes = m.ring_size_bytes ∧
  m1.ring_size_elements = m.ring_size_elements ∧
  m1.headers_offset = m.headers_offset ∧ m1.data_offset = m.data_offset ∧
  m1.custom_events_offset = m.custom_events_offset ∧
  m1.custom_events = m.custom_events

theorem state_or_eq (dflt : State) (r : Except Fault State) (h : r.toBool = true) :
    r = .ok (state_or dflt r) := by
  cases r with
  | error e => simp [Except.toBool] at h
  | ok s => rfl

theorem region_or_eq (dflt : Region) (s : State) (h : s.current_metadata.isSome = true) :
    s.current_metadata = some (region_or dflt s) := by
  unfold region_or
  cases hm : s.current_metadata with
  | none => simp [hm] at h
  | some m => rfl

theorem to_int_of_lt (n : Nat) (h : n < 2 ^ 31) : to_int n = (n : Int) := by
  have h1 : n % INT_MOD = n := Nat.mod_eq_of_lt (by simp only [INT_MOD]; omega)
  have h2 : n < INT_MOD / 2 := by simp only [INT_MOD]; omega
  simp [to_int, h1, h2]

theorem to_uint64_to_int_of_lt (n : Nat) (h : n < 2 ^ 31) :
    to_uint64 (to_int (n % UINT64_MOD)) = n := by
  have h1 : n % UINT64_MOD = n := Nat.mod_eq_of_lt (by simp only [UINT64_MOD]; omega)
  rw [h1, to_int_of_lt n h]
  simp only [to_uint64, UINT64_MOD]
  omega

theorem stored_ring_total_size_of_lt (s : State) (h : ring_total_size s < 2 ^ 31) :
    stored_ring_total_size s = (ring_total_size s : Int) := by
  have h1 : ring_total_size s % UINT64_MOD = ring_total_size s :=
    Nat.mod_eq_of_lt (by simp only [UINT64_MOD]; omega)
  rw [stored_ring_total_size, h1, to_int_of_lt _ h]

theorem create_region_offsets (f : Mapping) (s : State) (h : ring_total_size s < 2 ^ 31) :
    (create_region f s).headers_offset = s.build.sizeof_metadata_header ∧
    (create_region f s).data_offset =
      s.build.sizeof_metadata_header + s.max_domains * s.build.sizeof_buffer_header ∧
    (create_region f s).custom_events_offset =
      s.build.sizeof_metadata_header + s.max_domains * s.build.sizeof_buffer_header +
        s.max_domains * s.ring_size_words * 8 := by
  have e : ring_total_size s =
      RUNTIME_EVENTS_MAX_CUSTOM_EVENTS * s.build.sizeof_custom_event +
        (s.max_domains * s.ring_size_words * 8 +
          s.max_domains * s.build.sizeof_buffer_header) +
        s.build.sizeof_metadata_header := by
    simp only [ring_total_size]
    rw [Nat.mul_add, Nat.mul_assoc]
  rw [e] at h
  have a1 := to_uint64_to_int_of_lt (s.max_domains * s.build.sizeof_buffer_header) (by omega)
  have a2 := to_uint64_to_int_of_lt (s.max_domains * s.ring_size_words * 8) (by omega)
  refine ⟨rfl, ?_, ?_⟩
  · simp only [create_region, a1]
    exact Nat.mod_eq_of_lt (by simp only [UINT64_MOD]; omega)
  · simp only [create_region, a1, a2]
    rw [Nat.mod_eq_of_lt (a := s.build.sizeof_metadata_header +
      s.max_domains * s.build.sizeof_buffer_header) (by simp only [UINT64_MOD]; omega)]
    exact Nat.mod_eq_of_lt (by simp only [UINT64_MOD]; omega)

/-! ### Encoders while tracing is not active

Every encoder tests `ring_is_active` before anything else. -/

theorem ring_is_active_false_iff (s : State) :
    ring_is_active s = false ↔ s.runtime_events_enabled = 0 ∨ s.runtime_events_paused ≠ 0 := by
  simp only [ring_is_active]
  by_cases h1 : s.runtime_events_enabled = 0 <;> by_cases h2 : s.runtime_events_paused = 0 <;>
    simp [h1, h2]

theorem encoder_call_run_inactive (callback : Callback) (fuel : Nat) (c : encoder_call)
    (s : State) (h : ring_is_active s = false) : c.run callback fuel s = .ret () s := by
  cases c <;>
    simp [encoder_call.run, caml_ev_begin, caml_ev_end, caml_ev_counter, caml_ev_lifecycle,
      caml_ev_alloc, caml_ev_alloc_flush, caml_runtime_events_user_write, h, Outcome.ofExcept]

theorem run_encoders_inactive (callback : Callback) (fuel : Nat) (calls : List encoder_call)
    (s : State) (h : ring_is_active s = false) : run_encoders callback fuel calls s = .ret () s := by
  induction calls with
  | nil => rfl
  | cons c rest ih => simp [run_encoders, encoder_call_run_inactive callback fuel c s h, ih]

/-- C10: whenever tracing is not enabled or is paused, each of the seven
encoders returns and leaves the whole process state as it was (every ring
metadata record, all ring data, the allocation buckets), and
`caml_runtime_events_user_write` returns the same result whatever the callback
environment is, so the serializer is not run; hence any sequence of encoder
calls leaves the state as it was. In particular a successful pause only sets
the paused flag, and every sequence of encoder calls after it changes nothing. -/
theorem encoders_inactive_no_effect (callback : Callback) (fuel caml_state_id timestamp : Nat)
    (phase counter data event_content : Int) (val sz : Nat) (lifecycle : ev_lifecycle)
    (write_buffer : List Nat) (event : user_event) (calls : List encoder_call)
    (s : State) (h : ring_is_active s = false) :
    caml_ev_begin fuel caml_state_id timestamp phase s = .ok s ∧
    caml_ev_end fuel caml_state_id timestamp phase s = .ok s ∧
    caml_ev_counter fuel caml_state_id timestamp counter val s = .ok s ∧
    caml_ev_lifecycle fuel caml_state_id timestamp lifecycle data s = .ok s ∧
    caml_ev_alloc sz s = s ∧
    caml_ev_alloc_flush fuel caml_state_id timestamp s = .ok s ∧
    caml_runtime_events_user_write callback fuel caml_state_id timestamp write_buffer event
      event_content s = .ret write_buffer s ∧
    run_encoders callback fuel calls s = .ret () s ∧
    (∀ s0 : State, s0.runtime_events_enabled ≠ 0 → s0.runtime_events_paused = 0 →
      caml_runtime_events_pause fuel caml_state_id timestamp s0 =
        .ok { s0 with runtime_events_paused := 1 } ∧
      run_encoders callback fuel calls { s0 with runtime_events_paused := 1 } =
        .ret () { s0 with runtime_events_paused := 1 }) := by
  refine ⟨?_, ?_, ?_, ?_, ?_, ?_, ?_, ?_, ?_⟩
  · simp [caml_ev_begin, h]
  · simp [caml_ev_end, h]
  · simp [caml_ev_counter, h]
  · simp [caml_ev_lifecycle, h]
  · simp [caml_ev_alloc, h]
  · simp [caml_ev_alloc_flush, h]
  · simp [caml_runtime_events_user_write, h]
  · exact run_encoders_inactive callback fuel calls s h
  · intro s0 h1 h2
    have hp : ring_is_active { s0 with runtime_events_paused := 1 } = false := by
      simp [ring_is_active]
    refine ⟨?_, run_encoders_inactive callback fuel calls _ hp⟩
    simp [caml_runtime_events_pause, h1, h2, caml_ev_lifecycle, hp]

/-- An instance of `encoders_inactive_no_effect`: the example state after a start
and a pause, on which tracing is enabled and paused. -/
theorem encoders_inactive_no_effect_witness :
    ring_is_active (state_or (example_init 4)
      (caml_runtime_events_pause 1 0 80 (example_started 4))) = false ∧
    caml_ev_counter 1 0 81 3 42 (state_or (example_init 4)
      (caml_runtime_events_pause 1 0 80 (example_started 4))) =
      .ok (state_or (example_init 4) (caml_runtime_events_pause 1 0 80 (example_started 4))) :=
  ⟨by decide,
    (encoders_inactive_no_effect (fun _ b _ s => ⟨.error 7, b, s⟩) 1 0 81 0 3 0 0 42 0
      .EV_RING_START [] ⟨0, [], .Unit, none⟩ [] _ (by decide)).2.2.1⟩

/-! ### Header words

The length field of a header word and the round trip of its fields. -/

theorem item_length_eq (header : Nat) :
    RUNTIME_EVENTS_ITEM_LENGTH header = header / 2 ^ 54 % 2 ^ 10 := by
  simp only [RUNTIME_EVENTS_ITEM_LENGTH, Nat.shiftRight_eq_div_pow, Nat.shiftLeft_eq, Nat.one_mul]
  exact Nat.and_pow_two_sub_one_eq_mod _ 10

theorem item_length_padding (n : Nat) (h : n < 2 ^ 10) :
    RUNTIME_EVENTS_ITEM_LENGTH ((n <<< 54) % UINT64_MOD) = n := by
  rw [item_length_eq, Nat.shiftLeft_eq]
  simp only [UINT64_MOD]
  omega

theorem header_eq_add (length : Nat) (is_runtime : Bool) (type id : Nat)
    (hl : length < 2 ^ 10) (ht : type < 2 ^ 5) (hid : id < 2 ^ 18) :
    ∃ rest, rest < 2 ^ 54 ∧
      RUNTIME_EVENTS_HEADER length is_runtime type id = 2 ^ 54 * length + rest := by
  refine ⟨(if is_runtime then 0 else 1 <<< 53) ||| ((type <<< 49) % UINT64_MOD) |||
    ((id <<< 36) % UINT64_MOD), ?_, ?_⟩
  · apply Nat.or_lt_two_pow
    · apply Nat.or_lt_two_pow
      · cases is_runtime <;> simp
      · rw [Nat.shiftLeft_eq]
        simp only [UINT64_MOD]
        omega
    · rw [Nat.shiftLeft_eq]
      simp only [UINT64_MOD]
      omega
  · have hrest : (if is_runtime then 0 else 1 <<< 53) ||| ((type <<< 49) % UINT64_MOD) |||
        ((id <<< 36) % UINT64_MOD) < 2 ^ 54 := by
      apply Nat.or_lt_two_pow
      · apply Nat.or_lt_two_pow
        · cases is_runtime <;> simp
        · rw [Nat.shiftLeft_eq]
          simp only [UINT64_MOD]
          omega
      · rw [Nat.shiftLeft_eq]
        simp only [UINT64_MOD]
        omega
    rw [Nat.mul_add_lt_is_or hrest]
    have hA : (length <<< 54) % UINT64_MOD = 2 ^ 54 * length := by
      rw [Nat.shiftLeft_eq]
      simp only [UINT64_MOD]
      omega
    simp only [RUNTIME_EVENTS_HEADER, hA, Nat.or_assoc]

theorem item_length_header (length : Nat) (is_runtime : Bool) (type id : Nat)
    (hl : length < 2 ^ 10) (ht : type < 2 ^ 5) (hid : id < 2 ^ 18) :
    RUNTIME_EVENTS_ITEM_LENGTH (RUNTIME_EVENTS_HEADER length is_runtime type id) = length := by
  obtain ⟨rest, hrest, heq⟩ := header_eq_add length is_runtime type id hl ht hid
  rw [heq, item_length_eq]
  omega

theorem and_mask_eq_mod (x k : Nat) (hk : k < 64) :
    x &&& ((2 ^ k + UINT64_MOD - 1) % UINT64_MOD) = x % 2 ^ k := by
  have h1 : 2 ^ k < 2 ^ 64 := Nat.pow_lt_pow_right (by omega) hk
  have h2 : 0 < 2 ^ k := Nat.pos_pow_of_pos _ (by omega)
  have : (2 ^ k + UINT64_MOD - 1) % UINT64_MOD = 2 ^ k - 1 := by
    simp only [UINT64_MOD]
    omega
  rw [this]
  exact Nat.and_pow_two_sub_one_eq_mod x k

theorem and_two_pow_eq_zero_iff (x i : Nat) : x &&& 2 ^ i = 0 ↔ x / 2 ^ i % 2 = 0 := by
  have hbit : Nat.testBit x i = decide (x / 2 ^ i % 2 = 1) := Nat.testBit_to_div_mod
  constructor
  · intro h
    have h1 : Nat.testBit (x &&& 2 ^ i) i = false := by rw [h]; simp
    rw [Nat.testBit_and, Nat.testBit_two_pow_self, Bool.and_true, hbit] at h1
    have := of_decide_eq_false h1
    omega
  · intro h
    apply Nat.eq_of_testBit_eq
    intro j
    rw [Nat.testBit_and, Nat.testBit_two_pow, Nat.zero_testBit]
    by_cases hj : i = j
    · subst hj
      rw [hbit]
      simp [h]
    · simp [hj]

theorem header_eq_sum (length : Nat) (is_runtime : Bool) (type id : Nat)
    (hl : length < 2 ^ 10) (ht : type < 2 ^ 4) (hid : id < 2 ^ 13) :
    RUNTIME_EVENTS_HEADER length is_runtime type id =
      2 ^ 54 * length + 2 ^ 53 * (if is_runtime then 0 else 1) + 2 ^ 49 * type + 2 ^ 36 * id := by
  have hM : UINT64_MOD = 2 ^ 64 := rfl
  have hA : (length <<< 54) % UINT64_MOD = 2 ^ 54 * length := by
    rw [Nat.shiftLeft_eq, hM]; omega
  have hT : (type <<< 49) % UINT64_MOD = 2 ^ 49 * type := by
    rw [Nat.shiftLeft_eq, hM]; omega
  have hI : (id <<< 36) % UINT64_MOD = 2 ^ 36 * id := by
    rw [Nat.shiftLeft_eq, hM]; omega
  have hC : (if is_runtime then 0 else 1 <<< 53) = 2 ^ 53 * (if is_runtime then 0 else 1) := by
    cases is_runtime <;> simp [Nat.shiftLeft_eq]
  obtain ⟨cb, hcb⟩ : ∃ cb : Nat, cb = if is_runtime then 0 else 1 := ⟨_, rfl⟩
  have hcb1 : cb ≤ 1 := by rw [hcb]; split <;> omega
  simp only [RUNTIME_EVENTS_HEADER, hA, hT, hI, hC]
  rw [← hcb]
  rw [← Nat.mul_add_lt_is_or (by omega : 2 ^ 53 * cb < 2 ^ 54)]
  have e1 : 2 ^ 54 * length + 2 ^ 53 * cb = 2 ^ 53 * (2 * length + cb) := by omega
  rw [e1, ← Nat.mul_add_lt_is_or (by omega : 2 ^ 49 * type < 2 ^ 53)]
  have e2 : 2 ^ 53 * (2 * length + cb) + 2 ^ 49 * type =
      2 ^ 49 * (16 * (2 * length + cb) + type) := by omega
  rw [e2, ← Nat.mul_add_lt_is_or (by omega : 2 ^ 36 * id < 2 ^ 49)]

/-- The header word decodes to the fields it was built from when the total
length is below `2 ^ 10`, the subtype below `2 ^ 4` and the event id below
`2 ^ 13`. -/
theorem header_round_trip (length : Nat) (is_runtime : Bool) (type id : Nat)
    (hl : length < 2 ^ 10) (ht : type < 2 ^ 4) (hid : id < 2 ^ 13) :
    RUNTIME_EVENTS_ITEM_LENGTH (RUNTIME_EVENTS_HEADER length is_runtime type id) = length ∧
    RUNTIME_EVENTS_ITEM_IS_RUNTIME (RUNTIME_EVENTS_HEADER length is_runtime type id)
      = is_runtime ∧
    RUNTIME_EVENTS_ITEM_TYPE (RUNTIME_EVENTS_HEADER length is_runtime type id) = type ∧
    RUNTIME_EVENTS_ITEM_ID (RUNTIME_EVENTS_HEADER length is_runtime type id) = id := by
  rw [header_eq_sum length is_runtime type id hl ht hid]
  obtain ⟨cb, hcb⟩ : ∃ cb : Nat, cb = if is_runtime then 0 else 1 := ⟨_, rfl⟩
  have hcb1 : cb ≤ 1 := by rw [hcb]; split <;> omega
  rw [← hcb]
  refine ⟨?_, ?_, ?_, ?_⟩
  · rw [item_length_eq]; omega
  · simp only [RUNTIME_EVENTS_ITEM_IS_RUNTIME, Nat.shiftLeft_eq, Nat.one_mul]
    have hiff := and_two_pow_eq_zero_iff
      (2 ^ 54 * length + 2 ^ 53 * cb + 2 ^ 49 * type + 2 ^ 36 * id) 53
    have hdiv : (2 ^ 54 * length + 2 ^ 53 * cb + 2 ^ 49 * type + 2 ^ 36 * id) / 2 ^ 53 % 2
        = cb := by omega
    rw [hdiv] at hiff
    cases is_runtime with
    | true =>
      simp only [if_true] at hcb
      rw [hiff.2 hcb]
      rfl
    | false =>
      simp only [Bool.false_eq_true, if_false] at hcb
      have : ¬ (2 ^ 54 * length + 2 ^ 53 * cb + 2 ^ 49 * type + 2 ^ 36 * id) &&& 2 ^ 53 = 0 := by
        rw [hiff]; omega
      rw [beq_eq_false_iff_ne]
      exact this
  · simp only [RUNTIME_EVENTS_ITEM_TYPE, Nat.shiftRight_eq_div_pow, Nat.shiftLeft_eq, Nat.one_mul]
    rw [Nat.and_pow_two_sub_one_eq_mod _ 4]
    omega
  · simp only [RUNTIME_EVENTS_ITEM_ID, Nat.shiftRight_eq_div_pow, Nat.shiftLeft_eq, Nat.one_mul]
    rw [Nat.and_pow_two_sub_one_eq_mod _ 13]
    omega

/-- C3 (failing input): a payload of 1022 words is below
`RUNTIME_EVENTS_MAX_MSG_LENGTH`, so `write_to_ring` accepts it, and the call
returns; but the header word it stores at offset 0 of the ring decodes to the
length 0, not to the total length 1024. With a payload of 1023 words the header
decodes to the length 1, not 1025. -/
theorem write_to_ring_header_length_overflow :
    (1022 < RUNTIME_EVENTS_MAX_MSG_LENGTH ∧
      ((example_call 1022).run 0 1 (example_started 12)).toBool = true ∧
      RUNTIME_EVENTS_ITEM_LENGTH ((state_or (example_init 12)
        ((example_call 1022).run 0 1 (example_started 12))).ring_word 1 0) = 0) ∧
    (1023 < RUNTIME_EVENTS_MAX_MSG_LENGTH ∧
      ((example_call 1023).run 0 1 (example_started 12)).toBool = true ∧
      RUNTIME_EVENTS_ITEM_LENGTH ((state_or (example_init 12)
        ((example_call 1023).run 0 1 (example_started 12))).ring_word 1 0) = 1) := by
  refine ⟨⟨?_, ?_, ?_⟩, ⟨?_, ?_, ?_⟩⟩ <;> decide

/-! ### One call of the ring writer

What `write_to_ring` stores, and where. -/

theorem advance_head_no_room (ring_size_words ring_mask : Nat) (ring : Nat → Nat)
    (target fuel ring_head : Nat)
    (h : (target + UINT64_MOD - ring_head) % UINT64_MOD < ring_size_words) :
    advance_head ring_size_words ring_mask ring target fuel ring_head = .ok ring_head := by
  cases fuel <;> simp [advance_head, Nat.not_le.2 h]

theorem write_plan_empty (m : Region) (d event_length : Nat)
    (hh : (m.headers d).ring_head = 0) (ht : (m.headers d).ring_tail = 0)
    (hcap : event_length + 2 ≤ m.ring_size_elements) (hlt : m.ring_size_elements < UINT64_MOD) :
    write_plan m d event_length =
      { length_with_header_ts := event_length + 2, ring_head := 0, ring_tail := 0,
        ring_mask := m.ring_size_elements - 1, ring_tail_offset := 0,
        ring_distance_to_end := m.ring_size_elements, padding_required := 0 } := by
  have h1 : (event_length + 2) % UINT64_MOD = event_length + 2 := Nat.mod_eq_of_lt (by omega)
  have h2 : (m.ring_size_elements + UINT64_MOD - 1) % UINT64_MOD = m.ring_size_elements - 1 := by
    simp only [UINT64_MOD] at *
    omega
  simp only [write_plan, get_ring_buffer_by_domain_id, hh, ht, h1, h2, Nat.zero_and,
    Nat.sub_zero, Nat.add_mod_right, Nat.mod_eq_of_lt hlt]
  simp [Nat.not_lt.2 hcap]

theorem write_to_ring_ok (fuel d timestamp : Nat) (category : ev_category) (type : Nat)
    (event_id : Int) (event_length : Nat) (content : Option (List Nat)) (word_offset : Nat)
    (s : State) (m : Region) (ring_head : Nat) (hm : s.current_metadata = some m)
    (hadv : advance_head (s.ring_size_words % UINT64_MOD)
      (write_plan m d event_length).ring_mask (fun i => m.data (ring_ptr m d i))
      (((write_plan m d event_length).ring_tail +
        (write_plan m d event_length).length_with_header_ts +
        (write_plan m d event_length).padding_required) % UINT64_MOD)
      fuel (write_plan m d event_length).ring_head = .ok ring_head) :
    write_to_ring fuel d timestamp category type event_id event_length content word_offset s =
      .ok { s with
        current_metadata := some (write_item m d (write_plan m d event_length) ring_head
          timestamp category type event_id event_length content word_offset) } := by
  unfold write_to_ring
  simp only [hm, hadv]

theorem write_to_ring_ok_inv (fuel d timestamp : Nat) (category : ev_category) (type : Nat)
    (event_id : Int) (event_length : Nat) (content : Option (List Nat)) (word_offset : Nat)
    (s s1 : State)
    (h : write_to_ring fuel d timestamp category type event_id event_length content
      word_offset s = .ok s1) :
    ∃ m ring_head, s.current_metadata = some m ∧
      advance_head (s.ring_size_words % UINT64_MOD)
        (write_plan m d event_length).ring_mask (fun i => m.data (ring_ptr m d i))
        (((write_plan m d event_length).ring_tail +
          (write_plan m d event_length).length_with_header_ts +
          (write_plan m d event_length).padding_required) % UINT64_MOD)
        fuel (write_plan m d event_length).ring_head = .ok ring_head ∧
      s1 = { s with
        current_metadata := some (write_item m d (write_plan m d event_length) ring_head
          timestamp category type event_id event_length content word_offset) } := by
  unfold write_to_ring at h
  cases hm : s.current_metadata with
  | none => simp [hm] at h
  | some m =>
    simp only [hm] at h
    split at h
    · cases h
    · rename_i ring_head hadv
      exact ⟨m, ring_head, rfl, hadv, by cases h; rfl⟩

theorem write_item_fields (m : Region) (d : Nat) (p : WritePlan) (ring_head timestamp : Nat)
    (category : ev_category) (type : Nat) (event_id : Int) (event_length : Nat)
    (content : Option (List Nat)) (word_offset : Nat) :
    (write_item m d p ring_head timestamp category type event_id event_length content
        word_offset).ring_size_elements = m.ring_size_elements ∧
    (write_item m d p ring_head timestamp category type event_id event_length content
        word_offset).ring_size_bytes = m.ring_size_bytes ∧
    (write_item m d p ring_head timestamp category type event_id event_length content
        word_offset).custom_events = m.custom_events ∧
    (write_item m d p ring_head timestamp category type event_id event_length content
        word_offset).headers = set_ring_buffer m.headers d
      { ring_head := ring_head
        ring_tail := ((if p.padding_required > 0 then
            (p.ring_tail + p.ring_distance_to_end) % UINT64_MOD else p.ring_tail) +
          p.length_with_header_ts) % UINT64_MOD } := by
  simp [write_item]

theorem write_item_header (m : Region) (d : Nat) (p : WritePlan) (ring_head timestamp : Nat)
    (category : ev_category) (type : Nat) (event_id : Int) (event_length : Nat)
    (content : Option (List Nat)) (word_offset : Nat) :
    (write_item m d p ring_head timestamp category type event_id event_length content
        word_offset).data (ring_ptr m d p.event_offset) =
      RUNTIME_EVENTS_HEADER p.length_with_header_ts (category == .EV_RUNTIME) type
        (to_uint64 event_id) := by
  cases content <;>
    simp [write_item, WritePlan.event_offset, store, memcpy_words, ring_ptr]

theorem write_item_timestamp (m : Region) (d : Nat) (p : WritePlan) (ring_head timestamp : Nat)
    (category : ev_category) (type : Nat) (event_id : Int) (event_length : Nat)
    (content : Option (List Nat)) (word_offset : Nat) :
    (write_item m d p ring_head timestamp category type event_id event_length content
        word_offset).data (ring_ptr m d (p.event_offset + 1)) = timestamp := by
  cases content <;>
    simp [write_item, WritePlan.event_offset, store, memcpy_words, ring_ptr]

theorem write_item_payload (m : Region) (d : Nat) (p : WritePlan) (ring_head timestamp : Nat)
    (category : ev_category) (type : Nat) (event_id : Int) (event_length : Nat)
    (content : List Nat) (word_offset i : Nat) (hi : i < event_length) :
    (write_item m d p ring_head timestamp category type event_id event_length (some content)
        word_offset).data (ring_ptr m d (p.event_offset + 2 + i)) =
      content.getD (word_offset + i) 0 := by
  have h1 : d * m.ring_size_bytes / 8 + (p.event_offset + 2) ≤
      d * m.ring_size_bytes / 8 + (p.event_offset + 2 + i) := by omega
  have h2 : d * m.ring_size_bytes / 8 + (p.event_offset + 2 + i) <
      d * m.ring_size_bytes / 8 + (p.event_offset + 2) + event_length := by omega
  have h3 : d * m.ring_size_bytes / 8 + (p.event_offset + 2 + i) -
      (d * m.ring_size_bytes / 8 + (p.event_offset + 2)) = i := by omega
  simp only [write_item, memcpy_words, ring_ptr]
  simp only [WritePlan.event_offset] at h1 h2 h3 ⊢
  rw [if_pos ⟨h1, h2⟩, h3]

theorem write_item_padding (m : Region) (d : Nat) (p : WritePlan) (ring_head timestamp : Nat)
    (category : ev_category) (type : Nat) (event_id : Int) (event_length : Nat)
    (content : Option (List Nat)) (word_offset : Nat) (hpad : p.padding_required > 0)
    (hoff : event_length + 2 ≤ p.ring_tail_offset) :
    (write_item m d p ring_head timestamp category type event_id event_length content
        word_offset).data (ring_ptr m d p.ring_tail_offset) =
      (p.ring_distance_to_end <<< 54) % UINT64_MOD := by
  have h0 : p.ring_tail_offset ≠ 0 := by omega
  have h1 : p.ring_tail_offset ≠ 1 := by omega
  have h2 : ¬ p.ring_tail_offset < 2 + event_length := by omega
  cases content with
  | none => simp [write_item, store, memcpy_words, ring_ptr, hpad, h0, h1, h2]
  | some c =>
    simp [write_item, store, memcpy_words, ring_ptr, hpad, h0, h1, h2]
    intro _ _
    exfalso
    omega

theorem write_item_frame (m : Region) (d : Nat) (p : WritePlan) (ring_head timestamp : Nat)
    (category : ev_category) (type : Nat) (event_id : Int) (event_length : Nat)
    (content : Option (List Nat)) (word_offset x : Nat)
    (hpad : ¬ (p.padding_required > 0 ∧ x = p.ring_tail_offset))
    (hev : ¬ (p.event_offset ≤ x ∧ x < p.event_offset + (event_length + 2))) :
    (write_item m d p ring_head timestamp category type event_id event_length content
        word_offset).data (ring_ptr m d x) = m.data (ring_ptr m d x) := by
  simp only [WritePlan.event_offset] at hev
  by_cases hp : p.padding_required > 0
  · have hx : x ≠ p.ring_tail_offset := fun h => hpad ⟨hp, h⟩
    simp only [hp, if_true] at hev
    have h0 : x ≠ 0 := by omega
    have h1 : x ≠ 1 := by omega
    have h2 : ¬ (2 ≤ x ∧ x < 2 + event_length) := by omega
    cases content with
    | none => simp [write_item, store, memcpy_words, ring_ptr, hp, hx, h0, h1, h2]
    | some c =>
      simp [write_item, store, memcpy_words, ring_ptr, hp, hx, h0, h1, h2]
      intro _ _
      exfalso
      omega
  · simp only [hp, if_false] at hev
    have h0 : x ≠ p.ring_tail_offset := by omega
    have h1 : x ≠ p.ring_tail_offset + 1 := by omega
    have h2 : ¬ (p.ring_tail_offset + 2 ≤ x ∧ x < p.ring_tail_offset + 2 + event_length) := by
      omega
    cases content with
    | none => simp [write_item, store, memcpy_words, ring_ptr, hp, h0, h1, h2]
    | some c =>
      simp [write_item, store, memcpy_words, ring_ptr, hp, h0, h1, h2]
      intro _ _
      exfalso
      omega

theorem mod_ne_of_lt_of_sub_lt (cap p q : Nat) (h1 : p < q) (h2 : q - p < cap) :
    p % cap ≠ q % cap := by
  intro h
  have h3 : (q - p) % cap = 0 := Nat.sub_mod_eq_zero_of_mod_eq h.symm
  rw [Nat.mod_eq_of_lt h2] at h3
  omega

theorem add_mod_of_lt (cap a j : Nat) (h : a % cap + j < cap) :
    (a + j) % cap = a % cap + j := by
  rw [Nat.add_mod, Nat.mod_eq_of_lt (a := j) (by omega), Nat.mod_eq_of_lt h]

theorem add_pad_mod (cap a : Nat) (hcap : 0 < cap) : (a + (cap - a % cap)) % cap = 0 := by
  have h1 : a % cap < cap := Nat.mod_lt _ hcap
  have h2 : a + (cap - a % cap) = cap * (a / cap) + cap := by
    have := Nat.div_add_mod a cap
    omega
  rw [h2]
  simp

theorem add_mod_of_mod_zero (cap a x : Nat) (h0 : a % cap = 0) (hx : x < cap) :
    (a + x) % cap = x := by
  rw [add_mod_of_lt cap a x (by omega), h0, Nat.zero_add]

theorem write_plan_pow2 (m : Region) (d event_length k : Nat) (hk : k < 64)
    (hcap : m.ring_size_elements = 2 ^ k) (hlen : event_length + 2 < UINT64_MOD) :
    write_plan m d event_length =
      { length_with_header_ts := event_length + 2
        ring_head := (m.headers d).ring_head
        ring_tail := (m.headers d).ring_tail
        ring_mask := (2 ^ k + UINT64_MOD - 1) % UINT64_MOD
        ring_tail_offset := (m.headers d).ring_tail % 2 ^ k
        ring_distance_to_end := 2 ^ k - (m.headers d).ring_tail % 2 ^ k
        padding_required :=
          if 2 ^ k - (m.headers d).ring_tail % 2 ^ k < event_length + 2 then
            2 ^ k - (m.headers d).ring_tail % 2 ^ k
          else 0 } := by
  have h1 : 2 ^ k < 2 ^ 64 := Nat.pow_lt_pow_right (by omega) hk
  have h2 : 0 < 2 ^ k := Nat.pos_pow_of_pos _ (by omega)
  have h3 : (m.headers d).ring_tail % 2 ^ k < 2 ^ k := Nat.mod_lt _ h2
  have h4 : (2 ^ k + UINT64_MOD - (m.headers d).ring_tail % 2 ^ k) % UINT64_MOD =
      2 ^ k - (m.headers d).ring_tail % 2 ^ k := by
    simp only [UINT64_MOD] at *
    omega
  simp only [write_plan, get_ring_buffer_by_domain_id, hcap, and_mask_eq_mod _ _ hk,
    Nat.mod_eq_of_lt hlen, h4]

/-- C2 (amended): let a call of `write_to_ring` with total length
`event_length + 2` return, on a ring of `2 ^ k` words whose tail is at the
physical offset `o = tail mod 2 ^ k`, the total length being at most half the
capacity and at most `2 ^ 10`. If `2 ^ k - o ≥ total length`, the header word is
at offset `o`, the timestamp at `o + 1` and the payload words at `o + 2 ..`, no
other word of the ring is changed (no padding), and the event ends at or before
the capacity. Otherwise the word at offset `o` is the padding header
`(2 ^ k - o) << 54`, whose length field is exactly `2 ^ k - o`, the header word
is at offset 0, the timestamp at 1 and the payload at `2 ..`, no other word is
changed, and the event ends at or before the capacity. -/
theorem write_to_ring_no_straddle (fuel d timestamp : Nat) (category : ev_category)
    (type : Nat) (event_id : Int) (event_length : Nat) (content : Option (List Nat))
    (word_offset : Nat) (s s1 : State) (m : Region) (k : Nat)
    (hm : s.current_metadata = some m) (hk : k < 64) (hcap : m.ring_size_elements = 2 ^ k)
    (hfit : 2 * (event_length + 2) ≤ 2 ^ k) (hlen : event_length + 2 ≤ 2 ^ 10)
    (hret : write_to_ring fuel d timestamp category type event_id event_length content
      word_offset s = .ok s1) :
    ∃ m1, s1.current_metadata = some m1 ∧
      (2 ^ k - (m.headers d).ring_tail % 2 ^ k ≥ event_length + 2 →
        m1.data (ring_ptr m d ((m.headers d).ring_tail % 2 ^ k)) =
          RUNTIME_EVENTS_HEADER (event_length + 2) (category == .EV_RUNTIME) type
            (to_uint64 event_id) ∧
        m1.data (ring_ptr m d ((m.headers d).ring_tail % 2 ^ k + 1)) = timestamp ∧
        (∀ c, content = some c → ∀ i, i < event_length →
          m1.data (ring_ptr m d ((m.headers d).ring_tail % 2 ^ k + 2 + i)) =
            c.getD (word_offset + i) 0) ∧
        (∀ x, ¬ ((m.headers d).ring_tail % 2 ^ k ≤ x ∧
            x < (m.headers d).ring_tail % 2 ^ k + (event_length + 2)) →
          m1.data (ring_ptr m d x) = m.data (ring_ptr m d x)) ∧
        (m.headers d).ring_tail % 2 ^ k + (event_length + 2) ≤ 2 ^ k) ∧
      (2 ^ k - (m.headers d).ring_tail % 2 ^ k < event_length + 2 →
        m1.data (ring_ptr m d ((m.headers d).ring_tail % 2 ^ k)) =
          ((2 ^ k - (m.headers d).ring_tail % 2 ^ k) <<< 54) % UINT64_MOD ∧
        RUNTIME_EVENTS_ITEM_LENGTH (m1.data (ring_ptr m d ((m.headers d).ring_tail % 2 ^ k))) =
          2 ^ k - (m.headers d).ring_tail % 2 ^ k ∧
        m1.data (ring_ptr m d 0) =
          RUNTIME_EVENTS_HEADER (event_length + 2) (category == .EV_RUNTIME) type
            (to_uint64 event_id) ∧
        m1.data (ring_ptr m d 1) = timestamp ∧
        (∀ c, content = some c → ∀ i, i < event_length →
          m1.data (ring_ptr m d (2 + i)) = c.getD (word_offset + i) 0) ∧
        (∀ x, x ≠ (m.headers d).ring_tail % 2 ^ k → ¬ x < event_length + 2 →
          m1.data (ring_ptr m d x) = m.data (ring_ptr m d x)) ∧
        event_length + 2 ≤ 2 ^ k) := by
  have hpos : 0 < 2 ^ k := Nat.pos_pow_of_pos _ (by omega)
  have holt : (m.headers d).ring_tail % 2 ^ k < 2 ^ k := Nat.mod_lt _ hpos
  have hM : UINT64_MOD = 2 ^ 64 := rfl
  obtain ⟨m', rh, hm', -, hs1⟩ := write_to_ring_ok_inv _ _ _ _ _ _ _ _ _ _ _ hret
  rw [hm] at hm'
  cases hm'
  have hplan := write_plan_pow2 m d event_length k hk hcap (by rw [hM]; omega)
  obtain ⟨p, hp⟩ : ∃ p, p = write_plan m d event_length := ⟨_, rfl⟩
  rw [← hp] at hs1 hplan
  have hoff : p.ring_tail_offset = (m.headers d).ring_tail % 2 ^ k := by rw [hplan]
  have hlw : p.length_with_header_ts = event_length + 2 := by rw [hplan]
  have hdist : p.ring_distance_to_end = 2 ^ k - (m.headers d).ring_tail % 2 ^ k := by
    rw [hplan]
  have hpp : p.padding_required =
      if 2 ^ k - (m.headers d).ring_tail % 2 ^ k < event_length + 2 then
        2 ^ k - (m.headers d).ring_tail % 2 ^ k else 0 := by rw [hplan]
  refine ⟨_, by rw [hs1], ?_, ?_⟩
  · intro hge
    have hp0 : p.padding_required = 0 := by rw [hpp, if_neg (by omega)]
    have hev : p.event_offset = (m.headers d).ring_tail % 2 ^ k := by
      simp [WritePlan.event_offset, hp0, hoff]
    refine ⟨?_, ?_, ?_, ?_, by omega⟩
    · rw [← hev, write_item_header, hlw]
    · rw [← hev, write_item_timestamp]
    · intro c hc i hi
      rw [hc, ← hev, write_item_payload _ _ _ _ _ _ _ _ _ _ _ _ hi]
    · intro x hx
      exact write_item_frame _ _ _ _ _ _ _ _ _ _ _ x (by rw [hp0]; simp) (by rw [hev]; exact hx)
  · intro hlt
    have hp0 : p.padding_required > 0 := by rw [hpp, if_pos hlt]; omega
    have hev : p.event_offset = 0 := by simp [WritePlan.event_offset, hp0]
    have hpadw := write_item_padding m d p rh timestamp category type event_id event_length
      content word_offset hp0 (by rw [hoff]; omega)
    rw [hoff, hdist] at hpadw
    refine ⟨hpadw, ?_, ?_, ?_, ?_, ?_, by omega⟩
    · rw [hpadw]
      exact item_length_padding _ (by omega)
    · rw [← hev, write_item_header, hlw]
    · have := write_item_timestamp m d p rh timestamp category type event_id event_length
        content word_offset
      rw [hev] at this
      exact this
    · intro c hc i hi
      have := write_item_payload m d p rh timestamp category type event_id event_length
        c word_offset i hi
      rw [hev, Nat.zero_add] at this
      rw [hc]
      exact this
    · intro x hx1 hx2
      exact write_item_frame _ _ _ _ _ _ _ _ _ _ _ x (by rw [hoff]; exact fun h => hx1 h.2)
        (by rw [hev]; omega)

/-- An instance of `write_to_ring_no_straddle` with padding: a ring of 16 words
with the tail at offset 14 and an event of total length 4. -/
theorem write_to_ring_no_straddle_witness :
    (region_or zero_region example_before_padding).ring_size_elements = 2 ^ 4 ∧
    ((region_or zero_region example_before_padding).headers 1).ring_tail % 2 ^ 4 = 14 ∧
    2 * ((example_call 2).event_length + 2) ≤ 2 ^ 4 ∧
    ∃ m1, example_after_padding.current_metadata = some m1 ∧
      RUNTIME_EVENTS_ITEM_LENGTH (m1.data (16 + 14)) = 2 ∧ m1.data (16 + 1) = 100 := by
  refine ⟨by decide, by decide, by decide, ?_⟩
  obtain ⟨m1, h1, -, h2⟩ := write_to_ring_no_straddle 16 1 100 .EV_RUNTIME
    ev_runtime_message_type.EV_COUNTER.code 7 2 (some (List.replicate 2 9)) 0
    example_before_padding example_after_padding (region_or zero_region example_before_padding)
    4 (region_or_eq _ _ (by decide)) (by decide) (by decide) (by decide) (by decide)
    (state_or_eq (example_init 4) _ (by decide))
  obtain ⟨-, h3, -, h4, -⟩ := h2 (by decide)
  have e1 : ring_ptr (region_or zero_region example_before_padding) 1
      (((region_or zero_region example_before_padding).headers 1).ring_tail % 2 ^ 4) =
        16 + 14 := by decide
  have e2 : 2 ^ 4 - ((region_or zero_region example_before_padding).headers 1).ring_tail
      % 2 ^ 4 = 2 := by decide
  have e3 : ring_ptr (region_or zero_region example_before_padding) 1 1 = 16 + 1 := by decide
  rw [e1, e2] at h3
  rw [e3] at h4
  exact ⟨m1, h1, h3, h4⟩

/-- C2 (counterexample): three calls that return and break the claim. On a ring
of four words an event of total length 5 is written at offsets 0 .. 4, so its
last payload word lies at index 4, beyond the capacity. On a ring of eight
words with the tail at offset 6, an event of total length 7 overwrites the
padding header at offset 6 with a payload word. On a ring of 4096 words with
the tail at offset 3072, an event with a payload of 1023 words gets a padding
header whose length field is 0, not 1024. -/
theorem write_to_ring_straddle_counterexample :
    ((write_calls 8 1 [example_call 0, example_call 0, example_call 3]
        (example_started 2)).toBool = true ∧
      (example_started 2).ring_size_words = 4 ∧
      (state_or (example_init 2) (write_calls 8 1 [example_call 0, example_call 0]
        (example_started 2))).ring_header 1 = some { ring_head := 2, ring_tail := 4 } ∧
      (state_or (example_init 2) (write_calls 8 1 [example_call 0, example_call 0,
        example_call 3] (example_started 2))).ring_word 1 4 = 9) ∧
    ((write_calls 8 1 [example_call 0, example_call 0, example_call 0, example_call 0,
        example_call 4, example_call 5] (example_started 3)).toBool = true ∧
      (example_started 3).ring_size_words = 8 ∧
      (state_or (example_init 3) (write_calls 8 1 [example_call 0, example_call 0,
        example_call 0, example_call 0, example_call 4]
        (example_started 3))).ring_header 1 = some { ring_head := 8, ring_tail := 14 } ∧
      (state_or (example_init 3) (write_calls 8 1 [example_call 0, example_call 0,
        example_call 0, example_call 0, example_call 4, example_call 5]
        (example_started 3))).ring_word 1 6 = 9) ∧
    ((write_calls 8 1 [example_call 1021, example_call 1021, example_call 1021,
        example_call 1, example_call 1023] (example_started 12)).toBool = true ∧
      (example_started 12).ring_size_words = 4096 ∧
      1023 < RUNTIME_EVENTS_MAX_MSG_LENGTH ∧
      (state_or (example_init 12) (write_calls 8 1 [example_call 1021, example_call 1021,
        example_call 1021, example_call 1]
        (example_started 12))).ring_header 1 = some { ring_head := 0, ring_tail := 3072 } ∧
      RUNTIME_EVENTS_ITEM_LENGTH ((state_or (example_init 12) (write_calls 8 1
        [example_call 1021, example_call 1021, example_call 1021, example_call 1,
          example_call 1023] (example_started 12))).ring_word 1 3072) = 0) := by
  refine ⟨⟨?_, ?_, ?_, ?_⟩, ⟨?_, ?_, ?_, ?_⟩, ⟨?_, ?_, ?_, ?_, ?_⟩⟩ <;> decide

/-! ### The record chain and the head and tail of a ring

The words between head and tail form a chain of records; the head-advancing
loop walks that chain, so it terminates, and a write extends the chain. -/

theorem chain_length_le_sum (cap : Nat) (ring : Nat → Nat) :
    ∀ (ls : List Nat) (p : Nat), Chain cap ring p ls → ls.length ≤ ls.sum := by
  intro ls
  induction ls with
  | nil => intro p _; simp
  | cons l ls ih =>
    intro p h
    obtain ⟨hl, -, hrest⟩ := h
    have := ih _ hrest
    simp only [List.length_cons, List.sum_cons]
    omega

theorem chain_congr (cap : Nat) (ring ring1 : Nat → Nat) :
    ∀ (ls : List Nat) (p : Nat), Chain cap ring p ls →
      (∀ q, p ≤ q → q < p + ls.sum → ring1 (q % cap) = ring (q % cap)) →
      Chain cap ring1 p ls := by
  intro ls
  induction ls with
  | nil => intro p _ _; trivial
  | cons l ls ih =>
    intro p h hq
    obtain ⟨hl, hlen, hrest⟩ := h
    refine ⟨hl, ?_, ih _ hrest ?_⟩
    · rw [hq p (Nat.le_refl _) (by simp only [List.sum_cons]; omega)]
      exact hlen
    · intro q h1 h2
      exact hq q (by omega) (by simp only [List.sum_cons]; omega)

theorem padding_eq_of_pos (cap o n pad : Nat)
    (hpad : pad = if cap - o < n + 2 then cap - o else 0) (hp0 : pad > 0) :
    pad = cap - o ∧ cap - o < n + 2 := by
  by_cases hc : cap - o < n + 2
  · rw [hpad, if_pos hc]; exact ⟨rfl, hc⟩
  · rw [hpad, if_neg hc] at hp0
    omega

theorem write_item_tail (m : Region) (d : Nat) (p : WritePlan) (H1 T n pad cap : Nat)
    (timestamp : Nat) (category : ev_category) (type : Nat) (event_id : Int)
    (content : Option (List Nat)) (word_offset : Nat)
    (htl : p.ring_tail = T) (hpp : p.padding_required = pad)
    (hlw : p.length_with_header_ts = n + 2) (hdist : p.ring_distance_to_end = cap - T % cap)
    (hpad : pad = if cap - T % cap < n + 2 then cap - T % cap else 0)
    (hov : T + 2 * (n + 2) < UINT64_MOD) :
    ((write_item m d p H1 timestamp category type event_id n content
      word_offset).headers d).ring_head = H1 ∧
    ((write_item m d p H1 timestamp category type event_id n content
      word_offset).headers d).ring_tail = T + pad + (n + 2) := by
  have hpadlt : pad < n + 2 := by rw [hpad]; split <;> omega
  rw [(write_item_fields _ _ _ _ _ _ _ _ _ _ _).2.2.2]
  simp only [set_ring_buffer, if_true, htl, hpp, hlw, hdist, true_and]
  by_cases hp0 : pad > 0
  · obtain ⟨hpadeq, -⟩ := padding_eq_of_pos cap (T % cap) n pad hpad hp0
    have e1 : (T + pad) % UINT64_MOD = T + pad := Nat.mod_eq_of_lt (by omega)
    have e2 : (T + pad + (n + 2)) % UINT64_MOD = T + pad + (n + 2) :=
      Nat.mod_eq_of_lt (by omega)
    rw [if_pos hp0, ← hpadeq, e1, e2]
  · have e2 : (T + (n + 2)) % UINT64_MOD = T + (n + 2) := Nat.mod_eq_of_lt (by omega)
    rw [if_neg hp0, e2]
    omega

theorem caml_runtime_events_start_enabled (stw_domain timestamp : Nat) (pid : Int)
    (file : Option Mapping) (fuel : Nat) (s : State) (h : s.runtime_events_enabled ≠ 0) :
    caml_runtime_events_start stw_domain timestamp pid file fuel s = .ok s := by
  cases fuel <;> simp [caml_runtime_events_start, h]

theorem caml_runtime_events_start_ok_enabled (stw_domain timestamp : Nat) (pid : Int)
    (file : Option Mapping) (fuel : Nat) (s s1 : State)
    (h : caml_runtime_events_start stw_domain timestamp pid file fuel s = .ok s1) :
    s1.runtime_events_enabled ≠ 0 := by
  induction fuel generalizing s with
  | zero =>
    simp only [caml_runtime_events_start] at h
    split at h
    · cases h
    · cases h; assumption
  | succ n ih =>
    simp only [caml_runtime_events_start] at h
    split at h
    · split at h
      · cases h
      · exact ih _ h
    · cases h; assumption

/-- C8: when tracing is enabled `caml_runtime_events_start` returns at once and
leaves the whole process state as it was (flags, region location, every ring
metadata record, all ring data and the custom event table); and running start
a second time after any start gives the result of the first start. -/
theorem caml_runtime_events_start_idempotent (stw_domain timestamp : Nat) (pid : Int)
    (file : Option Mapping) (fuel : Nat) (s : State) (h : s.runtime_events_enabled ≠ 0)
    (stw_domain0 timestamp0 : Nat) (pid0 : Int) (file0 : Option Mapping) (fuel0 : Nat)
    (s0 : State) :
    caml_runtime_events_start stw_domain timestamp pid file fuel s = .ok s ∧
    (caml_runtime_events_start stw_domain0 timestamp0 pid0 file0 fuel0 s0).bind
        (caml_runtime_events_start stw_domain timestamp pid file fuel) =
      caml_runtime_events_start stw_domain0 timestamp0 pid0 file0 fuel0 s0 := by
  refine ⟨caml_runtime_events_start_enabled _ _ _ _ _ _ h, ?_⟩
  cases h0 : caml_runtime_events_start stw_domain0 timestamp0 pid0 file0 fuel0 s0 with
  | error e => rfl
  | ok s1 =>
    exact caml_runtime_events_start_enabled _ _ _ _ _ _
      (caml_runtime_events_start_ok_enabled _ _ _ _ _ _ _ h0)

/-- An instance of `caml_runtime_events_start_idempotent`: the example state
after a start. -/
theorem caml_runtime_events_start_idempotent_witness :
    (example_started 4).runtime_events_enabled ≠ 0 ∧
    caml_runtime_events_start 1 99 1234 none 0 (example_started 4) = .ok (example_started 4) :=
  ⟨by decide,
    (caml_runtime_events_start_idempotent 1 99 1234 none 0 (example_started 4) (by decide)
      0 77 1234 (some zero_file) 1 (example_init 4)).1⟩

theorem create_ok (fuel d timestamp : Nat) (pid : Int) (f : Mapping) (s : State)
    (h0 : s.runtime_events_enabled = 0) (hcap : 4 ≤ s.ring_size_words)
    (hlt : s.ring_size_words < UINT64_MOD) (hd : d < s.max_domains) :
    runtime_events_create_from_stw_single fuel d timestamp pid (some f) s =
      .ok (created d timestamp pid f s) := by
  have hplan := write_plan_empty (create_region f s) d 1
    (by simp [create_region, hd]) (by simp [create_region, hd])
    (by simp only [create_region]; omega) (by simpa [create_region] using hlt)
  have hroom : (((0 + (1 + 2) + 0) % UINT64_MOD) + UINT64_MOD - 0) % UINT64_MOD
      < s.ring_size_words % UINT64_MOD := by
    rw [Nat.mod_eq_of_lt hlt]
    simp only [UINT64_MOD] at *
    omega
  simp only [runtime_events_create_from_stw_single, h0, if_true, caml_ev_lifecycle]
  have hact : ring_is_active { s with
      current_ring_loc := some (ring_file_location s.runtime_events_path pid)
      current_ring_total_size := stored_ring_total_size s
      current_metadata := some (create_region f s)
      runtime_events_enabled := 1
      runtime_events_paused := 0 } = true := by
    simp [ring_is_active]
  rw [if_pos hact]
  rw [write_to_ring_ok _ _ _ _ _ _ _ _ _ _ (create_region f s) 0 rfl
    (by simp only [hplan]; exact advance_head_no_room _ _ _ _ _ _ hroom)]
  rfl

theorem start_ok (d timestamp : Nat) (pid : Int) (f : Mapping) (fuel : Nat) (s : State)
    (h0 : s.runtime_events_enabled = 0) (hcap : 4 ≤ s.ring_size_words)
    (hlt : s.ring_size_words < UINT64_MOD) (hd : d < s.max_domains) :
    caml_runtime_events_start d timestamp pid (some f) (fuel + 1) s =
      .ok (created d timestamp pid f s) := by
  simp only [caml_runtime_events_start, h0, if_true, stw_create_runtime_events,
    create_ok _ d timestamp pid f s h0 hcap hlt hd]
  exact caml_runtime_events_start_enabled _ _ _ _ _ _ (by simp [created])

theorem replay_user_events_headers (es : List user_event) (m : Region) :
    (replay_user_events es m).headers = m.headers ∧
    (replay_user_events es m).data = m.data ∧
    (replay_user_events es m).max_domains = m.max_domains ∧
    (replay_user_events es m).ring_size_elements = m.ring_size_elements ∧
    (replay_user_events es m).ring_size_bytes = m.ring_size_bytes ∧
    (replay_user_events es m).custom_events_offset = m.custom_events_offset := by
  induction es generalizing m with
  | nil => simp [replay_user_events]
  | cons e rest ih =>
    simp only [replay_user_events]
    have := ih (events_register_write_buffer e.id e.name m)
    simpa [events_register_write_buffer] using this

theorem destroy_ok_state (fuel d timestamp : Nat) (s s1 : State)
    (h : caml_runtime_events_destroy fuel d timestamp s = .ok s1) :
    s1.runtime_events_enabled = 0 ∧ s1.ring_size_words = s.ring_size_words ∧
    s1.max_domains = s.max_domains ∧ s1.user_events = s.user_events ∧
    s1.runtime_custom_event_index = s.runtime_custom_event_index ∧ s1.build = s.build := by
  unfold caml_runtime_events_destroy at h
  split at h
  · split at h
    · cases h
    · rename_i s2 hw
      obtain ⟨m, rh, hm, _, hs2⟩ := write_to_ring_ok_inv _ _ _ _ _ _ _ _ _ _ _ hw
      simp only [destroy_loop, stw_teardown_runtime_events,
        runtime_events_teardown_from_stw_single] at h
      simp at h
      subst h
      subst hs2
      simp
  · rename_i hen
    cases h
    simp at hen
    simp [hen]

theorem caml_string_is_c_safe_iff (name : List Nat) :
    caml_string_is_c_safe name = true ↔ 0 ∉ name := by
  simp only [caml_string_is_c_safe, List.all_eq_true]
  constructor
  · intro h h0
    have := h 0 h0
    simp at this
  · intro h b hb
    have : b ≠ 0 := fun hb0 => h (hb0 ▸ hb)
    simpa using this

theorem user_register_ret_int (event_name : List Nat) (event_tag : Option Nat)
    (typ : event_type) (s : State)
    (hidx : s.runtime_custom_event_index ≤ RUNTIME_EVENTS_MAX_CUSTOM_EVENTS)
    (hlen : to_int event_name.length ≤ (RUNTIME_EVENTS_CUSTOM_EVENT_ID_LENGTH : Int) - 1)
    (hsafe : 0 ∉ event_name) :
    caml_runtime_events_user_register event_name event_tag typ s =
      .ret { id := (s.runtime_custom_event_index : Int), name := event_name, typ := typ,
             tag := event_tag }
        (registered event_name event_tag typ s) := by
  have h1 : to_int s.runtime_custom_event_index = (s.runtime_custom_event_index : Int) :=
    to_int_of_lt _ (by simp only [RUNTIME_EVENTS_MAX_CUSTOM_EVENTS] at hidx; omega)
  have h3 : caml_string_is_c_safe event_name = true := (caml_string_is_c_safe_iff _).2 hsafe
  have h4 : ¬ ((s.runtime_custom_event_index : Int) > (RUNTIME_EVENTS_MAX_CUSTOM_EVENTS : Int)) := by
    omega
  have h5 : ¬ (to_int event_name.length > (RUNTIME_EVENTS_CUSTOM_EVENT_ID_LENGTH : Int) - 1) := by
    omega
  simp only [caml_runtime_events_user_register, h1, h3, h4, h5, registered]
  simp

theorem user_register_ret (event_name : List Nat) (event_tag : Option Nat) (typ : event_type)
    (s : State) (hidx : s.runtime_custom_event_index ≤ RUNTIME_EVENTS_MAX_CUSTOM_EVENTS)
    (hlen : event_name.length ≤ RUNTIME_EVENTS_CUSTOM_EVENT_ID_LENGTH - 1)
    (hsafe : 0 ∉ event_name) :
    caml_runtime_events_user_register event_name event_tag typ s =
      .ret { id := (s.runtime_custom_event_index : Int), name := event_name, typ := typ,
             tag := event_tag }
        (registered event_name event_tag typ s) := by
  apply user_register_ret_int _ _ _ _ hidx _ hsafe
  rw [to_int_of_lt _ (by simp only [RUNTIME_EVENTS_CUSTOM_EVENT_ID_LENGTH] at hlen; omega)]
  simp only [RUNTIME_EVENTS_CUSTOM_EVENT_ID_LENGTH] at hlen ⊢
  omega

theorem user_register_ret_inv (event_name : List Nat) (event_tag : Option Nat)
    (typ : event_type) (s s1 : State) (ev : user_event)
    (h : caml_runtime_events_user_register event_name event_tag typ s = .ret ev s1) :
    to_int s.runtime_custom_event_index ≤ (RUNTIME_EVENTS_MAX_CUSTOM_EVENTS : Int) ∧
    0 ∉ event_name ∧ s1 = registered event_name event_tag typ s ∧
    ev = { id := to_int s.runtime_custom_event_index, name := event_name, typ := typ,
           tag := event_tag } := by
  unfold caml_runtime_events_user_register at h
  simp only [] at h
  split at h
  · cases h
  · rename_i hidx
    split at h
    · cases h
    · split at h
      · cases h
      · rename_i hsafe
        simp only [Bool.not_eq_true, Bool.not_eq_false'] at hsafe
        simp only [Outcome.ret.injEq] at h
        refine ⟨by omega, (caml_string_is_c_safe_iff _).1 (by simpa using hsafe), ?_, h.1.symm⟩
        rw [← h.2]
        rfl

/-- With table capacity available and a name shorter than `2 ^ 31` bytes,
registration fails with a validation error exactly when the name is longer than
`RUNTIME_EVENTS_CUSTOM_EVENT_ID_LENGTH - 1` bytes or holds a zero byte;
otherwise it returns the descriptor whose id is the counter before the call and
puts it at the front of the registration list. -/
theorem user_register_validation (event_name : List Nat) (event_tag : Option Nat)
    (typ : event_type) (s : State)
    (hcap : s.runtime_custom_event_index < RUNTIME_EVENTS_MAX_CUSTOM_EVENTS)
    (hshort : event_name.length < 2 ^ 31) :
    ((∃ e s1, caml_runtime_events_user_register event_name event_tag typ s = .raise e s1) ↔
      (RUNTIME_EVENTS_CUSTOM_EVENT_ID_LENGTH - 1 < event_name.length ∨ 0 ∈ event_name)) ∧
    (¬ (RUNTIME_EVENTS_CUSTOM_EVENT_ID_LENGTH - 1 < event_name.length ∨ 0 ∈ event_name) →
      caml_runtime_events_user_register event_name event_tag typ s =
        .ret { id := (s.runtime_custom_event_index : Int), name := event_name, typ := typ,
               tag := event_tag } (registered event_name event_tag typ s) ∧
      (registered event_name event_tag typ s).user_events =
        { id := (s.runtime_custom_event_index : Int), name := event_name, typ := typ,
          tag := event_tag } :: s.user_events) := by
  have hmax : RUNTIME_EVENTS_MAX_CUSTOM_EVENTS = 8192 := rfl
  have hidl : RUNTIME_EVENTS_CUSTOM_EVENT_ID_LENGTH = 128 := rfl
  have h1 : to_int s.runtime_custom_event_index = (s.runtime_custom_event_index : Int) :=
    to_int_of_lt _ (by omega)
  have h2 : to_int event_name.length = (event_name.length : Int) := to_int_of_lt _ hshort
  have hgood : ¬ (RUNTIME_EVENTS_CUSTOM_EVENT_ID_LENGTH - 1 < event_name.length ∨ 0 ∈ event_name) →
      caml_runtime_events_user_register event_name event_tag typ s =
        .ret { id := (s.runtime_custom_event_index : Int), name := event_name, typ := typ,
               tag := event_tag } (registered event_name event_tag typ s) := by
    intro hn
    exact user_register_ret _ _ _ _ (by omega) (by omega) (fun h0 => hn (Or.inr h0))
  refine ⟨⟨?_, ?_⟩, fun hn => ⟨hgood hn, ?_⟩⟩
  · rintro ⟨e, s1, hr⟩
    by_contra hn
    rw [hgood hn] at hr
    cases hr
  · intro hbad
    have h4 : ¬ ((s.runtime_custom_event_index : Int) >
        (RUNTIME_EVENTS_MAX_CUSTOM_EVENTS : Int)) := by omega
    by_cases hlen : RUNTIME_EVENTS_CUSTOM_EVENT_ID_LENGTH - 1 < event_name.length
    · have h5 : (event_name.length : Int) > (RUNTIME_EVENTS_CUSTOM_EVENT_ID_LENGTH : Int) - 1 := by
        omega
      refine ⟨.Invalid_argument msg_length,
        { s with runtime_custom_event_index :=
            (s.runtime_custom_event_index + 1) % UINT64_MOD }, ?_⟩
      simp only [caml_runtime_events_user_register, h1, h2, h4, h5, if_true, if_false]
    · have h0 : 0 ∈ event_name := by
        rcases hbad with h | h
        · exact absurd h hlen
        · exact h
      have h5 : ¬ ((event_name.length : Int) >
          (RUNTIME_EVENTS_CUSTOM_EVENT_ID_LENGTH : Int) - 1) := by omega
      have h6 : caml_string_is_c_safe event_name = false := by
        cases hs : caml_string_is_c_safe event_name with
        | false => rfl
        | true => exact absurd h0 ((caml_string_is_c_safe_iff _).1 hs)
      refine ⟨.Invalid_argument msg_null,
        { s with runtime_custom_event_index :=
            (s.runtime_custom_event_index + 1) % UINT64_MOD }, ?_⟩
      simp only [caml_runtime_events_user_register, h1, h2, h4, h5, h6, if_false]
      rfl
  · simp only [registered, h1]

/-- C6 (failing input): with table capacity available, registering a name of
`2 ^ 31` non-zero bytes, far longer than
`RUNTIME_EVENTS_CUSTOM_EVENT_ID_LENGTH - 1`, does not fail: its length read as
a C `int` is negative, so the length test passes and the call returns a
descriptor. -/
theorem user_register_accepts_long_name :
    (example_init 4).runtime_custom_event_index < RUNTIME_EVENTS_MAX_CUSTOM_EVENTS ∧
    (List.replicate (2 ^ 31) 97).length > RUNTIME_EVENTS_CUSTOM_EVENT_ID_LENGTH - 1 ∧
    caml_runtime_events_user_register (List.replicate (2 ^ 31) 97) none .Unit (example_init 4) =
      .ret { id := 0, name := List.replicate (2 ^ 31) 97, typ := .Unit, tag := none }
        (registered (List.replicate (2 ^ 31) 97) none .Unit (example_init 4)) := by
  have hlen : (List.replicate (2 ^ 31) 97).length = 2 ^ 31 := List.length_replicate _ _
  refine ⟨by decide, ?_, ?_⟩
  · rw [hlen]; decide
  · have hsafe : (0 : Nat) ∉ List.replicate (2 ^ 31) 97 := by
      intro h0
      have := List.eq_of_mem_replicate h0
      omega
    have := user_register_ret_int (List.replicate (2 ^ 31) 97) none .Unit (example_init 4)
      (by decide) (by rw [hlen]; decide) hsafe
    exact this

/-- C5 (amended): whenever `caml_runtime_events_user_register` fails with a
validation error (capacity exceeded, name too long, or embedded zero byte), the
registration list, the mapped region with its custom event table and every
other part of the state are as before the call, except the id counter, which
the call has incremented by one: the id of the failed call is consumed. -/
theorem user_register_failure_state (event_name : List Nat) (event_tag : Option Nat)
    (typ : event_type) (s s1 : State) (e : Exn)
    (h : caml_runtime_events_user_register event_name event_tag typ s = .raise e s1) :
    s1 = { s with
      runtime_custom_event_index := (s.runtime_custom_event_index + 1) % UINT64_MOD } ∧
    s1.user_events = s.user_events ∧ s1.current_metadata = s.current_metadata ∧
    (e = .Invalid_argument msg_capacity ∨ e = .Invalid_argument msg_length ∨
      e = .Invalid_argument msg_null) := by
  unfold caml_runtime_events_user_register at h
  simp only [] at h
  split at h
  · cases h
    exact ⟨rfl, rfl, rfl, Or.inl rfl⟩
  · split at h
    · cases h
      exact ⟨rfl, rfl, rfl, Or.inr (Or.inl rfl)⟩
    · split at h
      · cases h
        exact ⟨rfl, rfl, rfl, Or.inr (Or.inr rfl)⟩
      · cases h

set_option maxRecDepth 8000 in
/-- An instance of `user_register_failure_state`: a name of 128 bytes. -/
theorem user_register_failure_state_witness :
    caml_runtime_events_user_register (List.replicate 128 97) none .Unit (example_init 4) =
      .raise (.Invalid_argument msg_length)
        { example_init 4 with runtime_custom_event_index := 1 } ∧
    ({ example_init 4 with runtime_custom_event_index := 1 } : State).user_events =
      (example_init 4).user_events :=
  ⟨rfl, (user_register_failure_state (List.replicate 128 97) none .Unit (example_init 4)
    { example_init 4 with runtime_custom_event_index := 1 } (.Invalid_argument msg_length)
    rfl).2.1⟩

set_option maxRecDepth 8000 in
/-- C5 (counterexample): registering a name of 128 bytes on a registry with
counter 0 fails with the name length error and leaves the counter at 1; the
next successful registration receives the id 1, while without the failed call
it would have received the id 0. -/
theorem user_register_failure_counterexample :
    (caml_runtime_events_user_register (List.replicate 128 97) none .Unit
      (example_init 4)).exn = some (.Invalid_argument msg_length) ∧
    (example_init 4).runtime_custom_event_index = 0 ∧
    (caml_runtime_events_user_register (List.replicate 128 97) none .Unit
      (example_init 4)).final_state.map (fun s => s.runtime_custom_event_index) = some 1 ∧
    (caml_runtime_events_user_register [97] none .Unit
      (example_init 4)).value.map (fun ev => ev.id) = some 0 ∧
    (caml_runtime_events_user_register (List.replicate 128 97) none .Unit
      (example_init 4)).final_state.map (fun s =>
        (caml_runtime_events_user_register [97] none .Unit s).value.map (fun ev => ev.id))
      = some (some 1) := by
  refine ⟨?_, ?_, ?_, ?_, ?_⟩ <;> decide

theorem register_sequence_all_ret (typ : event_type) :
    ∀ (names : List (List Nat)) (s : State),
      (∀ n ∈ names, n.length ≤ RUNTIME_EVENTS_CUSTOM_EVENT_ID_LENGTH - 1 ∧ 0 ∉ n) →
      s.runtime_custom_event_index + names.length ≤ RUNTIME_EVENTS_MAX_CUSTOM_EVENTS + 1 →
      (register_sequence typ names s).1 = List.replicate names.length true ∧
      (register_sequence typ names s).2.runtime_custom_event_index =
        s.runtime_custom_event_index + names.length ∧
      ((register_sequence typ names s).2.runtime_events_enabled = s.runtime_events_enabled ∧
        (register_sequence typ names s).2.ring_size_words = s.ring_size_words ∧
        (register_sequence typ names s).2.max_domains = s.max_domains ∧
        (register_sequence typ names s).2.build = s.build) ∧
      (∀ name, names.getLast? = some name →
        (register_sequence typ names s).2.user_events.head? =
          some { id := ((s.runtime_custom_event_index + names.length - 1 : Nat) : Int),
                 name := name, typ := typ, tag := none }) := by
  intro names
  induction names with
  | nil => intro s _ _; simp [register_sequence]
  | cons n rest ih =>
    intro s hvalid hcount
    simp only [List.length_cons] at hcount
    have hidx : s.runtime_custom_event_index ≤ RUNTIME_EVENTS_MAX_CUSTOM_EVENTS := by omega
    obtain ⟨hn1, hn2⟩ := hvalid n (List.mem_cons_self _ _)
    have hreg := user_register_ret n none typ s hidx hn1 hn2
    have hmax : RUNTIME_EVENTS_MAX_CUSTOM_EVENTS = 8192 := rfl
    have hcnt : (registered n none typ s).runtime_custom_event_index =
        s.runtime_custom_event_index + 1 := by
      simp only [registered, UINT64_MOD]
      omega
    obtain ⟨ih1, ih2, ih3, ih4⟩ := ih (registered n none typ s)
      (fun x hx => hvalid x (List.mem_cons_of_mem _ hx)) (by rw [hcnt]; omega)
    simp only [register_sequence, hreg, List.length_cons, List.replicate_succ]
    refine ⟨by rw [ih1], by rw [ih2, hcnt]; omega, ?_, ?_⟩
    · obtain ⟨a, b, c, e⟩ := ih3
      exact ⟨a.trans rfl, b.trans rfl, c.trans rfl, e.trans rfl⟩
    · intro name hlast
      cases rest with
      | nil =>
        simp only [List.getLast?_singleton, Option.some.injEq] at hlast
        subst hlast
        simp only [register_sequence, registered, List.head?_cons, List.length_nil]
        rw [to_int_of_lt _ (by omega)]
        simp
      | cons r rest2 =>
        rw [List.getLast?_cons_cons] at hlast
        rw [ih4 name hlast, hcnt]
        simp only [List.length_cons]
        congr 2
        omega

theorem example_names_valid (n : Nat) :
    ∀ x ∈ example_names n, x.length ≤ RUNTIME_EVENTS_CUSTOM_EVENT_ID_LENGTH - 1 ∧ 0 ∉ x := by
  intro x hx
  simp only [example_names, List.mem_map, List.mem_range] at hx
  obtain ⟨i, -, rfl⟩ := hx
  constructor
  · simp [example_name, RUNTIME_EVENTS_CUSTOM_EVENT_ID_LENGTH]
  · simp only [example_name, List.mem_cons, List.mem_singleton, List.not_mem_nil, or_false]
    omega

theorem example_names_nodup (n : Nat) : (example_names n).Nodup := by
  apply List.Nodup.map _ (List.nodup_range n)
  intro i j hij
  simp only [example_name, List.cons.injEq, and_true] at hij
  omega

theorem example_names_last (n : Nat) :
    (example_names (n + 1)).getLast? = some (example_name n) := by
  simp [example_names, List.range_succ]

/-- C4 (failing input): starting from a registry with counter 0,
`RUNTIME_EVENTS_MAX_CUSTOM_EVENTS + 1` successive registrations of valid
distinct names all return normally: the last call does not fail, it returns
the descriptor with id `RUNTIME_EVENTS_MAX_CUSTOM_EVENTS`, one past the last
slot of the table. -/
theorem user_register_capacity_off_by_one :
    (example_names (RUNTIME_EVENTS_MAX_CUSTOM_EVENTS + 1)).length =
      RUNTIME_EVENTS_MAX_CUSTOM_EVENTS + 1 ∧
    (example_names (RUNTIME_EVENTS_MAX_CUSTOM_EVENTS + 1)).Nodup ∧
    (example_init 4).runtime_custom_event_index = 0 ∧
    (register_sequence .Unit (example_names (RUNTIME_EVENTS_MAX_CUSTOM_EVENTS + 1))
      (example_init 4)).1 = List.replicate (RUNTIME_EVENTS_MAX_CUSTOM_EVENTS + 1) true ∧
    (register_sequence .Unit (example_names (RUNTIME_EVENTS_MAX_CUSTOM_EVENTS + 1))
      (example_init 4)).2.user_events.head? =
        some { id := (RUNTIME_EVENTS_MAX_CUSTOM_EVENTS : Int),
               name := example_name RUNTIME_EVENTS_MAX_CUSTOM_EVENTS, typ := .Unit,
               tag := none } := by
  have hlen : (example_names (RUNTIME_EVENTS_MAX_CUSTOM_EVENTS + 1)).length =
      RUNTIME_EVENTS_MAX_CUSTOM_EVENTS + 1 := by
    simp [example_names]
  obtain ⟨h1, -, -, h4⟩ := register_sequence_all_ret .Unit
    (example_names (RUNTIME_EVENTS_MAX_CUSTOM_EVENTS + 1)) (example_init 4)
    (example_names_valid _) (by rw [hlen]; exact Nat.le_of_eq (Nat.zero_add _))
  refine ⟨hlen, example_names_nodup _, rfl, ?_, ?_⟩
  · rw [h1, hlen]
  · rw [h4 _ (example_names_last _), hlen]
    rfl

/-! ### The custom event table -/

theorem created_layout (d timestamp : Nat) (pid : Int) (f : Mapping) (s : State)
    (hsz : ring_total_size s < 2 ^ 31) :
    ∃ m, (created d timestamp pid f s).current_metadata = some m ∧
      m.custom_events_offset =
        s.build.sizeof_metadata_header + s.max_domains * s.build.sizeof_buffer_header +
          s.max_domains * s.ring_size_words * 8 ∧
      (created d timestamp pid f s).current_ring_total_size = (ring_total_size s : Int) ∧
      (created d timestamp pid f s).user_events = s.user_events ∧
      (created d timestamp pid f s).build = s.build ∧
      (created d timestamp pid f s).runtime_events_enabled = 1 := by
  refine ⟨_, rfl, ?_, stored_ring_total_size_of_lt s hsz, rfl, rfl, rfl⟩
  rw [(replay_user_events_headers _ _).2.2.2.2.2]
  exact (create_region_offsets f s hsz).2.2

/-- C7 (failing input): after `RUNTIME_EVENTS_MAX_CUSTOM_EVENTS + 1` successful
registrations and a start, tracing is enabled and the registration list holds
an entry with id `RUNTIME_EVENTS_MAX_CUSTOM_EVENTS`, but slot
`RUNTIME_EVENTS_MAX_CUSTOM_EVENTS` of the custom event table begins at byte
`custom_events_offset + RUNTIME_EVENTS_MAX_CUSTOM_EVENTS * sizeof_custom_event`,
which is the total size of the region: the name of that entry is not in the
mapped table, the replay loop writes it behind the end of the mapping. -/
theorem custom_event_table_slot_out_of_region :
    ∃ s2 m,
      caml_runtime_events_start 0 77 1234 (some zero_file) 1
        (register_sequence .Unit (example_names (RUNTIME_EVENTS_MAX_CUSTOM_EVENTS + 1))
          (example_init 4)).2 = .ok s2 ∧
      s2.runtime_events_enabled = 1 ∧ s2.current_metadata = some m ∧
      ({ id := (RUNTIME_EVENTS_MAX_CUSTOM_EVENTS : Int),
         name := example_name RUNTIME_EVENTS_MAX_CUSTOM_EVENTS, typ := .Unit,
         tag := none } : user_event) ∈ s2.user_events ∧
      ((m.custom_events_offset +
          RUNTIME_EVENTS_MAX_CUSTOM_EVENTS * s2.build.sizeof_custom_event : Nat) : Int) =
        s2.current_ring_total_size := by
  have hlen : (example_names (RUNTIME_EVENTS_MAX_CUSTOM_EVENTS + 1)).length =
      RUNTIME_EVENTS_MAX_CUSTOM_EVENTS + 1 := by
    simp [example_names]
  obtain ⟨-, -, ⟨h3a, h3b, h3c, h3d⟩, h4⟩ := register_sequence_all_ret .Unit
    (example_names (RUNTIME_EVENTS_MAX_CUSTOM_EVENTS + 1)) (example_init 4)
    (example_names_valid _) (by rw [hlen]; exact Nat.le_of_eq (Nat.zero_add _))
  have hlast := h4 _ (example_names_last _)
  rw [hlen] at hlast
  have hstart := start_ok 0 77 1234 zero_file 0
    (register_sequence .Unit (example_names (RUNTIME_EVENTS_MAX_CUSTOM_EVENTS + 1))
      (example_init 4)).2 (by rw [h3a]; rfl) (by rw [h3b]; decide) (by rw [h3b]; decide)
    (by rw [h3c]; decide)
  obtain ⟨m, hm, hoff, htot, hev, hb, hen⟩ := created_layout 0 77 1234 zero_file
    (register_sequence .Unit (example_names (RUNTIME_EVENTS_MAX_CUSTOM_EVENTS + 1))
      (example_init 4)).2 (by rw [ring_total_size, h3b, h3c, h3d]; decide)
  refine ⟨_, m, hstart, hen, hm, ?_, ?_⟩
  · rw [hev]
    exact List.mem_of_mem_head? hlast
  · rw [hoff, htot, hb, ring_total_size, h3b, h3c, h3d]
    decide

theorem c_strlen_of_safe (name : List Nat) (h : 0 ∉ name) : c_strlen name = name.length := by
  unfold c_strlen
  rw [List.takeWhile_eq_self_iff.2]
  intro b hb
  have : b ≠ 0 := fun hb0 => h (hb0 ▸ hb)
  simpa using this

theorem write_buffer_slot (idx : Int) (name : List Nat) (m : Region) (h : 0 ∉ name) (i : Nat)
    (hi : i < RUNTIME_EVENTS_CUSTOM_EVENT_ID_LENGTH - 1) :
    (events_register_write_buffer idx name m).custom_events idx i = name.getD i 0 := by
  simp only [events_register_write_buffer, if_true, strncpy, hi, c_strlen_of_safe name h]
  by_cases hl : i < name.length
  · simp [hl]
  · simp only [hl, if_false]
    rw [List.getD_eq_default _ _ (by omega)]

theorem write_buffer_other (idx j : Int) (name : List Nat) (m : Region) (h : j ≠ idx) :
    (events_register_write_buffer idx name m).custom_events j = m.custom_events j := by
  simp [events_register_write_buffer, h]

theorem replay_other (es : List user_event) :
    ∀ (m : Region) (j : Int), j ∉ es.map (fun e => e.id) →
      (replay_user_events es m).custom_events j = m.custom_events j := by
  induction es with
  | nil => intro m j _; rfl
  | cons e rest ih =>
    intro m j hj
    simp only [List.map_cons, List.mem_cons, not_or] at hj
    simp only [replay_user_events]
    rw [ih _ j hj.2, write_buffer_other _ _ _ _ hj.1]

theorem replay_stored (es : List user_event) :
    ∀ (m : Region), (es.map (fun e => e.id)).Nodup → (∀ e ∈ es, 0 ∉ e.name) →
      ∀ e ∈ es, name_stored (replay_user_events es m) e := by
  induction es with
  | nil => intro m _ _ e he; cases he
  | cons e0 rest ih =>
    intro m hnd hsafe e he
    simp only [List.map_cons, List.nodup_cons] at hnd
    simp only [replay_user_events]
    rcases List.mem_cons.1 he with h | h
    · subst h
      intro i hi
      rw [replay_other rest _ e.id hnd.1]
      exact write_buffer_slot _ _ _ (hsafe e (List.mem_cons_self _ _)) i hi
    · exact ih _ hnd.2 (fun x hx => hsafe x (List.mem_cons_of_mem _ hx)) e h

theorem create_ok_inv (fuel d timestamp : Nat) (pid : Int) (f : Mapping) (s s1 : State)
    (h0 : s.runtime_events_enabled = 0)
    (h : runtime_events_create_from_stw_single fuel d timestamp pid (some f) s = .ok s1) :
    s1.runtime_events_enabled = 1 ∧ s1.user_events = s.user_events ∧
    s1.runtime_custom_event_index = s.runtime_custom_event_index ∧
    ∃ m, m.custom_events = f.custom_events ∧
      s1.current_metadata = some (replay_user_events s.user_events m) := by
  simp only [runtime_events_create_from_stw_single, h0, if_true, caml_ev_lifecycle] at h
  have hact : ring_is_active { s with
      current_ring_loc := some (ring_file_location s.runtime_events_path pid)
      current_ring_total_size := stored_ring_total_size s
      current_metadata := some (create_region f s)
      runtime_events_enabled := 1
      runtime_events_paused := 0 } = true := by
    simp [ring_is_active]
  rw [if_pos hact] at h
  split at h
  · cases h
  · rename_i s2 hw
    obtain ⟨m, rh, hm, -, hs2⟩ := write_to_ring_ok_inv _ _ _ _ _ _ _ _ _ _ _ hw
    simp only [Except.ok.injEq] at h
    subst h
    subst hs2
    simp only [Option.some.injEq] at hm
    subst hm
    refine ⟨rfl, rfl, rfl, _, ?_, rfl⟩
    exact (write_item_fields _ _ _ _ _ _ _ _ _ _ _).2.2.1

theorem start_ok_inv (d timestamp : Nat) (pid : Int) (f : Mapping) (fuel : Nat) (s s1 : State)
    (h0 : s.runtime_events_enabled = 0)
    (h : caml_runtime_events_start d timestamp pid (some f) fuel s = .ok s1) :
    s1.runtime_events_enabled = 1 ∧ s1.user_events = s.user_events ∧
    s1.runtime_custom_event_index = s.runtime_custom_event_index ∧
    ∃ m, m.custom_events = f.custom_events ∧
      s1.current_metadata = some (replay_user_events s.user_events m) := by
  cases fuel with
  | zero => simp [caml_runtime_events_start, h0] at h
  | succ n =>
    simp only [caml_runtime_events_start, h0, if_true, stw_create_runtime_events] at h
    split at h
    · cases h
    · rename_i s2 hc
      have hinv := create_ok_inv _ _ _ _ _ _ _ h0 hc
      rw [caml_runtime_events_start_enabled _ _ _ _ _ _ (by rw [hinv.1]; decide)] at h
      cases h
      exact hinv

theorem registry_op_run_inv (fuel : Nat) (op : registry_op) (s s1 : State)
    (hinv : TableInv s) (h : op.run fuel s = some s1) : TableInv s1 := by
  obtain ⟨hent, hcnt, hnd, htab⟩ := hinv
  have hmax : RUNTIME_EVENTS_MAX_CUSTOM_EVENTS = 8192 := rfl
  cases op with
  | register name tag typ =>
    simp only [registry_op.run] at h
    split at h
    · rename_i ev s2 hr
      cases h
      obtain ⟨hidx, hsafe, hs1, -⟩ := user_register_ret_inv _ _ _ _ _ _ hr
      have hto : to_int s.runtime_custom_event_index = (s.runtime_custom_event_index : Int) :=
        to_int_of_lt _ (by omega)
      rw [hto] at hidx
      subst hs1
      have hcnt1 : (registered name tag typ s).runtime_custom_event_index =
          s.runtime_custom_event_index + 1 := by
        simp only [registered, UINT64_MOD]
        omega
      refine ⟨?_, by rw [hcnt1]; omega, ?_, ?_⟩
      · intro e he
        rw [hcnt1]
        simp only [registered, List.mem_cons] at he
        rcases he with h | h
        · subst h
          rw [hto]
          refine ⟨hsafe, ?_, ?_⟩
          · show (0 : Int) ≤ (s.runtime_custom_event_index : Int)
            omega
          · show (s.runtime_custom_event_index : Int) <
              ((s.runtime_custom_event_index + 1 : Nat) : Int)
            omega
        · obtain ⟨a, b, c⟩ := hent e h
          exact ⟨a, b, by omega⟩
      · simp only [registered, List.map_cons, List.nodup_cons]
        refine ⟨?_, hnd⟩
        intro hmem
        obtain ⟨e, he, heq⟩ := List.mem_map.1 hmem
        have := (hent e he).2.2
        rw [hto] at heq
        omega
      · intro hen
        have hen0 : s.runtime_events_enabled ≠ 0 := hen
        obtain ⟨m, hm, hst⟩ := htab hen0
        have hb : (s.runtime_events_enabled != 0) = true := by simpa using hen0
        refine ⟨events_register_write_buffer (to_int s.runtime_custom_event_index) name m, ?_, ?_⟩
        · simp [registered, hb, hm]
        · intro e he
          simp only [registered, List.mem_cons] at he
          rcases he with h | h
          · subst h
            intro i hi
            exact write_buffer_slot _ _ _ hsafe i hi
          · intro i hi
            have hne : e.id ≠ to_int s.runtime_custom_event_index := by
              have := (hent e h).2.2
              rw [hto]
              omega
            rw [write_buffer_other _ _ _ _ hne]
            exact hst e h i hi
    · cases h
    · cases h
  | start d timestamp pid file =>
    simp only [registry_op.run] at h
    split at h
    · rename_i s2 hr
      cases h
      by_cases hen : s.runtime_events_enabled = 0
      · obtain ⟨h1, h2, h3, m, -, hm⟩ := start_ok_inv _ _ _ _ _ _ _ hen hr
        refine ⟨by rw [h2, h3]; exact hent, by rw [h3]; exact hcnt, by rw [h2]; exact hnd, ?_⟩
        intro _
        refine ⟨_, hm, ?_⟩
        rw [h2]
        exact replay_stored _ _ hnd (fun e he => (hent e he).1)
      · rw [caml_runtime_events_start_enabled _ _ _ _ _ _ hen] at hr
        cases hr
        exact ⟨hent, hcnt, hnd, htab⟩
    · cases h
  | stop d timestamp =>
    simp only [registry_op.run] at h
    split at h
    · rename_i s2 hr
      cases h
      obtain ⟨h1, -, -, h4, h5, -⟩ := destroy_ok_state _ _ _ _ _ hr
      refine ⟨by rw [h4, h5]; exact hent, by rw [h5]; exact hcnt, by rw [h4]; exact hnd, ?_⟩
      intro hen
      exact absurd h1 hen
    · cases h

theorem run_ops_inv (fuel : Nat) : ∀ (ops : List registry_op) (s s1 : State),
    TableInv s → run_ops fuel ops s = some s1 → TableInv s1 := by
  intro ops
  induction ops with
  | nil => intro s s1 hinv h; cases h; exact hinv
  | cons op rest ih =>
    intro s s1 hinv h
    simp only [run_ops] at h
    split at h
    · rename_i s2 hop
      exact ih s2 s1 (registry_op_run_inv fuel op s s2 hinv hop) h
    · cases h

/-- For every sequence of registrations, starts and stops that all return
normally, from a state with an empty registry, counter 0 and tracing not
enabled: whenever tracing is enabled at the end, every entry of the
registration list has its name stored in slot `id` of the custom event table
as the code addresses it, whether the name was registered before the region
was created (replayed by the create step) or while it exists (written by the
registration). The ids range over `0 .. RUNTIME_EVENTS_MAX_CUSTOM_EVENTS`
inclusive; the slot with index `RUNTIME_EVENTS_MAX_CUSTOM_EVENTS` lies behind
the end of the mapped table. -/
theorem custom_event_table_visibility (fuel : Nat) (ops : List registry_op) (s0 s : State)
    (hreg : s0.user_events = []) (hoff : s0.runtime_events_enabled = 0)
    (hcnt : s0.runtime_custom_event_index = 0)
    (hrun : run_ops fuel ops s0 = some s) (hen : s.runtime_events_enabled ≠ 0) :
    ∃ m, s.current_metadata = some m ∧
      ∀ e ∈ s.user_events, name_stored m e ∧ 0 ≤ e.id ∧
        e.id ≤ (RUNTIME_EVENTS_MAX_CUSTOM_EVENTS : Int) := by
  have h0 : TableInv s0 := by
    refine ⟨?_, by rw [hcnt]; omega, by rw [hreg]; simp, ?_⟩
    · rw [hreg]
      intro e he
      cases he
    · intro h
      exact absurd hoff h
  obtain ⟨hent, hc, -, htab⟩ := run_ops_inv fuel ops s0 s h0 hrun
  obtain ⟨m, hm, hst⟩ := htab hen
  refine ⟨m, hm, fun e he => ⟨hst e he, (hent e he).2.1, ?_⟩⟩
  have := (hent e he).2.2
  omega

/-! ### The layout of the region -/

theorem replay_user_events_offsets (es : List user_event) (m : Region) :
    (replay_user_events es m).headers_offset = m.headers_offset ∧
    (replay_user_events es m).data_offset = m.data_offset ∧
    (replay_user_events es m).ring_header_size_bytes = m.ring_header_size_bytes ∧
    (replay_user_events es m).version = m.version := by
  induction es generalizing m with
  | nil => simp [replay_user_events]
  | cons e rest ih =>
    simp only [replay_user_events]
    have := ih (events_register_write_buffer e.id e.name m)
    simpa [events_register_write_buffer] using this

theorem create_ok_layout (fuel d timestamp : Nat) (pid : Int) (f : Mapping) (s s1 : State)
    (h0 : s.runtime_events_enabled = 0)
    (h : runtime_events_create_from_stw_single fuel d timestamp pid (some f) s = .ok s1) :
    s1.current_ring_total_size = stored_ring_total_size s ∧
    ∃ m, s1.current_metadata = some m ∧
      m.headers_offset = (create_region f s).headers_offset ∧
      m.data_offset = (create_region f s).data_offset ∧
      m.custom_events_offset = (create_region f s).custom_events_offset ∧
      m.max_domains = s.max_domains ∧ m.ring_size_elements = s.ring_size_words ∧
      m.ring_size_bytes = s.ring_size_words * 8 ∧
      m.ring_header_size_bytes = s.build.sizeof_buffer_header := by
  simp only [runtime_events_create_from_stw_single, h0, if_true, caml_ev_lifecycle] at h
  have hact : ring_is_active { s with
      current_ring_loc := some (ring_file_location s.runtime_events_path pid)
      current_ring_total_size := stored_ring_total_size s
      current_metadata := some (create_region f s)
      runtime_events_enabled := 1
      runtime_events_paused := 0 } = true := by
    simp [ring_is_active]
  rw [if_pos hact] at h
  split at h
  · cases h
  · rename_i s2 hw
    obtain ⟨m, rh, hm, -, hs2⟩ := write_to_ring_ok_inv _ _ _ _ _ _ _ _ _ _ _ hw
    simp only [Except.ok.injEq] at h
    subst h
    subst hs2
    simp only [Option.some.injEq] at hm
    subst hm
    refine ⟨rfl, _, rfl, ?_⟩
    obtain ⟨-, -, r3, r4, r5, r6⟩ := replay_user_events_headers s.user_events
      (write_item (create_region f s) d (write_plan (create_region f s) d 1) rh timestamp
        .EV_RUNTIME ev_runtime_message_type.EV_LIFECYCLE.code
        ev_lifecycle.EV_RING_START.code 1 (some [to_uint64 pid]) 0)
    obtain ⟨q1, q2, q3, -⟩ := replay_user_events_offsets s.user_events
      (write_item (create_region f s) d (write_plan (create_region f s) d 1) rh timestamp
        .EV_RUNTIME ev_runtime_message_type.EV_LIFECYCLE.code
        ev_lifecycle.EV_RING_START.code 1 (some [to_uint64 pid]) 0)
    exact ⟨q1.trans rfl, q2.trans rfl, r6.trans rfl, r3.trans rfl, r4.trans rfl, r5.trans rfl,
      q3.trans rfl⟩

theorem region_layout (f : Mapping) (s : State) (hsz : ring_total_size s < 2 ^ 31) :
    ((create_region f s).headers_offset = s.build.sizeof_metadata_header ∧
      (create_region f s).data_offset =
        (create_region f s).headers_offset + s.max_domains * s.build.sizeof_buffer_header ∧
      (create_region f s).custom_events_offset =
        (create_region f s).data_offset + s.max_domains * s.ring_size_words * 8 ∧
      ring_total_size s =
        (create_region f s).custom_events_offset +
          RUNTIME_EVENTS_MAX_CUSTOM_EVENTS * s.build.sizeof_custom_event ∧
      ring_total_size s =
        s.build.sizeof_metadata_header + s.max_domains * s.build.sizeof_buffer_header +
          s.max_domains * s.ring_size_words * 8 +
          RUNTIME_EVENTS_MAX_CUSTOM_EVENTS * s.build.sizeof_custom_event ∧
      stored_ring_total_size s = (ring_total_size s : Int)) ∧
    (∀ x, x < ring_total_size s ↔
      (x < (create_region f s).headers_offset ∨
        ((create_region f s).headers_offset ≤ x ∧ x < (create_region f s).data_offset) ∨
        ((create_region f s).data_offset ≤ x ∧ x < (create_region f s).custom_events_offset) ∨
        ((create_region f s).custom_events_offset ≤ x ∧ x < ring_total_size s))) ∧
    (∀ fuel d timestamp pid s1,
      runtime_events_create_from_stw_single fuel d timestamp pid (some f) s = .ok s1 →
      s.runtime_events_enabled = 0 →
      s1.current_ring_total_size = (ring_total_size s : Int) ∧
      ∃ m, s1.current_metadata = some m ∧
        m.headers_offset = (create_region f s).headers_offset ∧
        m.data_offset = (create_region f s).data_offset ∧
        m.custom_events_offset = (create_region f s).custom_events_offset) := by
  obtain ⟨e1, e2, e3⟩ := create_region_offsets f s hsz
  have e4 : ring_total_size s =
      s.build.sizeof_metadata_header + s.max_domains * s.build.sizeof_buffer_header +
        s.max_domains * s.ring_size_words * 8 +
        RUNTIME_EVENTS_MAX_CUSTOM_EVENTS * s.build.sizeof_custom_event := by
    simp only [ring_total_size]
    rw [Nat.mul_add, Nat.mul_assoc]
    omega
  have e5 := stored_ring_total_size_of_lt s hsz
  refine ⟨⟨e1, ?_, ?_, ?_, e4, e5⟩, ?_, ?_⟩
  · rw [e1, e2]
  · rw [e2, e3]
  · rw [e3, e4]
  · intro x
    rw [e1, e2, e3, e4]
    omega
  · intro fuel d timestamp pid s1 h h0
    obtain ⟨t1, m, hm, a1, a2, a3, -⟩ := create_ok_layout fuel d timestamp pid f s s1 h0 h
    exact ⟨t1.trans e5, m, hm, a1, a2, a3⟩

/-- C15 (failing input): the create step on two domain slots and a ring
capacity of `2 ^ 28` words, with the structure sizes 64, 80 and 128. The create
step returns, but the byte length of the data array, `2 * 2 ^ 28 * 8 = 2 ^ 32`,
is held in the `int` variable `ring_data_length`, which becomes 0: the region
header gets `custom_events_offset = data_offset = 224` instead of
`224 + 2 ^ 32`, so the custom event table starts on the first byte of the data
array. The total `4296016096` is held in the `int` variable
`current_ring_total_size`, which becomes `1048800`. -/
theorem create_layout_int_truncation :
    ∃ s1 m,
      runtime_events_create_from_stw_single 1 0 77 1234 (some zero_file) (example_init 28) =
        .ok s1 ∧
      s1.current_metadata = some m ∧
      (example_init 28).max_domains = 2 ∧ (example_init 28).ring_size_words = 2 ^ 28 ∧
      m.max_domains = 2 ∧ m.ring_size_elements = 2 ^ 28 ∧
      m.headers_offset = 64 ∧ m.data_offset = 64 + 2 * 80 ∧
      m.custom_events_offset = m.data_offset ∧
      m.data_offset + 2 * 2 ^ 28 * 8 = 224 + 2 ^ 32 ∧
      s1.current_ring_total_size = 1048800 ∧
      ring_total_size (example_init 28) = 64 + 2 * 80 + 2 * 2 ^ 28 * 8 + 8192 * 128 := by
  have h := create_ok 1 0 77 1234 zero_file (example_init 28) rfl (by decide) (by decide)
    (by decide)
  obtain ⟨t1, m, hm, a1, a2, a3, a4, a5, -⟩ :=
    create_ok_layout 1 0 77 1234 zero_file (example_init 28) _ rfl h
  refine ⟨_, m, h, hm, rfl, by decide, ?_, ?_, ?_, ?_, ?_, ?_, ?_, by decide⟩
  · rw [a4]; rfl
  · rw [a5]; decide
  · rw [a1]; rfl
  · rw [a2]; decide
  · rw [a3, a2]; decide
  · rw [a2]; decide
  · rw [t1]; decide

/-! ### Pause and resume -/

theorem write_to_ring_flags (fuel d timestamp : Nat) (category : ev_category) (type : Nat)
    (event_id : Int) (event_length : Nat) (content : Option (List Nat)) (word_offset : Nat)
    (s s1 : State)
    (h : write_to_ring fuel d timestamp category type event_id event_length content
      word_offset s = .ok s1) :
    s1.runtime_events_enabled = s.runtime_events_enabled ∧
    s1.runtime_events_paused = s.runtime_events_paused ∧
    s1.ring_size_words = s.ring_size_words ∧ s1.alloc_buckets = s.alloc_buckets ∧
    s1.user_events = s.user_events ∧
    s1.runtime_custom_event_index = s.runtime_custom_event_index ∧ s1.build = s.build ∧
    s1.max_domains = s.max_domains := by
  obtain ⟨m, rh, -, -, hs1⟩ := write_to_ring_ok_inv _ _ _ _ _ _ _ _ _ _ _ h
  subst hs1
  exact ⟨rfl, rfl, rfl, rfl, rfl, rfl, rfl, rfl⟩

/-- C16: the pause and resume state machine. `caml_runtime_events_are_active`
is true exactly when the enabled flag is set and the paused flag is clear.
When tracing is not enabled, pause and resume return the state unchanged. When
tracing is enabled, pause of a state that is not paused returns the state with
only the paused flag changed, to 1, and pause of a paused state returns the
state unchanged; resume of a state that is not paused returns the state
unchanged, and resume of a paused state is the call of `write_to_ring` for the
`EV_RING_RESUME` event on the state with the paused flag cleared, so that it
leaves the paused flag clear. Neither changes the enabled flag. -/
theorem pause_resume_state_machine (fuel caml_state_id timestamp : Nat) (s : State) :
    (caml_runtime_events_are_active s = true ↔
      s.runtime_events_enabled ≠ 0 ∧ s.runtime_events_paused = 0) ∧
    (s.runtime_events_enabled = 0 →
      caml_runtime_events_pause fuel caml_state_id timestamp s = .ok s ∧
      caml_runtime_events_resume fuel caml_state_id timestamp s = .ok s) ∧
    (s.runtime_events_enabled ≠ 0 → s.runtime_events_paused = 0 →
      caml_runtime_events_pause fuel caml_state_id timestamp s =
        .ok { s with runtime_events_paused := 1 } ∧
      caml_runtime_events_resume fuel caml_state_id timestamp s = .ok s) ∧
    (s.runtime_events_enabled ≠ 0 → s.runtime_events_paused ≠ 0 →
      caml_runtime_events_pause fuel caml_state_id timestamp s = .ok s) ∧
    (s.runtime_events_enabled ≠ 0 → s.runtime_events_paused = 1 →
      caml_runtime_events_resume fuel caml_state_id timestamp s =
        write_to_ring fuel caml_state_id timestamp .EV_RUNTIME
          ev_runtime_message_type.EV_LIFECYCLE.code ev_lifecycle.EV_RING_RESUME.code 1
          (some [to_uint64 0]) 0 { s with runtime_events_paused := 0 } ∧
      ∀ s1, caml_runtime_events_resume fuel caml_state_id timestamp s = .ok s1 →
        s1.runtime_events_paused = 0 ∧ s1.runtime_events_enabled = s.runtime_events_enabled ∧
        s1.user_events = s.user_events ∧
        s1.runtime_custom_event_index = s.runtime_custom_event_index ∧
        s1.alloc_buckets = s.alloc_buckets) ∧
    (∀ s1, caml_runtime_events_pause fuel caml_state_id timestamp s = .ok s1 →
      s1.runtime_events_enabled = s.runtime_events_enabled) ∧
    (∀ s1, caml_runtime_events_resume fuel caml_state_id timestamp s = .ok s1 →
      s1.runtime_events_enabled = s.runtime_events_enabled) := by
  have hpaused : ring_is_active { s with runtime_events_paused := 1 } = false := by
    simp [ring_is_active]
  refine ⟨?_, ?_, ?_, ?_, ?_, ?_, ?_⟩
  · simp only [caml_runtime_events_are_active, ring_is_active]
    by_cases h1 : s.runtime_events_enabled = 0 <;> by_cases h2 : s.runtime_events_paused = 0 <;>
      simp [h1, h2]
  · intro h0
    simp [caml_runtime_events_pause, caml_runtime_events_resume, h0]
  · intro h0 hp
    simp [caml_runtime_events_pause, caml_runtime_events_resume, h0, hp, caml_ev_lifecycle,
      hpaused]
  · intro h0 hp
    simp [caml_runtime_events_pause, h0, hp]
  · intro h0 hp
    have hact : ring_is_active { s with runtime_events_paused := 0 } = true := by
      simp [ring_is_active, h0]
    have he : caml_runtime_events_resume fuel caml_state_id timestamp s =
        write_to_ring fuel caml_state_id timestamp .EV_RUNTIME
          ev_runtime_message_type.EV_LIFECYCLE.code ev_lifecycle.EV_RING_RESUME.code 1
          (some [to_uint64 0]) 0 { s with runtime_events_paused := 0 } := by
      simp only [caml_runtime_events_resume, h0, hp, if_false, if_true, caml_ev_lifecycle,
        hact]
    refine ⟨he, ?_⟩
    intro s1 hr
    rw [he] at hr
    obtain ⟨f1, f2, -, f4, f5, f6, -, -⟩ := write_to_ring_flags _ _ _ _ _ _ _ _ _ _ _ hr
    exact ⟨f2, f1, f5, f6, f4⟩
  · intro s1 hr
    by_cases h0 : s.runtime_events_enabled = 0
    · simp [caml_runtime_events_pause, h0] at hr
      rw [← hr]
    · by_cases hp : s.runtime_events_paused = 0
      · simp [caml_runtime_events_pause, h0, hp, caml_ev_lifecycle, hpaused] at hr
        rw [← hr]
      · simp [caml_runtime_events_pause, h0, hp] at hr
        rw [← hr]
  · intro s1 hr
    by_cases h0 : s.runtime_events_enabled = 0
    · simp [caml_runtime_events_resume, h0] at hr
      rw [← hr]
    · by_cases hp : s.runtime_events_paused = 1
      · have hact : ring_is_active { s with runtime_events_paused := 0 } = true := by
          simp [ring_is_active, h0]
        simp only [caml_runtime_events_resume, h0, hp, if_false, if_true, caml_ev_lifecycle,
          hact] at hr
        exact (write_to_ring_flags _ _ _ _ _ _ _ _ _ _ _ hr).1
      · simp [caml_runtime_events_resume, h0, hp] at hr
        rw [← hr]

/-- C17: on an active ring, for a descriptor of custom type whose serializer
fails with the exception `e`, `caml_runtime_events_user_write` raises `e` and
leaves the state exactly as the serializer left it: it writes nothing itself,
so the head, the tail and the words of every ring are those the serializer
left, and they are those of the state at the call when the serializer changes
nothing. -/
theorem user_write_serializer_failure (callback : Callback) (fuel caml_state_id timestamp : Nat)
    (write_buffer : List Nat) (event : user_event) (event_content : Int) (s : State)
    (serializer e : Nat) (hact : ring_is_active s = true)
    (hty : event.typ = .Custom serializer)
    (hfail : (callback serializer write_buffer event_content s).result = .error e) :
    caml_runtime_events_user_write callback fuel caml_state_id timestamp write_buffer event
      event_content s =
        .raise (.User e) (callback serializer write_buffer event_content s).state ∧
    ((callback serializer write_buffer event_content s).state = s →
      caml_runtime_events_user_write callback fuel caml_state_id timestamp write_buffer event
        event_content s = .raise (.User e) s ∧
      ∀ s1, (caml_runtime_events_user_write callback fuel caml_state_id timestamp write_buffer
          event event_content s).final_state = some s1 →
        ∀ d, s1.ring_header d = s.ring_header d ∧ ∀ i, s1.ring_word d i = s.ring_word d i) := by
  have h : caml_runtime_events_user_write callback fuel caml_state_id timestamp write_buffer
      event event_content s =
        .raise (.User e) (callback serializer write_buffer event_content s).state := by
    simp only [caml_runtime_events_user_write, hact, hty, hfail]
    rfl
  refine ⟨h, fun hs => ⟨by rw [h, hs], ?_⟩⟩
  intro s1 h1 d
  rw [h, hs] at h1
  simp only [Outcome.final_state, Option.some.injEq] at h1
  subst h1
  exact ⟨rfl, fun _ => rfl⟩

/-- An instance of `user_write_serializer_failure`: on the example state after
a start, the serializer `failing_serializer` raises exception 7. -/
theorem user_write_serializer_failure_witness :
    ring_is_active (example_started 4) = true ∧
    caml_runtime_events_user_write failing_serializer 16 0 100 [] example_custom_event 5
      (example_started 4) = .raise (.User 7) (example_started 4) :=
  ⟨by decide,
    (user_write_serializer_failure failing_serializer 16 0 100 [] example_custom_event 5
      (example_started 4) 0 7 (by decide) rfl rfl).1⟩

/-- An instance of `pause_resume_state_machine`: the example state after a
start is enabled and not paused; pause sets the paused flag and resume changes
nothing. -/
theorem pause_resume_state_machine_witness :
    (example_started 4).runtime_events_enabled ≠ 0 ∧
    (example_started 4).runtime_events_paused = 0 ∧
    caml_runtime_events_pause 16 0 100 (example_started 4) =
      .ok { example_started 4 with runtime_events_paused := 1 } ∧
    caml_runtime_events_resume 16 0 100 (example_started 4) = .ok (example_started 4) :=
  ⟨by decide, by decide,
    (pause_resume_state_machine 16 0 100 (example_started 4)).2.2.1 (by decide) (by decide)⟩

/-! ### Lifecycle events of pause and resume -/

/-- C11 (failing input): a start by domain 0, then a pause and a resume by
domain 0. Tracing is enabled and not paused at the pause, which returns with
the paused flag set and the region untouched: the ring of domain 0 still ends
after the `EV_RING_START` event, at tail 3, and no `EV_RING_PAUSE` event was
appended. The resume appends one event, `EV_RING_RESUME`, at the words 3 to 5
of that ring. -/
theorem pause_writes_no_event :
    (example_started 4).runtime_events_enabled = 1 ∧
    (example_started 4).runtime_events_paused = 0 ∧
    (example_started 4).ring_header 0 = some { ring_head := 0, ring_tail := 3 } ∧
    caml_runtime_events_pause 16 0 100 (example_started 4) = .ok example_paused ∧
    example_paused.runtime_events_paused = 1 ∧
    example_paused.current_metadata = (example_started 4).current_metadata ∧
    example_paused.ring_header 0 = some { ring_head := 0, ring_tail := 3 } ∧
    caml_runtime_events_resume 16 0 101 example_paused = .ok example_resumed ∧
    example_resumed.runtime_events_paused = 0 ∧
    example_resumed.ring_header 0 = some { ring_head := 0, ring_tail := 6 } ∧
    example_resumed.ring_word 0 0 =
      RUNTIME_EVENTS_HEADER 3 true ev_runtime_message_type.EV_LIFECYCLE.code
        ev_lifecycle.EV_RING_START.code ∧
    example_resumed.ring_word 0 3 =
      RUNTIME_EVENTS_HEADER 3 true ev_runtime_message_type.EV_LIFECYCLE.code
        ev_lifecycle.EV_RING_RESUME.code ∧
    example_resumed.ring_word 0 4 = 101 := by
  have hp : ring_is_active example_paused = false := by decide
  refine ⟨by decide, by decide, by decide, ?_, rfl, rfl, by decide,
    state_or_eq _ _ (by decide), by decide, by decide, by decide, by decide, by decide⟩
  have h1 : (example_started 4).runtime_events_enabled ≠ 0 := by decide
  have h2 : (example_started 4).runtime_events_paused = 0 := by decide
  simp only [caml_runtime_events_pause, h1, h2, if_false, if_true, caml_ev_lifecycle]
  change (if ring_is_active example_paused = true then _ else _) = _
  rw [hp]
  rfl

/-! ### The allocation histogram -/

theorem caml_ev_alloc_flush_buckets (fuel caml_state_id timestamp : Nat) (s s1 : State)
    (hact : ring_is_active s = true)
    (h : caml_ev_alloc_flush fuel caml_state_id timestamp s = .ok s1) :
    s1.alloc_buckets 0 = s.alloc_buckets 0 ∧
    (∀ i, 1 ≤ i → i < s.build.RUNTIME_EVENTS_NUM_ALLOC_BUCKETS → s1.alloc_buckets i = 0) ∧
    (∀ i, s.build.RUNTIME_EVENTS_NUM_ALLOC_BUCKETS ≤ i →
      s1.alloc_buckets i = s.alloc_buckets i) := by
  simp only [caml_ev_alloc_flush, hact, Bool.not_true, Bool.false_eq_true, if_false] at h
  split at h
  · cases h
  · rename_i s2 hw
    obtain ⟨-, -, -, hb, -, -, hbuild, -⟩ := write_to_ring_flags _ _ _ _ _ _ _ _ _ _ _ hw
    simp only [Except.ok.injEq] at h
    subst h
    refine ⟨?_, ?_, ?_⟩
    · simp [hb]
    · intro i h1 h2
      simp [hbuild, h1, h2]
    · intro i h1
      simp only [hbuild, hb]
      rw [if_neg (by omega)]

theorem caml_ev_alloc_zero (s : State) (hact : ring_is_active s = true)
    (hpos : 0 < s.build.RUNTIME_EVENTS_NUM_ALLOC_BUCKETS_SINGLE) :
    (caml_ev_alloc 0 s).alloc_buckets 0 = (s.alloc_buckets 0 + 1) % UINT64_MOD := by
  have h : 0 < 10 * s.build.RUNTIME_EVENTS_NUM_ALLOC_BUCKETS_SINGLE := by omega
  simp [caml_ev_alloc, hact, h, store]

/-- C12 (failing input): tracing is active on rings of 64 words with 20
buckets, all zero; `caml_ev_alloc` is called with the sizes 0, 3 and 12, then
`caml_ev_alloc_flush`. The flush returns and appends one `EV_ALLOC` event of 20
payload words, the bucket counts in index order (words 5, 8 and 15 of the ring
are the buckets 0, 3 and 10, each 1), and afterwards the buckets 3 and 10 are
zero but bucket 0 still holds 1: the reset loop starts at index 1. -/
theorem alloc_flush_keeps_bucket_zero :
    ring_is_active (example_started 6) = true ∧
    (∀ i, i < 20 → (example_started 6).alloc_buckets i = 0) ∧
    example_allocated.alloc_buckets 0 = 1 ∧ example_allocated.alloc_buckets 3 = 1 ∧
    example_allocated.alloc_buckets 10 = 1 ∧
    caml_ev_alloc_flush 64 0 100 example_allocated = .ok example_flushed ∧
    example_flushed.ring_header 0 = some { ring_head := 0, ring_tail := 25 } ∧
    example_flushed.ring_word 0 3 =
      RUNTIME_EVENTS_HEADER 22 true ev_runtime_message_type.EV_ALLOC.code 0 ∧
    (∀ i, i < 20 → example_flushed.ring_word 0 (5 + i) = example_allocated.alloc_buckets i) ∧
    example_flushed.ring_word 0 5 = 1 ∧ example_flushed.ring_word 0 8 = 1 ∧
    example_flushed.ring_word 0 15 = 1 ∧
    (∀ i, 1 ≤ i → i < 20 → example_flushed.alloc_buckets i = 0) ∧
    example_flushed.alloc_buckets 0 = 1 := by
  refine ⟨by decide, by decide, by decide, by decide, by decide, state_or_eq _ _ (by decide),
    by decide, by decide, by decide, by decide, by decide, by decide, by decide, by decide⟩

/-! ### Resolution of names -/

theorem c_string_of_safe (name : List Nat) (h : 0 ∉ name) : c_string name = name := by
  unfold c_string
  rw [List.takeWhile_eq_self_iff]
  intro b hb
  have : b ≠ 0 := fun hb0 => h (hb0 ▸ hb)
  simpa using this

theorem c_string_safe (name : List Nat) : 0 ∉ c_string name := by
  intro h
  have := List.mem_takeWhile_imp h
  simp at this

theorem c_string_length (name : List Nat) : (c_string name).length = c_strlen name := rfl

theorem strncmp_eq_iff (a b : List Nat)
    (hlen : a.length ≤ RUNTIME_EVENTS_CUSTOM_EVENT_ID_LENGTH - 1) (hsafe : 0 ∉ a) :
    strncmp_eq a b RUNTIME_EVENTS_CUSTOM_EVENT_ID_LENGTH = true ↔ a = c_string b := by
  have hidl : RUNTIME_EVENTS_CUSTOM_EVENT_ID_LENGTH = 128 := rfl
  rw [hidl] at hlen ⊢
  simp only [strncmp_eq, c_string_of_safe a hsafe, beq_iff_eq]
  rw [List.take_of_length_le (by omega)]
  constructor
  · intro h
    have hl : ((c_string b).take 128).length = a.length := by rw [← h]
    rw [List.length_take] at hl
    have : (c_string b).length ≤ 128 := by omega
    rw [h, List.take_of_length_le this]
  · intro h
    rw [← h, List.take_of_length_le (by omega)]

theorem find_name_congr (name : List Nat) :
    ∀ (es : List user_event),
      (∀ e ∈ es, e.name.length ≤ RUNTIME_EVENTS_CUSTOM_EVENT_ID_LENGTH - 1 ∧ 0 ∉ e.name) →
      es.find? (fun event => strncmp_eq event.name name RUNTIME_EVENTS_CUSTOM_EVENT_ID_LENGTH) =
        es.find? (fun event => decide (event.name = c_string name)) := by
  intro es
  induction es with
  | nil => intro _; rfl
  | cons e rest ih =>
    intro h
    have he := h e (List.mem_cons_self _ _)
    have hiff := strncmp_eq_iff e.name name he.1 he.2
    have hrest := ih (fun x hx => h x (List.mem_cons_of_mem _ hx))
    by_cases hn : e.name = c_string name
    · have hb := hiff.2 hn
      have hd : decide (e.name = c_string name) = true := by simpa using hn
      simp only [List.find?_cons, hb, hd]
    · have hb : strncmp_eq e.name name RUNTIME_EVENTS_CUSTOM_EVENT_ID_LENGTH = false := by
        simpa using (not_congr hiff).2 hn
      have hd : decide (e.name = c_string name) = false := by simpa using hn
      simp only [List.find?_cons, hb, hd]
      exact hrest

theorem user_resolve_found (event_name : List Nat) (event_type_id : ev_user_ml_type)
    (s : State) (e : user_event)
    (h : s.user_events.find?
      (fun event => strncmp_eq event.name event_name RUNTIME_EVENTS_CUSTOM_EVENT_ID_LENGTH) =
        some e) :
    caml_runtime_events_user_resolve event_name event_type_id s = .ret (some e) s := by
  simp only [caml_runtime_events_user_resolve, h]

/-- C13 (amended): on a registration list whose names passed the checks of a
registration (at most 127 bytes, none of them zero), with the name looked up
read as a C string, `caml_runtime_events_user_resolve` returns `Val_none` if
and only if no entry has the name looked up and the type is
`EV_USER_ML_TYPE_CUSTOM`, and it then leaves the state unchanged. When some
entry has that name, it returns the entry with that name nearest to the front
of the list, the most recently registered one, and leaves the state (the list,
the counter and the custom event table) unchanged. -/
theorem user_resolve_lookup (event_name : List Nat) (event_type_id : ev_user_ml_type)
    (s : State) (hvalid : NamesValid s) :
    ((∃ s1, caml_runtime_events_user_resolve event_name event_type_id s = .ret none s1) ↔
      (∀ e ∈ s.user_events, e.name ≠ c_string event_name) ∧
        event_type_id = .EV_USER_ML_TYPE_CUSTOM) ∧
    ((∀ e ∈ s.user_events, e.name ≠ c_string event_name) →
      event_type_id = .EV_USER_ML_TYPE_CUSTOM →
      caml_runtime_events_user_resolve event_name event_type_id s = .ret none s) ∧
    ((∃ e ∈ s.user_events, e.name = c_string event_name) →
      ∃ e later earlier, s.user_events = later ++ e :: earlier ∧
        e.name = c_string event_name ∧ (∀ x ∈ later, x.name ≠ c_string event_name) ∧
        caml_runtime_events_user_resolve event_name event_type_id s = .ret (some e) s) := by
  have hfind := find_name_congr event_name s.user_events hvalid
  have hnone : (∀ e ∈ s.user_events, e.name ≠ c_string event_name) →
      event_type_id = .EV_USER_ML_TYPE_CUSTOM →
      caml_runtime_events_user_resolve event_name event_type_id s = .ret none s := by
    intro hno hty
    have h0 : s.user_events.find?
        (fun event => strncmp_eq event.name event_name RUNTIME_EVENTS_CUSTOM_EVENT_ID_LENGTH) =
          none := by
      rw [hfind, List.find?_eq_none]
      intro x hx
      simpa using hno x hx
    simp only [caml_runtime_events_user_resolve, h0, hty]
    simp
  have hsome : (∃ e ∈ s.user_events, e.name = c_string event_name) →
      ∃ e later earlier, s.user_events = later ++ e :: earlier ∧
        e.name = c_string event_name ∧ (∀ x ∈ later, x.name ≠ c_string event_name) ∧
        caml_runtime_events_user_resolve event_name event_type_id s = .ret (some e) s := by
    rintro ⟨e0, he0, hn0⟩
    cases hf : s.user_events.find? (fun event => decide (event.name = c_string event_name)) with
    | none =>
      rw [List.find?_eq_none] at hf
      exact absurd (by simpa using hn0) (hf e0 he0)
    | some e =>
      obtain ⟨hp, later, earlier, hsplit, hlater⟩ := List.find?_eq_some.1 hf
      refine ⟨e, later, earlier, hsplit, by simpa using hp, ?_, ?_⟩
      · intro x hx
        simpa using hlater x hx
      · exact user_resolve_found _ _ _ _ (by rw [hfind]; exact hf)
  refine ⟨⟨?_, fun h => ⟨s, hnone h.1 h.2⟩⟩, hnone, hsome⟩
  rintro ⟨s1, h1⟩
  by_cases hex : ∃ e ∈ s.user_events, e.name = c_string event_name
  · obtain ⟨e, -, -, -, -, -, hr⟩ := hsome hex
    rw [hr] at h1
    cases h1
  · have hno : ∀ e ∈ s.user_events, e.name ≠ c_string event_name :=
      fun e he hn => hex ⟨e, he, hn⟩
    refine ⟨hno, ?_⟩
    by_contra hty
    have h0 : s.user_events.find?
        (fun event => strncmp_eq event.name event_name RUNTIME_EVENTS_CUSTOM_EVENT_ID_LENGTH) =
          none := by
      rw [hfind, List.find?_eq_none]
      intro x hx
      simpa using hno x hx
    simp only [caml_runtime_events_user_resolve, h0, hty, ne_eq, not_false_eq_true,
      if_true] at h1
    split at h1 <;> cases h1

/-- An instance of `user_resolve_lookup`: after the registration of the names
`[97]`, `[98]`, `[97]`, in this order, the lookup of `[97]` returns the entry
with id 2, the most recent one. -/
theorem user_resolve_lookup_witness :
    NamesValid example_registry ∧
    ∃ e later earlier, example_registry.user_events = later ++ e :: earlier ∧
      e.name = c_string [97, 0, 98] ∧ (∀ x ∈ later, x.name ≠ c_string [97, 0, 98]) ∧
      caml_runtime_events_user_resolve [97, 0, 98] .EV_USER_ML_TYPE_CUSTOM example_registry =
        .ret (some e) example_registry :=
  have hv : NamesValid example_registry := by unfold NamesValid; decide
  ⟨hv, (user_resolve_lookup [97, 0, 98] .EV_USER_ML_TYPE_CUSTOM example_registry hv).2.2
    ⟨{ id := 2, name := [97], typ := .Unit, tag := none }, by decide, by decide⟩⟩

theorem strncmp_eq_replicate (n q : Nat) (hq : q ≤ n) :
    strncmp_eq (List.replicate n 97) (List.replicate q 97) q = true := by
  have h1 : (0 : Nat) ∉ List.replicate n 97 := by
    intro h0
    have := List.eq_of_mem_replicate h0
    omega
  have h2 : (0 : Nat) ∉ List.replicate q 97 := by
    intro h0
    have := List.eq_of_mem_replicate h0
    omega
  simp only [strncmp_eq, c_string_of_safe _ h1, c_string_of_safe _ h2, List.take_replicate,
    Nat.min_eq_left hq, Nat.min_self, beq_self_eq_true]

/-- C13 (counterexample): the name of `2 ^ 31` bytes that a registration
accepts is in the registration list; the lookup of a different name, of 128
bytes, with the type `EV_USER_ML_TYPE_CUSTOM` does not return `Val_none`
although no entry of the list has the name looked up: `strncmp` compares the
first 128 bytes only, and the entry with the long name is returned. -/
theorem user_resolve_returns_other_name :
    caml_runtime_events_user_register (List.replicate (2 ^ 31) 97) none .Unit (example_init 4) =
      .ret { id := 0, name := List.replicate (2 ^ 31) 97, typ := .Unit, tag := none }
        (registered (List.replicate (2 ^ 31) 97) none .Unit (example_init 4)) ∧
    (registered (List.replicate (2 ^ 31) 97) none .Unit (example_init 4)).user_events =
      [{ id := 0, name := List.replicate (2 ^ 31) 97, typ := .Unit, tag := none }] ∧
    (∀ e ∈ (registered (List.replicate (2 ^ 31) 97) none .Unit (example_init 4)).user_events,
      e.name ≠ List.replicate 128 97 ∧ e.name ≠ c_string (List.replicate 128 97)) ∧
    caml_runtime_events_user_resolve (List.replicate 128 97) .EV_USER_ML_TYPE_CUSTOM
        (registered (List.replicate (2 ^ 31) 97) none .Unit (example_init 4)) =
      .ret (some { id := 0, name := List.replicate (2 ^ 31) 97, typ := .Unit, tag := none })
        (registered (List.replicate (2 ^ 31) 97) none .Unit (example_init 4)) := by
  have hlen : (List.replicate (2 ^ 31) 97).length = 2 ^ 31 := List.length_replicate _ _
  have hsafe : (0 : Nat) ∉ List.replicate (2 ^ 31) 97 := by
    intro h0
    have := List.eq_of_mem_replicate h0
    omega
  have hq : (0 : Nat) ∉ List.replicate 128 97 := by
    intro h0
    have := List.eq_of_mem_replicate h0
    omega
  have hev : (registered (List.replicate (2 ^ 31) 97) none .Unit (example_init 4)).user_events =
      [{ id := 0, name := List.replicate (2 ^ 31) 97, typ := .Unit, tag := none }] := rfl
  have hne : List.replicate (2 ^ 31) 97 ≠ List.replicate 128 97 := by
    intro h
    have h1 := congrArg List.length h
    rw [List.length_replicate, List.length_replicate] at h1
    omega
  refine ⟨?_, hev, ?_, ?_⟩
  · exact user_register_ret_int (List.replicate (2 ^ 31) 97) none .Unit (example_init 4)
      (by decide) (by rw [hlen]; decide) hsafe
  · intro e he
    rw [hev, List.mem_singleton] at he
    subst he
    rw [c_string_of_safe _ hq]
    exact ⟨hne, hne⟩
  · apply user_resolve_found
    rw [hev]
    have := strncmp_eq_replicate (2 ^ 31) 128 (by omega)
    simp only [List.find?_cons, RUNTIME_EVENTS_CUSTOM_EVENT_ID_LENGTH, this]

theorem take_length_takeWhile (p : Nat → Bool) :
    ∀ l : List Nat, l.take (l.takeWhile p).length = l.takeWhile p := by
  intro l
  induction l with
  | nil => rfl
  | cons a rest ih =>
    by_cases h : p a = true
    · simp [List.takeWhile_cons, h, ih]
    · simp [List.takeWhile_cons, h]

set_option maxRecDepth 8000 in
/-- C14 (counterexample): on the empty registration list, resolve of a name of
128 bytes with the built-in type unit finds no matching entry, and does not
return a descriptor: it raises the name length error of the registration. -/
theorem user_resolve_long_name_raises :
    (example_init 4).user_events = [] ∧
    (caml_runtime_events_user_resolve (List.replicate 128 97) .EV_USER_ML_TYPE_UNIT
      (example_init 4)).exn = some (.Invalid_argument msg_length) ∧
    (caml_runtime_events_user_resolve (List.replicate 128 97) .EV_USER_ML_TYPE_UNIT
      (example_init 4)).value = none := by
  refine ⟨?_, ?_, ?_⟩ <;> decide

/-- C14 (amended): for a name of at most 127 bytes that no entry of a valid
registration list has, a built-in type and a counter below
`RUNTIME_EVENTS_MAX_CUSTOM_EVENTS`, resolve registers and returns the descriptor
with that name, that type, no tag and the counter as id; a second resolve of
the name returns the same descriptor and leaves the state unchanged. -/
theorem user_resolve_registers (event_name : List Nat) (event_type_id : ev_user_ml_type)
    (s : State) (hvalid : NamesValid s)
    (hno : ∀ e ∈ s.user_events, e.name ≠ c_string event_name)
    (hty : event_type_id ≠ .EV_USER_ML_TYPE_CUSTOM)
    (hlen : c_strlen event_name ≤ RUNTIME_EVENTS_CUSTOM_EVENT_ID_LENGTH - 1)
    (hidx : s.runtime_custom_event_index < RUNTIME_EVENTS_MAX_CUSTOM_EVENTS) :
    caml_runtime_events_user_resolve event_name event_type_id s =
      .ret (some { id := (s.runtime_custom_event_index : Int), name := c_string event_name,
                   typ := event_type_of_id event_type_id, tag := none })
        (registered (c_string event_name) none (event_type_of_id event_type_id) s) ∧
    caml_runtime_events_user_resolve event_name event_type_id
        (registered (c_string event_name) none (event_type_of_id event_type_id) s) =
      .ret (some { id := (s.runtime_custom_event_index : Int), name := c_string event_name,
                   typ := event_type_of_id event_type_id, tag := none })
        (registered (c_string event_name) none (event_type_of_id event_type_id) s) ∧
    (registered (c_string event_name) none (event_type_of_id event_type_id) s).user_events =
      { id := (s.runtime_custom_event_index : Int), name := c_string event_name,
        typ := event_type_of_id event_type_id, tag := none } :: s.user_events ∧
    (registered (c_string event_name) none (event_type_of_id event_type_id)
      s).runtime_custom_event_index = s.runtime_custom_event_index + 1 := by
  have hidl : RUNTIME_EVENTS_CUSTOM_EVENT_ID_LENGTH = 128 := rfl
  have hmax : RUNTIME_EVENTS_MAX_CUSTOM_EVENTS = 8192 := rfl
  have h0 : s.user_events.find?
      (fun event => strncmp_eq event.name event_name RUNTIME_EVENTS_CUSTOM_EVENT_ID_LENGTH) =
        none := by
    rw [find_name_congr event_name s.user_events hvalid, List.find?_eq_none]
    intro x hx
    simpa using hno x hx
  have htake : event_name.take (min (c_strlen event_name) RUNTIME_EVENTS_CUSTOM_EVENT_ID_LENGTH) =
      c_string event_name := by
    rw [Nat.min_eq_left (by omega)]
    exact take_length_takeWhile _ _
  have hclen : (c_string event_name).length ≤ RUNTIME_EVENTS_CUSTOM_EVENT_ID_LENGTH - 1 := hlen
  have hreg := user_register_ret (c_string event_name) none (event_type_of_id event_type_id) s
    (by omega) hclen (c_string_safe _)
  have hto : to_int s.runtime_custom_event_index = (s.runtime_custom_event_index : Int) :=
    to_int_of_lt _ (by omega)
  have hlist : (registered (c_string event_name) none (event_type_of_id event_type_id)
      s).user_events =
      { id := (s.runtime_custom_event_index : Int), name := c_string event_name,
        typ := event_type_of_id event_type_id, tag := none } :: s.user_events := by
    simp only [registered, hto]
  refine ⟨?_, ?_, hlist, ?_⟩
  · simp only [caml_runtime_events_user_resolve, h0, hty, ne_eq, not_false_eq_true, if_true,
      htake, hreg]
  · apply user_resolve_found
    rw [hlist]
    have hb := (strncmp_eq_iff (c_string event_name) event_name hclen (c_string_safe _)).2 rfl
    simp only [List.find?_cons, hb]
  · simp only [registered]
    exact Nat.mod_eq_of_lt (by simp only [UINT64_MOD]; omega)

/-- An instance of `user_resolve_registers`: on the example registry the name
`[99]` is new; resolve with the type int registers it with the id 3. -/
theorem user_resolve_registers_witness :
    NamesValid example_registry ∧
    (∀ e ∈ example_registry.user_events, e.name ≠ c_string [99]) ∧
    c_strlen [99] ≤ RUNTIME_EVENTS_CUSTOM_EVENT_ID_LENGTH - 1 ∧
    example_registry.runtime_custom_event_index < RUNTIME_EVENTS_MAX_CUSTOM_EVENTS ∧
    caml_runtime_events_user_resolve [99] .EV_USER_ML_TYPE_INT example_registry =
      .ret (some { id := 3, name := [99], typ := .Int, tag := none })
        (registered [99] none .Int example_registry) :=
  have hv : NamesValid example_registry := by unfold NamesValid; decide
  ⟨hv, by decide, by decide, by decide,
    (user_resolve_registers [99] .EV_USER_ML_TYPE_INT example_registry hv (by decide)
      (by decide) (by decide) (by decide)).1⟩

/-! ### The frame of a call of the ring writer -/

theorem write_item_data_other (m : Region) (d : Nat) (p : WritePlan) (ring_head timestamp : Nat)
    (category : ev_category) (type : Nat) (event_id : Int) (event_length : Nat)
    (content : Option (List Nat)) (word_offset j : Nat)
    (hout : ∀ x, x < p.event_offset + (event_length + 2) ∨ x = p.ring_tail_offset →
      j ≠ ring_ptr m d x) :
    (write_item m d p ring_head timestamp category type event_id event_length content
        word_offset).data j = m.data j := by
  simp only [WritePlan.event_offset, ring_ptr] at hout
  by_cases hp : p.padding_required > 0
  · simp only [hp, if_true] at hout
    have hx := hout p.ring_tail_offset (Or.inr rfl)
    have h0 : j ≠ d * m.ring_size_bytes / 8 := hout 0 (Or.inl (by omega))
    have h1 := hout 1 (Or.inl (by omega))
    have h2 : ¬ (d * m.ring_size_bytes / 8 + 2 ≤ j ∧
        j < d * m.ring_size_bytes / 8 + 2 + event_length) := by
      intro hc
      exact hout (j - d * m.ring_size_bytes / 8) (Or.inl (by omega)) (by omega)
    cases content with
    | none => simp [write_item, store, memcpy_words, ring_ptr, hp, hx, h0, h1]
    | some c =>
      simp only [write_item, store, memcpy_words, ring_ptr, hp, if_true, Nat.add_zero,
        Nat.zero_add, h2, if_false]
      simp [hx, h0, h1]
  · simp only [hp, if_false] at hout
    have h0 := hout p.ring_tail_offset (Or.inr rfl)
    have h1 := hout (p.ring_tail_offset + 1) (Or.inl (by omega))
    have h2 : ¬ (d * m.ring_size_bytes / 8 + (p.ring_tail_offset + 2) ≤ j ∧
        j < d * m.ring_size_bytes / 8 + (p.ring_tail_offset + 2) + event_length) := by
      intro hc
      exact hout (j - d * m.ring_size_bytes / 8) (Or.inl (by omega)) (by omega)
    cases content with
    | none => simp [write_item, store, memcpy_words, ring_ptr, hp, h0, h1]
    | some c =>
      simp only [write_item, store, memcpy_words, ring_ptr, hp, if_false, h2]
      simp [h0, h1]

theorem write_plan_bounds (m : Region) (d n : Nat) (hcap : 0 < m.ring_size_elements)
    (hlt : m.ring_size_elements < UINT64_MOD) (hfit : n + 2 ≤ m.ring_size_elements) :
    (write_plan m d n).ring_tail_offset < m.ring_size_elements ∧
    (write_plan m d n).event_offset + (n + 2) ≤ m.ring_size_elements := by
  have hM : UINT64_MOD = 2 ^ 64 := rfl
  have hmask : (m.ring_size_elements + UINT64_MOD - 1) % UINT64_MOD =
      m.ring_size_elements - 1 := by
    rw [hM] at hlt ⊢
    omega
  have hoff : (m.headers d).ring_tail &&& (m.ring_size_elements - 1) ≤
      m.ring_size_elements - 1 := Nat.and_le_right
  have hdist : (m.ring_size_elements + UINT64_MOD -
      ((m.headers d).ring_tail &&& (m.ring_size_elements - 1))) % UINT64_MOD =
      m.ring_size_elements - ((m.headers d).ring_tail &&& (m.ring_size_elements - 1)) := by
    rw [hM] at hlt ⊢
    omega
  have hn : (n + 2) % UINT64_MOD = n + 2 := Nat.mod_eq_of_lt (by omega)
  simp only [write_plan, WritePlan.event_offset, get_ring_buffer_by_domain_id, hmask, hdist, hn]
  refine ⟨by omega, ?_⟩
  by_cases hc : m.ring_size_elements -
      ((m.headers d).ring_tail &&& (m.ring_size_elements - 1)) < n + 2
  · have hpos : m.ring_size_elements -
        ((m.headers d).ring_tail &&& (m.ring_size_elements - 1)) > 0 := by omega
    simp only [hc, if_true, hpos]
    omega
  · simp only [hc, if_false, gt_iff_lt, Nat.lt_irrefl]
    omega

theorem ring_ptr_eq (m : Region) (d i : Nat)
    (hbytes : m.ring_size_bytes = m.ring_size_elements * 8) :
    ring_ptr m d i = d * m.ring_size_elements + i := by
  rw [ring_ptr, hbytes, ← Nat.mul_assoc, Nat.mul_div_cancel _ (by decide : 0 < 8)]

theorem ring_ptr_other (m : Region) (d d1 i : Nat)
    (hbytes : m.ring_size_bytes = m.ring_size_elements * 8) (hd : d1 ≠ d)
    (hi : i < m.ring_size_elements) :
    ¬ (ring_ptr m d 0 ≤ ring_ptr m d1 i ∧
      ring_ptr m d1 i < ring_ptr m d 0 + m.ring_size_elements) := by
  rw [ring_ptr_eq m d 0 hbytes, ring_ptr_eq m d1 i hbytes]
  rcases Nat.lt_or_gt_of_ne hd with h | h
  · have := Nat.mul_le_mul_right m.ring_size_elements (Nat.succ_le_of_lt h)
    rw [Nat.succ_mul] at this
    omega
  · have := Nat.mul_le_mul_right m.ring_size_elements (Nat.succ_le_of_lt h)
    rw [Nat.succ_mul] at this
    omega

/-- C18 (counterexample): on rings of 4 words, with the region created by
domain 1, domain 0 writes two events of total length 2 and then one of total
length 5. The third call returns; before it, word 0 of the ring of domain 1 is
the header of the `EV_RING_START` event of domain 1, after it that word is 9,
a payload word of the event of domain 0. -/
theorem write_to_ring_overruns_other_ring :
    (example_before_overrun).max_domains = 2 ∧
    (example_call 3).run 16 0 example_before_overrun = .ok example_overrun ∧
    example_before_overrun.ring_header 1 = some { ring_head := 0, ring_tail := 3 } ∧
    example_before_overrun.ring_word 1 0 =
      RUNTIME_EVENTS_HEADER 3 true ev_runtime_message_type.EV_LIFECYCLE.code
        ev_lifecycle.EV_RING_START.code ∧
    example_overrun.ring_word 1 0 = 9 ∧
    example_overrun.ring_word 1 0 ≠ example_before_overrun.ring_word 1 0 := by
  refine ⟨by decide, state_or_eq _ _ (by decide), by decide, by decide, by decide, by decide⟩

/-! ### The records of a ring -/

theorem advance_head_take (k : Nat) (hk : k < 64) (ring : Nat → Nat) (target tail : Nat)
    (htt : tail ≤ target) (htarget : target < UINT64_MOD) (hfit : target - tail < 2 ^ k) :
    ∀ (ls : List Nat) (fuel head : Nat),
      Chain (2 ^ k) ring head ls → head + ls.sum = tail → ls.length ≤ fuel →
      ∃ n, n ≤ ls.length ∧
        advance_head (2 ^ k) ((2 ^ k + UINT64_MOD - 1) % UINT64_MOD) ring target fuel head =
          .ok (head + (ls.take n).sum) ∧
        target - (head + (ls.take n).sum) < 2 ^ k ∧
        ∀ j, j < n → 2 ^ k ≤ target - (head + (ls.take j).sum) := by
  intro ls
  induction ls with
  | nil =>
    intro fuel head _ hsum _
    simp only [List.sum_nil, Nat.add_zero] at hsum
    subst hsum
    refine ⟨0, Nat.le_refl _, ?_, by simpa using hfit, fun j hj => absurd hj (Nat.not_lt_zero _)⟩
    simp only [List.take_nil, List.sum_nil, Nat.add_zero]
    apply advance_head_no_room
    have : (target + UINT64_MOD - head) % UINT64_MOD = target - head := by
      simp only [UINT64_MOD] at *
      omega
    rw [this]
    exact hfit
  | cons l ls ih =>
    intro fuel head hch hsum hfuel
    have hcond : (target + UINT64_MOD - head) % UINT64_MOD = target - head := by
      simp only [List.sum_cons] at hsum
      simp only [UINT64_MOD] at *
      omega
    by_cases hroom : target - head < 2 ^ k
    · refine ⟨0, Nat.zero_le _, ?_, by simpa using hroom,
        fun j hj => absurd hj (Nat.not_lt_zero _)⟩
      simp only [List.take_zero, List.sum_nil, Nat.add_zero]
      exact advance_head_no_room _ _ _ _ _ _ (by rw [hcond]; exact hroom)
    · obtain ⟨hl, hlen, hrest⟩ := hch
      simp only [List.sum_cons] at hsum
      cases fuel with
      | zero => simp at hfuel
      | succ fuel =>
        have hstep : (head + l) % UINT64_MOD = head + l := by
          simp only [UINT64_MOD] at *
          omega
        obtain ⟨n, hn, hadv, hroom1, hmin⟩ :=
          ih fuel (head + l) hrest (by omega) (by simpa using hfuel)
        have hsumeq : ∀ j, head + ((l :: ls).take (j + 1)).sum = head + l + (ls.take j).sum := by
          intro j
          simp only [List.take_succ_cons, List.sum_cons]
          omega
        refine ⟨n + 1, by simpa using hn, ?_, by rw [hsumeq]; exact hroom1, ?_⟩
        · simp only [advance_head, hcond]
          rw [if_pos (by omega), and_mask_eq_mod _ _ hk, hlen, hstep, hsumeq]
          exact hadv
        · intro j hj
          cases j with
          | zero =>
            simp only [List.take_zero, List.sum_nil, Nat.add_zero]
            omega
          | succ j =>
            rw [hsumeq]
            exact hmin j (by omega)

theorem records_chain (cap : Nat) (ring : Nat → Nat) :
    ∀ (rs : List record) (p : Nat), Records cap ring p rs →
      Chain cap ring p (rs.map (fun r => r.length)) := by
  intro rs
  induction rs with
  | nil => intro p _; trivial
  | cons r rs ih =>
    intro p h
    obtain ⟨hl, hlen, -, hrest⟩ := h
    exact ⟨hl, hlen, ih _ hrest⟩

theorem records_drop (cap : Nat) (ring : Nat → Nat) :
    ∀ (n : Nat) (rs : List record) (p : Nat), Records cap ring p rs →
      Records cap ring (p + ((rs.map (fun r => r.length)).take n).sum) (rs.drop n) := by
  intro n
  induction n with
  | zero => intro rs p h; simpa using h
  | succ n ih =>
    intro rs p h
    cases rs with
    | nil => trivial
    | cons r rs =>
      obtain ⟨-, -, -, hrest⟩ := h
      have := ih rs _ hrest
      simpa [List.sum_cons, Nat.add_assoc] using this

theorem records_congr (cap : Nat) (ring ring1 : Nat → Nat) :
    ∀ (rs : List record) (p : Nat), Records cap ring p rs →
      (∀ r ∈ rs, r.words.length ≤ r.length) →
      (∀ q, p ≤ q → q < p + (rs.map (fun r => r.length)).sum →
        ring1 (q % cap) = ring (q % cap)) →
      Records cap ring1 p rs := by
  intro rs
  induction rs with
  | nil => intro p _ _ _; trivial
  | cons r rs ih =>
    intro p h hw hq
    obtain ⟨hl, hlen, hwords, hrest⟩ := h
    have hwr := hw r (List.mem_cons_self _ _)
    simp only [List.map_cons, List.sum_cons] at hq
    refine ⟨hl, ?_, ?_, ih _ hrest (fun x hx => hw x (List.mem_cons_of_mem _ hx)) ?_⟩
    · rw [hq p (Nat.le_refl _) (by omega)]
      exact hlen
    · intro i hi
      rw [hq (p + i) (by omega) (by omega)]
      exact hwords i hi
    · intro q h1 h2
      exact hq q (by omega) (by omega)

theorem records_append (cap : Nat) (ring : Nat → Nat) :
    ∀ (rs ms : List record) (p : Nat), Records cap ring p rs →
      Records cap ring (p + (rs.map (fun r => r.length)).sum) ms →
      Records cap ring p (rs ++ ms) := by
  intro rs
  induction rs with
  | nil => intro ms p _ h; simpa using h
  | cons r rs ih =>
    intro ms p h hm
    obtain ⟨hl, hlen, hwords, hrest⟩ := h
    refine ⟨hl, hlen, hwords, ih ms _ hrest ?_⟩
    simpa [List.sum_cons, Nat.add_assoc] using hm

theorem records_walk (cap : Nat) (ring : Nat → Nat) (tail : Nat) :
    ∀ (rs : List record) (p : Nat), Records cap ring p rs →
      p + (rs.map (fun r => r.length)).sum = tail →
      walk cap ring tail rs.length p = true := by
  intro rs
  induction rs with
  | nil =>
    intro p _ h
    simp only [List.map_nil, List.sum_nil, Nat.add_zero] at h
    simp [walk, h]
  | cons r rs ih =>
    intro p h hsum
    obtain ⟨hl, hlen, -, hrest⟩ := h
    simp only [List.map_cons, List.sum_cons] at hsum
    have h1 : (p == tail) = false := by
      simp only [beq_eq_false_iff_ne, ne_eq]
      omega
    have h2 : ¬ tail < p := by omega
    simp only [walk, List.length_cons, h1, h2, hlen, if_false, Bool.false_eq_true]
    exact ih _ hrest (by omega)

theorem write_item_kept_words (cap d : Nat) (m : Region) (p : WritePlan) (H1 T n pad : Nat)
    (timestamp : Nat) (category : ev_category) (type : Nat) (event_id : Int)
    (content : Option (List Nat)) (word_offset : Nat)
    (hpos : 0 < cap) (hoff : p.ring_tail_offset = T % cap) (hpp : p.padding_required = pad)
    (hpad : pad = if cap - T % cap < n + 2 then cap - T % cap else 0)
    (hfit : 2 * (n + 2) ≤ cap) (hroom : T + (n + 2) + pad - H1 < cap) :
    ∀ q, H1 ≤ q → q < T →
      (write_item m d p H1 timestamp category type event_id n content
        word_offset).data (ring_ptr m d (q % cap)) = m.data (ring_ptr m d (q % cap)) := by
  have holt : T % cap < cap := Nat.mod_lt _ hpos
  intro q hq1 hq2
  apply write_item_frame
  · rintro ⟨-, hx⟩
    rw [hoff] at hx
    exact mod_ne_of_lt_of_sub_lt cap q T (by omega) (by omega) hx
  · rintro ⟨hx1, hx2⟩
    by_cases hp0 : pad > 0
    · have hev0 : p.event_offset = 0 := by simp [WritePlan.event_offset, hpp, hp0]
      rw [hev0] at hx1 hx2
      obtain ⟨hpadeq, -⟩ := padding_eq_of_pos cap (T % cap) n pad hpad hp0
      have hz : (T + pad) % cap = 0 := by rw [hpadeq]; exact add_pad_mod cap T hpos
      have hx : (T + pad + q % cap) % cap = q % cap :=
        add_mod_of_mod_zero cap (T + pad) (q % cap) hz (by omega)
      exact mod_ne_of_lt_of_sub_lt cap q (T + pad + q % cap) (by omega) (by omega) hx.symm
    · have hev0 : p.event_offset = T % cap := by simp [WritePlan.event_offset, hpp, hp0, hoff]
      rw [hev0] at hx1 hx2
      have hc : ¬ cap - T % cap < n + 2 := by
        intro hc
        rw [hpad, if_pos hc] at hp0
        omega
      have hx : (T + (q % cap - T % cap)) % cap = q % cap := by
        rw [add_mod_of_lt cap T (q % cap - T % cap) (by omega)]
        omega
      exact mod_ne_of_lt_of_sub_lt cap q (T + (q % cap - T % cap)) (by omega) (by omega)
        hx.symm

theorem event_record_words_length (c : write_call) :
    (event_record c).words.length ≤ c.event_length + 2 := by
  cases hc : c.content <;> simp [event_record, hc]

theorem write_item_event_words (cap d : Nat) (m : Region) (p : WritePlan) (H1 P : Nat)
    (c : write_call) (hlw : p.length_with_header_ts = (c.event_length + 2) % UINT64_MOD)
    (hmod : ∀ i, i < c.event_length + 2 → (P + i) % cap = p.event_offset + i) :
    ∀ i, i < (event_record c).words.length →
      (write_item m d p H1 c.timestamp c.category c.type c.event_id c.event_length c.content
        c.word_offset).data (ring_ptr m d ((P + i) % cap)) = (event_record c).words.getD i 0 := by
  intro i hi
  have hle := event_record_words_length c
  rw [hmod i (by omega)]
  match i, hi with
  | 0, _ =>
    rw [Nat.add_zero, write_item_header, hlw]
    rfl
  | 1, _ =>
    rw [write_item_timestamp]
    rfl
  | j + 2, hj =>
    cases hc : c.content with
    | none => simp [event_record, hc] at hj
    | some content =>
      have hjn : j < c.event_length := by
        simp [event_record, hc] at hj
        omega
      have e : p.event_offset + (j + 2) = p.event_offset + 2 + j := by omega
      rw [e, write_item_payload _ _ _ _ _ _ _ _ _ _ _ _ hjn]
      simp [event_record, hc, List.getD_eq_getElem?_getD, hjn]

theorem write_item_records_new (cap d : Nat) (m : Region) (p : WritePlan) (H1 T pad : Nat)
    (c : write_call)
    (hpos : 0 < cap) (hoff : p.ring_tail_offset = T % cap) (hpp : p.padding_required = pad)
    (hlw : p.length_with_header_ts = c.event_length + 2)
    (hdist : p.ring_distance_to_end = cap - T % cap)
    (hpad : pad = if cap - T % cap < c.event_length + 2 then cap - T % cap else 0)
    (hfit : 2 * (c.event_length + 2) ≤ cap) (hlen : c.event_length + 2 < 2 ^ 10)
    (hty : c.type < 2 ^ 5) (hid : to_uint64 c.event_id < 2 ^ 18) :
    Records cap (fun i => (write_item m d p H1 c.timestamp c.category c.type c.event_id
      c.event_length c.content c.word_offset).data (ring_ptr m d i)) T
      ((if pad > 0 then [padding_record pad] else []) ++ [event_record c]) := by
  have holt : T % cap < cap := Nat.mod_lt _ hpos
  have hM : (c.event_length + 2) % UINT64_MOD = c.event_length + 2 :=
    Nat.mod_eq_of_lt (by simp only [UINT64_MOD]; omega)
  have hhdr : RUNTIME_EVENTS_ITEM_LENGTH ((write_item m d p H1 c.timestamp c.category c.type
      c.event_id c.event_length c.content c.word_offset).data (ring_ptr m d p.event_offset)) =
      c.event_length + 2 := by
    rw [write_item_header, hlw]
    exact item_length_header _ _ _ _ hlen hty hid
  by_cases hp0 : pad > 0
  · have hev0 : p.event_offset = 0 := by simp [WritePlan.event_offset, hpp, hp0]
    obtain ⟨hpadeq, hplt⟩ := padding_eq_of_pos cap (T % cap) c.event_length pad hpad hp0
    have hz : (T + pad) % cap = 0 := by rw [hpadeq]; exact add_pad_mod cap T hpos
    have hpw : (write_item m d p H1 c.timestamp c.category c.type c.event_id c.event_length
        c.content c.word_offset).data (ring_ptr m d (T % cap)) = (pad <<< 54) % UINT64_MOD := by
      rw [← hoff, write_item_padding _ _ _ _ _ _ _ _ _ _ _ (by rw [hpp]; exact hp0)
        (by rw [hoff]; omega), hdist, ← hpadeq]
    rw [if_pos hp0]
    refine ⟨hp0, ?_, ?_, ⟨by show 0 < c.event_length + 2; omega, ?_, ?_, trivial⟩⟩
    · show RUNTIME_EVENTS_ITEM_LENGTH ((write_item m d p H1 c.timestamp c.category c.type
        c.event_id c.event_length c.content c.word_offset).data (ring_ptr m d (T % cap))) = pad
      rw [hpw]
      exact item_length_padding pad (by omega)
    · intro i hi
      have hi0 : i = 0 := by
        simp only [padding_record, List.length_singleton] at hi
        omega
      subst hi0
      show (write_item m d p H1 c.timestamp c.category c.type c.event_id c.event_length
        c.content c.word_offset).data (ring_ptr m d ((T + 0) % cap)) = _
      rw [Nat.add_zero, hpw]
      rfl
    · show RUNTIME_EVENTS_ITEM_LENGTH ((write_item m d p H1 c.timestamp c.category c.type
        c.event_id c.event_length c.content c.word_offset).data
          (ring_ptr m d ((T + pad) % cap))) = c.event_length + 2
      rw [hz, ← hev0]
      exact hhdr
    · exact write_item_event_words cap d m p H1 (T + pad) c (by rw [hlw, hM]) (by
        intro i hi
        rw [hev0, Nat.zero_add]
        exact add_mod_of_mod_zero cap (T + pad) i hz (by omega))
  · have hev0 : p.event_offset = T % cap := by simp [WritePlan.event_offset, hpp, hp0, hoff]
    have hc : ¬ cap - T % cap < c.event_length + 2 := by
      intro hc
      rw [hpad, if_pos hc] at hp0
      omega
    rw [if_neg hp0]
    refine ⟨by show 0 < c.event_length + 2; omega, ?_, ?_, trivial⟩
    · show RUNTIME_EVENTS_ITEM_LENGTH ((write_item m d p H1 c.timestamp c.category c.type
        c.event_id c.event_length c.content c.word_offset).data (ring_ptr m d (T % cap))) =
          c.event_length + 2
      rw [← hev0]
      exact hhdr
    · exact write_item_event_words cap d m p H1 T c (by rw [hlw, hM]) (by
        intro i hi
        rw [hev0]
        exact add_mod_of_lt cap T i (by omega))

theorem write_to_ring_records_step (k d : Nat) (hk : k < 64) (fuel : Nat) (c : write_call)
    (calls : List write_call) (s : State) (m : Region) (rs : List record)
    (hm : s.current_metadata = some m) (hcap : m.ring_size_elements = 2 ^ k)
    (hw : s.ring_size_words = 2 ^ k) (hrc : RecordChain (2 ^ k) m d calls rs)
    (hc : c ∈ calls)
    (hlen : c.event_length + 2 < 2 ^ 10) (hfit : 2 * (c.event_length + 2) ≤ 2 ^ k)
    (hty : c.type < 2 ^ 5) (hid : to_uint64 c.event_id < 2 ^ 18)
    (hov : (m.headers d).ring_tail + 2 * (c.event_length + 2) < UINT64_MOD)
    (hfuel : 2 ^ k ≤ fuel) (hlt : (m.headers d).ring_tail - (m.headers d).ring_head < 2 ^ k) :
    ∃ s1 m1 n, c.run fuel d s = .ok s1 ∧ s1.current_metadata = some m1 ∧
      m1.ring_size_elements = 2 ^ k ∧ s1.ring_size_words = 2 ^ k ∧
      n ≤ rs.length ∧
      (m1.headers d).ring_head =
        (m.headers d).ring_head + ((rs.map (fun r => r.length)).take n).sum ∧
      (m1.headers d).ring_tail =
        (m.headers d).ring_tail + (write_plan m d c.event_length).padding_required +
          (c.event_length + 2) ∧
      (write_plan m d c.event_length).padding_required < c.event_length + 2 ∧
      RecordChain (2 ^ k) m1 d calls
        (rs.drop n ++
          ((if (write_plan m d c.event_length).padding_required > 0 then
              [padding_record (write_plan m d c.event_length).padding_required]
            else []) ++ [event_record c])) ∧
      (m1.headers d).ring_tail - (m1.headers d).ring_head < 2 ^ k ∧
      (∀ j, j < n → 2 ^ k ≤ (m1.headers d).ring_tail -
        ((m.headers d).ring_head + ((rs.map (fun r => r.length)).take j).sum)) := by
  obtain ⟨hrec, hsum, hall⟩ := hrc
  have hcaplt : 2 ^ k < 2 ^ 64 := Nat.pow_lt_pow_right (by omega) hk
  have hpos : 0 < 2 ^ k := Nat.pos_pow_of_pos _ (by omega)
  have hM : UINT64_MOD = 2 ^ 64 := rfl
  have hplan := write_plan_pow2 m d c.event_length k hk hcap (by rw [hM]; omega)
  obtain ⟨pad, hpad⟩ : ∃ pad, pad =
      if 2 ^ k - (m.headers d).ring_tail % 2 ^ k < c.event_length + 2 then
        2 ^ k - (m.headers d).ring_tail % 2 ^ k else 0 := ⟨_, rfl⟩
  rw [← hpad] at hplan
  have hpadlt : pad < c.event_length + 2 := by rw [hpad]; split <;> omega
  have htarget : ((m.headers d).ring_tail + (c.event_length + 2) + pad) % UINT64_MOD =
      (m.headers d).ring_tail + (c.event_length + 2) + pad := Nat.mod_eq_of_lt (by omega)
  have hch := records_chain _ _ rs _ hrec
  have hlsfuel : (rs.map (fun r => r.length)).length ≤ fuel := by
    have := chain_length_le_sum _ _ _ _ hch
    omega
  obtain ⟨n, hn, hadv, hroom, hmin⟩ :=
    advance_head_take k hk (fun i => m.data (ring_ptr m d i))
      ((m.headers d).ring_tail + (c.event_length + 2) + pad) (m.headers d).ring_tail
      (by omega) (by omega) (by omega) (rs.map (fun r => r.length)) fuel
      (m.headers d).ring_head hch hsum hlsfuel
  obtain ⟨H1, hH1⟩ : ∃ H1, H1 =
      (m.headers d).ring_head + ((rs.map (fun r => r.length)).take n).sum := ⟨_, rfl⟩
  rw [← hH1] at hadv hroom
  have hdrop := records_drop (2 ^ k) (fun i => m.data (ring_ptr m d i)) n rs _ hrec
  rw [← hH1] at hdrop
  have hsumdrop : H1 + ((rs.drop n).map (fun r => r.length)).sum = (m.headers d).ring_tail := by
    have := List.sum_take_add_sum_drop (rs.map (fun r => r.length)) n
    rw [List.map_drop]
    omega
  have hrun := write_to_ring_ok fuel d c.timestamp c.category c.type c.event_id c.event_length
    c.content c.word_offset s m H1 hm (by
      rw [hplan, hw]
      simp only []
      rw [htarget, Nat.mod_eq_of_lt (by rw [hM]; exact hcaplt)]
      exact hadv)
  obtain ⟨p, hp⟩ : ∃ p, p = write_plan m d c.event_length := ⟨_, rfl⟩
  rw [← hp] at hrun
  rw [← hp] at hplan
  have hoff : p.ring_tail_offset = (m.headers d).ring_tail % 2 ^ k := by rw [hplan]
  have hpp : p.padding_required = pad := by rw [hplan]
  have hlw : p.length_with_header_ts = c.event_length + 2 := by rw [hplan]
  have hdist : p.ring_distance_to_end = 2 ^ k - (m.headers d).ring_tail % 2 ^ k := by
    rw [hplan]
  have htl : p.ring_tail = (m.headers d).ring_tail := by rw [hplan]
  have hpw : (write_plan m d c.event_length).padding_required = pad := by rw [← hp]; exact hpp
  obtain ⟨hhead1, htail1⟩ := write_item_tail m d p H1 (m.headers d).ring_tail c.event_length pad
    (2 ^ k) c.timestamp c.category c.type c.event_id c.content c.word_offset htl hpp hlw hdist
    hpad hov
  have hkeptw := write_item_kept_words (2 ^ k) d m p H1 (m.headers d).ring_tail c.event_length
    pad c.timestamp c.category c.type c.event_id c.content c.word_offset hpos hoff hpp hpad
    hfit hroom
  have hnew := write_item_records_new (2 ^ k) d m p H1 (m.headers d).ring_tail pad c hpos hoff
    hpp hlw hdist hpad hfit hlen hty hid
  have hfields := write_item_fields m d p H1 c.timestamp c.category c.type c.event_id
    c.event_length c.content c.word_offset
  obtain ⟨m1, hm1⟩ : ∃ m1, m1 = write_item m d p H1 c.timestamp c.category c.type c.event_id
      c.event_length c.content c.word_offset := ⟨_, rfl⟩
  rw [← hm1] at hrun hhead1 htail1 hkeptw hnew hfields
  have hptr : (fun i => m1.data (ring_ptr m1 d i)) = (fun i => m1.data (ring_ptr m d i)) := by
    funext i
    simp [ring_ptr, hfields.2.1]
  have hdropall : ∀ r ∈ rs.drop n, r.words.length ≤ r.length ∧ WrittenBy calls r :=
    fun r hr => hall r (List.mem_of_mem_drop hr)
  have hkept : Records (2 ^ k) (fun i => m1.data (ring_ptr m d i)) H1 (rs.drop n) :=
    records_congr (2 ^ k) (fun i => m.data (ring_ptr m d i)) _ _ _ hdrop
      (fun r hr => (hdropall r hr).1) (fun q hq1 hq2 => hkeptw q hq1 (by omega))
  have hsumnew : (((if pad > 0 then [padding_record pad] else []) ++ [event_record c]).map
      (fun r => r.length)).sum = pad + (c.event_length + 2) := by
    split
    · simp [padding_record, event_record]
    · simp [event_record]; omega
  refine ⟨{ s with current_metadata := some m1 }, m1, n, hrun, rfl, hfields.1.trans hcap, hw,
    by simpa using hn, by rw [hhead1]; exact hH1, by rw [htail1, hpw],
    by rw [hpw]; exact hpadlt, ⟨?_, ?_, ?_⟩, ?_, ?_⟩
  · rw [hptr, hhead1, hpw]
    exact records_append _ _ _ _ _ hkept (by rw [hsumdrop]; exact hnew)
  · rw [hhead1, htail1, hpw, List.map_append, List.sum_append, hsumnew]
    omega
  · intro r hr
    rw [hpw] at hr
    rcases List.mem_append.1 hr with h1 | h1
    · exact hdropall r h1
    · rcases List.mem_append.1 h1 with h2 | h2
      · by_cases hp0 : pad > 0
        · rw [if_pos hp0] at h2
          have : r = padding_record pad := by simpa using h2
          subst this
          exact ⟨by simpa [padding_record] using hp0, Or.inl ⟨pad, hp0, rfl⟩⟩
        · rw [if_neg hp0] at h2
          simp at h2
      · have : r = event_record c := by simpa using h2
        subst this
        exact ⟨event_record_words_length c, Or.inr ⟨c, hc, rfl⟩⟩
  · rw [hhead1, htail1]; omega
  · intro j hj
    have := hmin j hj
    rw [htail1]
    omega

theorem write_calls_records (k d : Nat) (hk : k < 64) (fuel : Nat) (hfuel : 2 ^ k ≤ fuel)
    (calls : List write_call) :
    ∀ (rest : List write_call) (s : State) (m : Region) (rs : List record) (B : Nat),
      (∀ x ∈ rest, x ∈ calls) →
      s.current_metadata = some m → m.ring_size_elements = 2 ^ k → s.ring_size_words = 2 ^ k →
      RecordChain (2 ^ k) m d calls rs →
      (m.headers d).ring_tail - (m.headers d).ring_head < 2 ^ k →
      (m.headers d).ring_tail ≤ B →
      (∀ x ∈ rest, x.event_length + 2 < 2 ^ 10 ∧ 2 * (x.event_length + 2) ≤ 2 ^ k ∧
        x.type < 2 ^ 5 ∧ to_uint64 x.event_id < 2 ^ 18) →
      B + 2 ^ 11 * rest.length < UINT64_MOD →
      ∃ s1 m1 rs1, write_calls fuel d rest s = .ok s1 ∧ s1.current_metadata = some m1 ∧
        m1.ring_size_elements = 2 ^ k ∧ s1.ring_size_words = 2 ^ k ∧
        RecordChain (2 ^ k) m1 d calls rs1 ∧
        (m1.headers d).ring_tail - (m1.headers d).ring_head < 2 ^ k ∧
        (m1.headers d).ring_tail ≤ B + 2 ^ 11 * rest.length := by
  intro rest
  induction rest with
  | nil =>
    intro s m rs B _ hm hcap hw hrc hlt hB _ _
    exact ⟨s, m, rs, rfl, hm, hcap, hw, hrc, hlt, by simpa using hB⟩
  | cons c rest ih =>
    intro s m rs B hin hm hcap hw hrc hlt hB hcalls hlong
    obtain ⟨h1, h2, h3, h4⟩ := hcalls c (List.mem_cons_self _ _)
    simp only [List.length_cons] at hlong
    obtain ⟨s1, m1, n, hrun, hm1, hcap1, hw1, -, -, htail1, hpadlt, hrc1, hlt1, -⟩ :=
      write_to_ring_records_step k d hk fuel c calls s m rs hm hcap hw hrc
        (hin c (List.mem_cons_self _ _)) h1 h2 h3 h4 (by omega) hfuel hlt
    obtain ⟨s2, m2, rs2, hrun2, hm2, hcap2, hw2, hrc2, hlt2, hB2⟩ :=
      ih s1 m1 _ (B + 2 ^ 11) (fun x hx => hin x (List.mem_cons_of_mem _ hx)) hm1 hcap1 hw1
        hrc1 hlt1 (by omega) (fun x hx => hcalls x (List.mem_cons_of_mem _ hx)) (by omega)
    refine ⟨s2, m2, rs2, ?_, hm2, hcap2, hw2, hrc2, hlt2, ?_⟩
    · simp only [write_calls, hrun]
      exact hrun2
    · simp only [List.length_cons]
      omega

theorem walk_stuck (cap : Nat) (ring : Nat → Nat) (tail p : Nat) (hne : p ≠ tail)
    (hzero : RUNTIME_EVENTS_ITEM_LENGTH (ring (p % cap)) = 0) :
    ∀ steps, walk cap ring tail steps p = false := by
  intro steps
  induction steps with
  | zero => simpa [walk] using hne
  | succ n ih =>
    have h1 : (p == tail) = false := by simpa using hne
    simp only [walk, h1, hzero, Nat.add_zero, Bool.false_eq_true, if_false]
    split
    · rfl
    · exact ih

theorem chain_drop (cap : Nat) (ring : Nat → Nat) :
    ∀ (n : Nat) (ls : List Nat) (p : Nat), Chain cap ring p ls →
      Chain cap ring (p + (ls.take n).sum) (ls.drop n) := by
  intro n
  induction n with
  | zero => intro ls p h; simpa using h
  | succ n ih =>
    intro ls p h
    cases ls with
    | nil => trivial
    | cons l ls =>
      obtain ⟨-, -, hrest⟩ := h
      have := ih ls _ hrest
      simpa [List.sum_cons, Nat.add_assoc] using this

/-! ### The record chain and eviction -/

/-- C19 (counterexample): the ring of domain 0 has 4 words and head = tail = 0;
domain 0 writes two events of total length 2 and one of total length 5
(payloads 0, 0 and 3, all below `RUNTIME_EVENTS_MAX_MSG_LENGTH`). All three
calls return, with head 10 and tail 13. The word at the head, offset 2 of the
ring, is the payload word 9, not a header word; its length field is 0, so the
walk from the head never reaches the tail. -/
theorem record_chain_broken_on_small_ring :
    (example_started_by 1 2).ring_header 0 = some { ring_head := 0, ring_tail := 0 } ∧
    (region_or zero_region (example_started_by 1 2)).ring_size_elements = 2 ^ 2 ∧
    (∀ x ∈ [example_call 0, example_call 0, example_call 3],
      x.event_length < RUNTIME_EVENTS_MAX_MSG_LENGTH) ∧
    write_calls 16 0 [example_call 0, example_call 0] (example_started_by 1 2) =
      .ok example_before_overrun ∧
    (example_call 3).run 16 0 example_before_overrun = .ok example_overrun ∧
    example_overrun.ring_header 0 = some { ring_head := 10, ring_tail := 13 } ∧
    example_overrun.ring_word 0 (10 % 4) = 9 ∧
    RUNTIME_EVENTS_ITEM_LENGTH (example_overrun.ring_word 0 (10 % 4)) = 0 ∧
    ∀ steps, walk 4 (fun i => example_overrun.ring_word 0 i) 13 steps 10 = false := by
  refine ⟨by decide, by decide, by decide, state_or_eq _ _ (by decide),
    state_or_eq _ _ (by decide), by decide, by decide, by decide, ?_⟩
  exact walk_stuck 4 _ 13 10 (by decide) (by decide)

/-- C20 (amended): the head-advancing loop of `write_to_ring` runs while
`tail + total_len + padding_len ≥ head + capacity`. For every call in which
`tail + total_len + padding_len < head + capacity` holds on entry, the call
returns with the head unchanged, whatever the fuel. On a ring of `2 ^ k` words
that holds a chain of records from head to tail, a call of total length at most
half the capacity returns and skips a number `n` of whole records from the head
on: the new head is the boundary after the first `n` records, the remaining
records are intact, the span fits at the new head, and at every earlier record
boundary it did not fit. -/
theorem write_to_ring_eviction (k d : Nat) (hk : k < 64) (c : write_call) (s : State)
    (m : Region) (hm : s.current_metadata = some m) :
    (∀ fuel, (m.headers d).ring_head ≤ (m.headers d).ring_tail →
      s.ring_size_words < UINT64_MOD →
      (m.headers d).ring_tail + (write_plan m d c.event_length).length_with_header_ts +
        (write_plan m d c.event_length).padding_required < UINT64_MOD →
      (m.headers d).ring_tail + (write_plan m d c.event_length).length_with_header_ts +
        (write_plan m d c.event_length).padding_required <
          (m.headers d).ring_head + s.ring_size_words →
      ∃ s1 m1, c.run fuel d s = .ok s1 ∧ s1.current_metadata = some m1 ∧
        (m1.headers d).ring_head = (m.headers d).ring_head) ∧
    (∀ fuel ls, m.ring_size_elements = 2 ^ k → s.ring_size_words = 2 ^ k →
      Chain (2 ^ k) (fun i => m.data (ring_ptr m d i)) (m.headers d).ring_head ls →
      (m.headers d).ring_head + ls.sum = (m.headers d).ring_tail →
      c.event_length + 2 < 2 ^ 10 → 2 * (c.event_length + 2) ≤ 2 ^ k →
      (m.headers d).ring_tail + 2 * (c.event_length + 2) < UINT64_MOD →
      2 ^ k ≤ fuel → (m.headers d).ring_tail - (m.headers d).ring_head < 2 ^ k →
      ∃ s1 m1 n, c.run fuel d s = .ok s1 ∧ s1.current_metadata = some m1 ∧
        n ≤ ls.length ∧
        (m1.headers d).ring_head = (m.headers d).ring_head + (ls.take n).sum ∧
        Chain (2 ^ k) (fun i => m1.data (ring_ptr m1 d i)) (m1.headers d).ring_head
          (ls.drop n) ∧
        (m.headers d).ring_tail + (c.event_length + 2) +
          (write_plan m d c.event_length).padding_required - (m1.headers d).ring_head < 2 ^ k ∧
        (∀ j, j < n → 2 ^ k ≤ (m.headers d).ring_tail + (c.event_length + 2) +
          (write_plan m d c.event_length).padding_required -
            ((m.headers d).ring_head + (ls.take j).sum))) := by
  have hM : UINT64_MOD = 2 ^ 64 := rfl
  refine ⟨?_, ?_⟩
  · intro fuel hle hwlt hov hroom
    have hadv : advance_head (s.ring_size_words % UINT64_MOD)
        (write_plan m d c.event_length).ring_mask (fun i => m.data (ring_ptr m d i))
        (((write_plan m d c.event_length).ring_tail +
          (write_plan m d c.event_length).length_with_header_ts +
          (write_plan m d c.event_length).padding_required) % UINT64_MOD)
        fuel (write_plan m d c.event_length).ring_head = .ok (m.headers d).ring_head := by
      apply advance_head_no_room
      show (((m.headers d).ring_tail + (write_plan m d c.event_length).length_with_header_ts +
        (write_plan m d c.event_length).padding_required) % UINT64_MOD + UINT64_MOD -
          (m.headers d).ring_head) % UINT64_MOD < s.ring_size_words % UINT64_MOD
      rw [Nat.mod_eq_of_lt hov, Nat.mod_eq_of_lt hwlt]
      rw [hM] at hov hwlt ⊢
      omega
    have hrun := write_to_ring_ok fuel d c.timestamp c.category c.type c.event_id
      c.event_length c.content c.word_offset s m _ hm hadv
    refine ⟨_, _, hrun, rfl, ?_⟩
    rw [(write_item_fields _ _ _ _ _ _ _ _ _ _ _).2.2.2]
    simp [set_ring_buffer]
  · intro fuel ls hcap hw hch hsum hlen hfit hov hfuel hlt
    have hcaplt : 2 ^ k < 2 ^ 64 := Nat.pow_lt_pow_right (by omega) hk
    have hpos : 0 < 2 ^ k := Nat.pos_pow_of_pos _ (by omega)
    have hplan := write_plan_pow2 m d c.event_length k hk hcap (by rw [hM]; omega)
    obtain ⟨pad, hpad⟩ : ∃ pad, pad =
        if 2 ^ k - (m.headers d).ring_tail % 2 ^ k < c.event_length + 2 then
          2 ^ k - (m.headers d).ring_tail % 2 ^ k else 0 := ⟨_, rfl⟩
    rw [← hpad] at hplan
    have hpadlt : pad < c.event_length + 2 := by rw [hpad]; split <;> omega
    have htarget : ((m.headers d).ring_tail + (c.event_length + 2) + pad) % UINT64_MOD =
        (m.headers d).ring_tail + (c.event_length + 2) + pad := Nat.mod_eq_of_lt (by omega)
    have hlsfuel : ls.length ≤ fuel := by
      have := chain_length_le_sum _ _ ls _ hch
      omega
    obtain ⟨n, hn, hadv, hroom, hmin⟩ :=
      advance_head_take k hk (fun i => m.data (ring_ptr m d i))
        ((m.headers d).ring_tail + (c.event_length + 2) + pad) (m.headers d).ring_tail
        (by omega) (by omega) (by omega) ls fuel (m.headers d).ring_head hch hsum hlsfuel
    obtain ⟨H1, hH1⟩ : ∃ H1, H1 = (m.headers d).ring_head + (ls.take n).sum := ⟨_, rfl⟩
    rw [← hH1] at hadv hroom
    have hdrop := chain_drop (2 ^ k) (fun i => m.data (ring_ptr m d i)) n ls _ hch
    rw [← hH1] at hdrop
    have hsumdrop : H1 + (ls.drop n).sum = (m.headers d).ring_tail := by
      have := List.sum_take_add_sum_drop ls n
      omega
    have hrun := write_to_ring_ok fuel d c.timestamp c.category c.type c.event_id
      c.event_length c.content c.word_offset s m H1 hm (by
        rw [hplan, hw]
        simp only []
        rw [htarget, Nat.mod_eq_of_lt (by rw [hM]; exact hcaplt)]
        exact hadv)
    obtain ⟨p, hp⟩ : ∃ p, p = write_plan m d c.event_length := ⟨_, rfl⟩
    rw [← hp] at hrun
    rw [← hp] at hplan
    have hoff : p.ring_tail_offset = (m.headers d).ring_tail % 2 ^ k := by rw [hplan]
    have hpp : p.padding_required = pad := by rw [hplan]
    have hpw : (write_plan m d c.event_length).padding_required = pad := by
      rw [← hp]; exact hpp
    have hkeptw := write_item_kept_words (2 ^ k) d m p H1 (m.headers d).ring_tail
      c.event_length pad c.timestamp c.category c.type c.event_id c.content c.word_offset
      hpos hoff hpp hpad hfit hroom
    have hfields := write_item_fields m d p H1 c.timestamp c.category c.type c.event_id
      c.event_length c.content c.word_offset
    obtain ⟨m1, hm1⟩ : ∃ m1, m1 = write_item m d p H1 c.timestamp c.category c.type
        c.event_id c.event_length c.content c.word_offset := ⟨_, rfl⟩
    rw [← hm1] at hrun hkeptw hfields
    have hptr : (fun i => m1.data (ring_ptr m1 d i)) = (fun i => m1.data (ring_ptr m d i)) := by
      funext i
      simp [ring_ptr, hfields.2.1]
    have hhead1 : (m1.headers d).ring_head = H1 := by
      rw [hfields.2.2.2]
      simp [set_ring_buffer]
    refine ⟨{ s with current_metadata := some m1 }, m1, n, hrun, rfl, hn,
      by rw [hhead1]; exact hH1, ?_, by rw [hhead1, hpw]; exact hroom, ?_⟩
    · rw [hptr, hhead1]
      exact chain_congr (2 ^ k) (fun i => m.data (ring_ptr m d i)) _ _ _ hdrop
        (fun q hq1 hq2 => hkeptw q hq1 (by omega))
    · intro j hj
      rw [hpw]
      exact hmin j hj

/-- An instance of `write_to_ring_eviction`: the ring of domain 1 holds one
record of 8 words, head 0 and tail 8, and an event of total length 8 is
written; the call skips that record, one whole record, and the head becomes 8. -/
theorem write_to_ring_eviction_witness :
    example_half_full.current_metadata = some (region_or zero_region example_half_full) ∧
    ∃ s1 m1 n, (example_call 6).run 16 1 example_half_full = .ok s1 ∧
      s1.current_metadata = some m1 ∧ n ≤ [8].length ∧
      (m1.headers 1).ring_head =
        ((region_or zero_region example_half_full).headers 1).ring_head + ([8].take n).sum ∧
      Chain (2 ^ 4) (fun i => m1.data (ring_ptr m1 1 i)) (m1.headers 1).ring_head
        ([8].drop n) ∧
      ((region_or zero_region example_half_full).headers 1).ring_tail +
          ((example_call 6).event_length + 2) +
          (write_plan (region_or zero_region example_half_full) 1
            (example_call 6).event_length).padding_required - (m1.headers 1).ring_head <
        2 ^ 4 ∧
      (∀ j, j < n → 2 ^ 4 ≤ ((region_or zero_region example_half_full).headers 1).ring_tail +
          ((example_call 6).event_length + 2) +
          (write_plan (region_or zero_region example_half_full) 1
            (example_call 6).event_length).padding_required -
            (((region_or zero_region example_half_full).headers 1).ring_head +
              ([8].take j).sum)) :=
  ⟨region_or_eq _ _ (by decide),
    (write_to_ring_eviction 4 1 (by decide) (example_call 6) example_half_full
      (region_or zero_region example_half_full) (region_or_eq _ _ (by decide))).2 16 [8]
      (by decide) (by decide) ⟨by decide, by decide, trivial⟩ (by decide) (by decide)
      (by decide) (by decide) (by decide) (by decide)⟩

/-- C20 (counterexample): the ring of domain 1 has 16 words, head 0 and tail
8, and an event of total length 8 is written, without padding. On entry
`tail + total_len + padding_len = 16 = head + capacity`, so the span does not
pass `head + capacity`; the call nevertheless advances the head to 8 and
discards the stored event. -/
theorem write_to_ring_evicts_at_equality :
    example_half_full.ring_size_words = 16 ∧
    example_half_full.ring_header 1 = some { ring_head := 0, ring_tail := 8 } ∧
    (write_plan (region_or zero_region example_half_full) 1
      (example_call 6).event_length).length_with_header_ts = 8 ∧
    (write_plan (region_or zero_region example_half_full) 1
      (example_call 6).event_length).padding_required = 0 ∧
    8 + 8 + 0 ≤ 0 + 16 ∧
    (example_call 6).run 16 1 example_half_full = .ok example_evicted ∧
    example_evicted.ring_header 1 = some { ring_head := 8, ring_tail := 16 } := by
  refine ⟨by decide, by decide, by decide, by decide, by decide, state_or_eq _ _ (by decide),
    by decide⟩

/-! ### The buckets of the allocation histogram -/

theorem bucket_of_size_lt (S D N sz : Nat) (hN : N = 10 * S + D + 1) :
    bucket_of_size S D N sz < N := by
  unfold bucket_of_size
  split
  · omega
  · split <;> omega

theorem bucket_of_size_mono (S D N : Nat) (hN : N = 10 * S + D + 1) (sz1 sz2 : Nat)
    (h : sz1 ≤ sz2) : bucket_of_size S D N sz1 ≤ bucket_of_size S D N sz2 := by
  unfold bucket_of_size
  split <;> split <;> (try split) <;> (try split) <;> omega

/-- C22: when tracing is active, `caml_ev_alloc sz` changes nothing but the
bucket array, in which it adds one (in 64-bit arithmetic) to exactly one
bucket, the bucket `bucket_of_size S D N sz` of the classification: `sz` below
`10 * S`, `sz / 10 + 9 * S` below `10 * S + 10 * D`, else `N - 1`. With
`N = 10 * S + D + 1` that index is below `N` for every size, and it is
non-decreasing in the size. -/
theorem caml_ev_alloc_bucket (sz : Nat) (s : State) (hact : ring_is_active s = true)
    (hsz : sz < UINT64_MOD)
    (hN : s.build.RUNTIME_EVENTS_NUM_ALLOC_BUCKETS =
      10 * s.build.RUNTIME_EVENTS_NUM_ALLOC_BUCKETS_SINGLE +
        s.build.RUNTIME_EVENTS_NUM_ALLOC_BUCKETS_DECADE + 1) :
    caml_ev_alloc sz s =
      { s with alloc_buckets := (caml_ev_alloc sz s).alloc_buckets } ∧
    (∀ i, (caml_ev_alloc sz s).alloc_buckets i =
      if i = bucket_of_size s.build.RUNTIME_EVENTS_NUM_ALLOC_BUCKETS_SINGLE
          s.build.RUNTIME_EVENTS_NUM_ALLOC_BUCKETS_DECADE
          s.build.RUNTIME_EVENTS_NUM_ALLOC_BUCKETS sz
      then (s.alloc_buckets i + 1) % UINT64_MOD else s.alloc_buckets i) ∧
    (s.alloc_buckets (bucket_of_size s.build.RUNTIME_EVENTS_NUM_ALLOC_BUCKETS_SINGLE
        s.build.RUNTIME_EVENTS_NUM_ALLOC_BUCKETS_DECADE
        s.build.RUNTIME_EVENTS_NUM_ALLOC_BUCKETS sz) + 1 < UINT64_MOD →
      (caml_ev_alloc sz s).alloc_buckets
        (bucket_of_size s.build.RUNTIME_EVENTS_NUM_ALLOC_BUCKETS_SINGLE
          s.build.RUNTIME_EVENTS_NUM_ALLOC_BUCKETS_DECADE
          s.build.RUNTIME_EVENTS_NUM_ALLOC_BUCKETS sz) =
        s.alloc_buckets (bucket_of_size s.build.RUNTIME_EVENTS_NUM_ALLOC_BUCKETS_SINGLE
          s.build.RUNTIME_EVENTS_NUM_ALLOC_BUCKETS_DECADE
          s.build.RUNTIME_EVENTS_NUM_ALLOC_BUCKETS sz) + 1) ∧
    bucket_of_size s.build.RUNTIME_EVENTS_NUM_ALLOC_BUCKETS_SINGLE
      s.build.RUNTIME_EVENTS_NUM_ALLOC_BUCKETS_DECADE
      s.build.RUNTIME_EVENTS_NUM_ALLOC_BUCKETS sz < s.build.RUNTIME_EVENTS_NUM_ALLOC_BUCKETS ∧
    (∀ sz1 sz2, sz1 ≤ sz2 →
      bucket_of_size s.build.RUNTIME_EVENTS_NUM_ALLOC_BUCKETS_SINGLE
        s.build.RUNTIME_EVENTS_NUM_ALLOC_BUCKETS_DECADE
        s.build.RUNTIME_EVENTS_NUM_ALLOC_BUCKETS sz1 ≤
      bucket_of_size s.build.RUNTIME_EVENTS_NUM_ALLOC_BUCKETS_SINGLE
        s.build.RUNTIME_EVENTS_NUM_ALLOC_BUCKETS_DECADE
        s.build.RUNTIME_EVENTS_NUM_ALLOC_BUCKETS sz2) := by
  have hidx : (if sz < 10 * s.build.RUNTIME_EVENTS_NUM_ALLOC_BUCKETS_SINGLE then sz
      else if (sz + UINT64_MOD - 10 * s.build.RUNTIME_EVENTS_NUM_ALLOC_BUCKETS_SINGLE)
          % UINT64_MOD < 10 * s.build.RUNTIME_EVENTS_NUM_ALLOC_BUCKETS_DECADE then
        sz / 10 + 9 * s.build.RUNTIME_EVENTS_NUM_ALLOC_BUCKETS_SINGLE
      else s.build.RUNTIME_EVENTS_NUM_ALLOC_BUCKETS - 1) =
      bucket_of_size s.build.RUNTIME_EVENTS_NUM_ALLOC_BUCKETS_SINGLE
        s.build.RUNTIME_EVENTS_NUM_ALLOC_BUCKETS_DECADE
        s.build.RUNTIME_EVENTS_NUM_ALLOC_BUCKETS sz := by
    unfold bucket_of_size
    by_cases h1 : sz < 10 * s.build.RUNTIME_EVENTS_NUM_ALLOC_BUCKETS_SINGLE
    · simp only [h1, if_true]
    · have h2 : (sz + UINT64_MOD - 10 * s.build.RUNTIME_EVENTS_NUM_ALLOC_BUCKETS_SINGLE)
          % UINT64_MOD = sz - 10 * s.build.RUNTIME_EVENTS_NUM_ALLOC_BUCKETS_SINGLE := by
        simp only [UINT64_MOD] at hsz ⊢
        omega
      simp only [h1, if_false, h2]
      by_cases h3 : sz < 10 * s.build.RUNTIME_EVENTS_NUM_ALLOC_BUCKETS_SINGLE +
          10 * s.build.RUNTIME_EVENTS_NUM_ALLOC_BUCKETS_DECADE
      · rw [if_pos (by omega), if_pos h3]
      · rw [if_neg (by omega), if_neg h3]
  have hb : (caml_ev_alloc sz s).alloc_buckets =
      store s.alloc_buckets
        (bucket_of_size s.build.RUNTIME_EVENTS_NUM_ALLOC_BUCKETS_SINGLE
          s.build.RUNTIME_EVENTS_NUM_ALLOC_BUCKETS_DECADE
          s.build.RUNTIME_EVENTS_NUM_ALLOC_BUCKETS sz)
        ((s.alloc_buckets (bucket_of_size s.build.RUNTIME_EVENTS_NUM_ALLOC_BUCKETS_SINGLE
          s.build.RUNTIME_EVENTS_NUM_ALLOC_BUCKETS_DECADE
          s.build.RUNTIME_EVENTS_NUM_ALLOC_BUCKETS sz) + 1) % UINT64_MOD) := by
    simp only [caml_ev_alloc, hact, Bool.not_true, Bool.false_eq_true, if_false, hidx]
  refine ⟨?_, ?_, ?_, bucket_of_size_lt _ _ _ _ hN, bucket_of_size_mono _ _ _ hN⟩
  · simp only [caml_ev_alloc, hact, Bool.not_true, Bool.false_eq_true, if_false]
  · intro i
    rw [hb]
    simp only [store]
    split
    · rename_i h
      rw [h]
    · rfl
  · intro h
    rw [hb]
    simp only [store, if_true]
    exact Nat.mod_eq_of_lt h

/-- An instance of `caml_ev_alloc_bucket`: on the example state after a start,
with 20 buckets, an allocation of 12 words is counted in bucket 10. -/
theorem caml_ev_alloc_bucket_witness :
    ring_is_active (example_started 4) = true ∧
    bucket_of_size 1 9 20 12 = 10 ∧
    (caml_ev_alloc 12 (example_started 4)).alloc_buckets 10 =
      (example_started 4).alloc_buckets 10 + 1 :=
  ⟨by decide, by decide,
    (caml_ev_alloc_bucket 12 (example_started 4) (by decide) (by decide) (by decide)).2.2.1
      (by decide)⟩

/-! ### The write of a custom event -/

theorem user_write_custom_call (callback : Callback) (fuel caml_state_id timestamp : Nat)
    (write_buffer : List Nat) (event : user_event) (event_content : Int) (s : State)
    (serializer : Nat) (res : Int) (hact : ring_is_active s = true)
    (hty : event.typ = .Custom serializer)
    (hres : (callback serializer write_buffer event_content s).result = .ok res)
    (hact1 : ring_is_active (callback serializer write_buffer event_content s).state = true) :
    (∀ f, write_to_ring fuel caml_state_id timestamp .EV_USER
        ev_user_message_type.EV_USER_MSG_TYPE_CUSTOM.code event.id
        (to_int (custom_len_64bit_word res)).toNat
        (some ((List.range (to_int (custom_len_64bit_word res)).toNat).map
          (word_of_bytes
            (custom_buffer (callback serializer write_buffer event_content s).buffer res))))
        0 (callback serializer write_buffer event_content s).state = .error f →
      caml_runtime_events_user_write callback fuel caml_state_id timestamp write_buffer event
        event_content s = .fault f) ∧
    (∀ s1, write_to_ring fuel caml_state_id timestamp .EV_USER
        ev_user_message_type.EV_USER_MSG_TYPE_CUSTOM.code event.id
        (to_int (custom_len_64bit_word res)).toNat
        (some ((List.range (to_int (custom_len_64bit_word res)).toNat).map
          (word_of_bytes
            (custom_buffer (callback serializer write_buffer event_content s).buffer res))))
        0 (callback serializer write_buffer event_content s).state = .ok s1 →
      caml_runtime_events_user_write callback fuel caml_state_id timestamp write_buffer event
        event_content s =
          .ret (custom_buffer (callback serializer write_buffer event_content s).buffer res)
            s1) := by
  refine ⟨?_, ?_⟩
  · intro f h
    simp only [custom_buffer, custom_offset_index, custom_len_64bit_word] at h
    simp only [caml_runtime_events_user_write, hact, hty, hres, hact1, Bool.not_true,
      Bool.false_eq_true, if_false, h]
  · intro s1 h
    simp only [custom_buffer, custom_offset_index, custom_len_64bit_word] at h
    simp only [caml_runtime_events_user_write, hact, hty, hres, hact1, Bool.not_true,
      Bool.false_eq_true, if_false, h, custom_buffer, custom_offset_index,
      custom_len_64bit_word]

theorem custom_framing (res : Int) (h0 : 0 ≤ res) (hmax : res < 2 ^ 62) :
    to_uint64 res = res.toNat ∧
    custom_len_64bit_word res = (res.toNat + 8) / 8 ∧
    custom_offset_index res = 8 * custom_len_64bit_word res - 1 ∧
    (custom_offset_index res + UINT64_MOD - to_uint64 res) % UINT64_MOD % 256 =
      8 * custom_len_64bit_word res - 1 - res.toNat := by
  have h1 : to_uint64 res = res.toNat := by
    simp only [to_uint64, UINT64_MOD]
    omega
  have h2 : custom_len_64bit_word res = (res.toNat + 8) / 8 := by
    simp only [custom_len_64bit_word, h1, UINT64_MOD]
    omega
  have h3 : custom_offset_index res = 8 * custom_len_64bit_word res - 1 := by
    simp only [custom_offset_index, h2, UINT64_MOD]
    omega
  refine ⟨h1, h2, h3, ?_⟩
  rw [h3, h1, h2]
  simp only [UINT64_MOD]
  omega

theorem word_of_bytes_top (buffer : List Nat) (i : Nat) :
    word_of_bytes buffer i / 2 ^ 56 = buffer.getD (8 * i + 7) 0 % 256 := by
  simp only [word_of_bytes, List.range, List.range.loop, List.foldr_cons, List.foldr_nil]
  omega

/-- C24: for every serializer result `res` with `0 ≤ res` (an OCaml integer,
below `2 ^ 62`), `caml_runtime_events_user_write` computes the payload length
`w = (res + 8) / 8` words and stores the trailer byte at the byte index
`8 * w - 1` of the write buffer before it passes the buffer to the ring writer.
That index is at least `res`, so the bytes below `res` are unchanged; the value
stored, `p = 8 * w - 1 - res`, is at most 7, and `res = 8 * w - 1 - p`. In a
buffer that reaches to that index the trailer is the topmost byte of the last
of the `w` payload words. -/
theorem user_write_custom_framing (callback : Callback) (fuel caml_state_id timestamp : Nat)
    (write_buffer : List Nat) (event : user_event) (event_content : Int) (s : State)
    (serializer : Nat) (res : Int) (hact : ring_is_active s = true)
    (hty : event.typ = .Custom serializer)
    (hres : (callback serializer write_buffer event_content s).result = .ok res)
    (hact1 : ring_is_active (callback serializer write_buffer event_content s).state = true)
    (h0 : 0 ≤ res) (hmax : res < 2 ^ 62) :
    (∀ s1, write_to_ring fuel caml_state_id timestamp .EV_USER
        ev_user_message_type.EV_USER_MSG_TYPE_CUSTOM.code event.id
        (to_int (custom_len_64bit_word res)).toNat
        (some ((List.range (to_int (custom_len_64bit_word res)).toNat).map
          (word_of_bytes
            (custom_buffer (callback serializer write_buffer event_content s).buffer res))))
        0 (callback serializer write_buffer event_content s).state = .ok s1 →
      caml_runtime_events_user_write callback fuel caml_state_id timestamp write_buffer event
        event_content s =
          .ret (custom_buffer (callback serializer write_buffer event_content s).buffer res)
            s1) ∧
    custom_len_64bit_word res = (res.toNat + 8) / 8 ∧
    (custom_len_64bit_word res < 2 ^ 31 →
      (to_int (custom_len_64bit_word res)).toNat = custom_len_64bit_word res) ∧
    custom_offset_index res = 8 * custom_len_64bit_word res - 1 ∧
    (∀ buffer, custom_buffer buffer res =
      buffer.set (8 * custom_len_64bit_word res - 1)
        (8 * custom_len_64bit_word res - 1 - res.toNat)) ∧
    res.toNat ≤ 8 * custom_len_64bit_word res - 1 ∧
    8 * custom_len_64bit_word res - 1 - res.toNat ≤ 7 ∧
    8 * custom_len_64bit_word res - 1 - (8 * custom_len_64bit_word res - 1 - res.toNat) =
      res.toNat ∧
    (∀ buffer i, i < res.toNat → (custom_buffer buffer res).getD i 0 = buffer.getD i 0) ∧
    (∀ buffer, 8 * custom_len_64bit_word res - 1 < buffer.length →
      (custom_buffer buffer res).getD (8 * custom_len_64bit_word res - 1) 0 =
        8 * custom_len_64bit_word res - 1 - res.toNat ∧
      word_of_bytes (custom_buffer buffer res) (custom_len_64bit_word res - 1) / 2 ^ 56 =
        8 * custom_len_64bit_word res - 1 - res.toNat) := by
  obtain ⟨h1, h2, h3, h4⟩ := custom_framing res h0 hmax
  have hbuf : ∀ buffer, custom_buffer buffer res =
      buffer.set (8 * custom_len_64bit_word res - 1)
        (8 * custom_len_64bit_word res - 1 - res.toNat) := by
    intro buffer
    rw [custom_buffer, h4, h3]
  have hle : res.toNat ≤ 8 * custom_len_64bit_word res - 1 := by
    rw [h2]
    omega
  have hp : 8 * custom_len_64bit_word res - 1 - res.toNat ≤ 7 := by
    rw [h2]
    omega
  refine ⟨(user_write_custom_call callback fuel caml_state_id timestamp write_buffer event
    event_content s serializer res hact hty hres hact1).2, h2, ?_, h3, hbuf, hle, hp,
    by omega, ?_, ?_⟩
  · intro hw
    rw [to_int_of_lt _ hw]
    rfl
  · intro buffer i hi
    rw [hbuf, List.getD_eq_getElem?_getD, List.getD_eq_getElem?_getD,
      List.getElem?_set_ne (by omega)]
  · intro buffer hlen
    have hget : (custom_buffer buffer res).getD (8 * custom_len_64bit_word res - 1) 0 =
        8 * custom_len_64bit_word res - 1 - res.toNat := by
      rw [hbuf, List.getD_eq_getElem?_getD, List.getElem?_set_self hlen]
      rfl
    refine ⟨hget, ?_⟩
    have hw : 8 * (custom_len_64bit_word res - 1) + 7 = 8 * custom_len_64bit_word res - 1 := by
      rw [h2]
      omega
    rw [word_of_bytes_top, hw, hget]
    omega

/-- An instance of `user_write_custom_framing`: the serializer returns 13, so
the payload has 2 words and the trailer byte 2 is stored at byte 15. -/
theorem user_write_custom_framing_witness :
    ring_is_active (example_started 4) = true ∧
    custom_len_64bit_word 13 = 2 ∧ custom_offset_index 13 = 15 ∧
    (custom_buffer (List.replicate 16 65) 13).getD 15 0 = 2 ∧
    8 * custom_len_64bit_word 13 - 1 - (13 : Int).toNat ≤ 7 :=
  ⟨by decide, by decide, by decide, by decide,
    (user_write_custom_framing example_serializer 16 0 100 (List.replicate 16 65)
      example_custom_event 5 (example_started 4) 0 13 (by decide) rfl rfl (by decide)
      (by decide) (by decide)).2.2.2.2.2.2.1⟩

theorem encoder_calls_assert (fuel caml_state_id timestamp : Nat) (s : State) :
    (∀ phase, caml_ev_begin fuel caml_state_id timestamp phase s =
        (if ring_is_active s then
          write_to_ring fuel caml_state_id timestamp .EV_RUNTIME
            ev_runtime_message_type.EV_BEGIN.code phase 0 none 0 s
        else .ok s) ∧
      write_to_ring_asserts .EV_RUNTIME ev_runtime_message_type.EV_BEGIN.code phase 0 = true) ∧
    (∀ phase, caml_ev_end fuel caml_state_id timestamp phase s =
        (if ring_is_active s then
          write_to_ring fuel caml_state_id timestamp .EV_RUNTIME
            ev_runtime_message_type.EV_EXIT.code phase 0 none 0 s
        else .ok s) ∧
      write_to_ring_asserts .EV_RUNTIME ev_runtime_message_type.EV_EXIT.code phase 0 = true) ∧
    (∀ counter val, caml_ev_counter fuel caml_state_id timestamp counter val s =
        (if ring_is_active s then
          write_to_ring fuel caml_state_id timestamp .EV_RUNTIME
            ev_runtime_message_type.EV_COUNTER.code counter 1 (some [val]) 0 s
        else .ok s) ∧
      write_to_ring_asserts .EV_RUNTIME ev_runtime_message_type.EV_COUNTER.code counter 1 =
        true) ∧
    (∀ lifecycle data, caml_ev_lifecycle fuel caml_state_id timestamp lifecycle data s =
        (if ring_is_active s then
          write_to_ring fuel caml_state_id timestamp .EV_RUNTIME
            ev_runtime_message_type.EV_LIFECYCLE.code lifecycle.code 1
            (some [to_uint64 data]) 0 s
        else .ok s) ∧
      write_to_ring_asserts .EV_RUNTIME ev_runtime_message_type.EV_LIFECYCLE.code
        lifecycle.code 1 = true) ∧
    (∀ id, write_to_ring_asserts .EV_RUNTIME ev_runtime_message_type.EV_LIFECYCLE.code
        id 0 = true) ∧
    (s.build.RUNTIME_EVENTS_NUM_ALLOC_BUCKETS < RUNTIME_EVENTS_MAX_MSG_LENGTH →
      write_to_ring_asserts .EV_RUNTIME ev_runtime_message_type.EV_ALLOC.code 0
        s.build.RUNTIME_EVENTS_NUM_ALLOC_BUCKETS = true) ∧
    (∀ type id event_length, event_length < RUNTIME_EVENTS_MAX_MSG_LENGTH →
      write_to_ring_asserts .EV_USER type id event_length = true) := by
  refine ⟨fun _ => ⟨rfl, rfl⟩, fun _ => ⟨rfl, rfl⟩, fun _ _ => ⟨rfl, rfl⟩,
    fun _ _ => ⟨rfl, rfl⟩, fun _ => rfl, ?_, ?_⟩
  · intro h
    simp [write_to_ring_asserts, h, ev_runtime_message_type.code]
  · intro type id n h
    simp [write_to_ring_asserts, h]

/-- C21 (failing input): tracing is active on rings of 4096 words and
`caml_runtime_events_user_write` is called for a descriptor of custom type
whose serializer returns 8184. The payload length it computes is
`(8184 + 8) / 8 = 1024` words, and it calls the ring writer with that length,
which is not below `RUNTIME_EVENTS_MAX_MSG_LENGTH`: the first assertion of
`write_to_ring` fails. The writer (its assertions compiled out) returns, and
the header word it stored at offset 3 carries the length 2, not 1026. -/
theorem user_write_custom_breaks_assert :
    ring_is_active (example_started 12) = true ∧
    example_custom_event.typ = .Custom 0 ∧
    custom_len_64bit_word 8184 = 1024 ∧
    (to_int (custom_len_64bit_word 8184)).toNat = 1024 ∧
    write_to_ring 16 0 100 .EV_USER ev_user_message_type.EV_USER_MSG_TYPE_CUSTOM.code
      example_custom_event.id 1024
      (some ((List.range 1024).map (word_of_bytes (custom_buffer [] 8184)))) 0
      (example_started 12) = .ok example_oversize ∧
    caml_runtime_events_user_write oversize_serializer 16 0 100 [] example_custom_event 5
      (example_started 12) = .ret (custom_buffer [] 8184) example_oversize ∧
    write_to_ring_asserts .EV_USER ev_user_message_type.EV_USER_MSG_TYPE_CUSTOM.code
      example_custom_event.id 1024 = false ∧
    ¬ (1024 < RUNTIME_EVENTS_MAX_MSG_LENGTH) ∧
    example_oversize.ring_header 0 = some { ring_head := 0, ring_tail := 1029 } ∧
    RUNTIME_EVENTS_ITEM_LENGTH (example_oversize.ring_word 0 3) = 2 := by
  have hw : write_to_ring 16 0 100 .EV_USER ev_user_message_type.EV_USER_MSG_TYPE_CUSTOM.code
      example_custom_event.id 1024
      (some ((List.range 1024).map (word_of_bytes (custom_buffer [] 8184)))) 0
      (example_started 12) = .ok example_oversize := state_or_eq _ _ (by decide)
  have hlen : (to_int (custom_len_64bit_word 8184)).toNat = 1024 := by decide
  have hcall := (user_write_custom_call oversize_serializer 16 0 100 [] example_custom_event 5
    (example_started 12) 0 8184 (by decide) rfl rfl (by decide)).2 example_oversize
  rw [hlen] at hcall
  exact ⟨by decide, rfl, by decide, hlen, hw, hcall hw, by decide, by decide, by decide,
    by decide⟩

/-! ### The bounds of the custom event table -/

theorem user_register_index (event_name : List Nat) (event_tag : Option Nat)
    (typ : event_type) (s s1 : State) (ev : user_event)
    (h : caml_runtime_events_user_register event_name event_tag typ s = .ret ev s1) :
    ev.id = to_int s.runtime_custom_event_index ∧
    to_int s.runtime_custom_event_index ≤ (RUNTIME_EVENTS_MAX_CUSTOM_EVENTS : Int) ∧
    (s.runtime_events_enabled ≠ 0 →
      s1.current_metadata = s.current_metadata.map
        (events_register_write_buffer (to_int s.runtime_custom_event_index) event_name)) ∧
    (s.runtime_events_enabled = 0 → s1.current_metadata = s.current_metadata) := by
  obtain ⟨h1, -, h3, h4⟩ := user_register_ret_inv _ _ _ _ _ _ h
  subst h3
  subst h4
  refine ⟨rfl, h1, ?_, ?_⟩
  · intro he
    simp [registered, he]
  · intro he
    simp [registered, he]

theorem created_index (d timestamp : Nat) (pid : Int) (f : Mapping) (s : State) :
    (created d timestamp pid f s).runtime_custom_event_index = s.runtime_custom_event_index :=
  rfl

/-- C25 (failing input): `RUNTIME_EVENTS_MAX_CUSTOM_EVENTS` names are
registered, tracing is started, and one more name is registered. The start
returns with the counter at `RUNTIME_EVENTS_MAX_CUSTOM_EVENTS`; the last
registration passes the test `index > RUNTIME_EVENTS_MAX_CUSTOM_EVENTS` and
calls `events_register_write_buffer` with the index
`RUNTIME_EVENTS_MAX_CUSTOM_EVENTS`, which is not below the capacity of the
table: the slot written begins where the region ends. -/
theorem user_register_writes_outside_table :
    ∃ s2 s3 m2 m3 ev,
      caml_runtime_events_start 0 77 1234 (some zero_file) 1
        (register_sequence .Unit (example_names RUNTIME_EVENTS_MAX_CUSTOM_EVENTS)
          (example_init 4)).2 = .ok s2 ∧
      s2.runtime_events_enabled = 1 ∧
      s2.runtime_custom_event_index = RUNTIME_EVENTS_MAX_CUSTOM_EVENTS ∧
      s2.current_metadata = some m2 ∧
      caml_runtime_events_user_register [97] none .Unit s2 = .ret ev s3 ∧
      ev.id = (RUNTIME_EVENTS_MAX_CUSTOM_EVENTS : Int) ∧
      s3.current_metadata = some m3 ∧
      m3 = events_register_write_buffer (RUNTIME_EVENTS_MAX_CUSTOM_EVENTS : Int) [97] m2 ∧
      m3.custom_events (RUNTIME_EVENTS_MAX_CUSTOM_EVENTS : Int) 0 = 97 ∧
      ¬ (((RUNTIME_EVENTS_MAX_CUSTOM_EVENTS : Nat) : Int) <
        (RUNTIME_EVENTS_MAX_CUSTOM_EVENTS : Int)) ∧
      ((m3.custom_events_offset +
          RUNTIME_EVENTS_MAX_CUSTOM_EVENTS * s3.build.sizeof_custom_event : Nat) : Int) =
        s3.current_ring_total_size ∧
      ¬ (((m3.custom_events_offset +
          (RUNTIME_EVENTS_MAX_CUSTOM_EVENTS + 1) * s3.build.sizeof_custom_event : Nat) : Int) ≤
        s3.current_ring_total_size) := by
  have hlen : (example_names RUNTIME_EVENTS_MAX_CUSTOM_EVENTS).length =
      RUNTIME_EVENTS_MAX_CUSTOM_EVENTS := by
    simp [example_names]
  have e0 : (example_init 4).runtime_custom_event_index = 0 := rfl
  obtain ⟨-, h2, ⟨h3a, h3b, h3c, h3d⟩, -⟩ := register_sequence_all_ret .Unit
    (example_names RUNTIME_EVENTS_MAX_CUSTOM_EVENTS) (example_init 4)
    (example_names_valid _) (by
      rw [hlen, e0, Nat.zero_add]
      exact Nat.le_succ _)
  rw [hlen, e0, Nat.zero_add] at h2
  obtain ⟨s1, hs1⟩ : ∃ s1, s1 = (register_sequence .Unit
      (example_names RUNTIME_EVENTS_MAX_CUSTOM_EVENTS) (example_init 4)).2 := ⟨_, rfl⟩
  rw [← hs1] at h2 h3a h3b h3c h3d ⊢
  have hstart := start_ok 0 77 1234 zero_file 0 s1
    (by rw [h3a]; rfl) (by rw [h3b]; decide) (by rw [h3b]; decide) (by rw [h3c]; decide)
  obtain ⟨m, hm, hoff, htot, -, hb, hen⟩ := created_layout 0 77 1234 zero_file s1
    (by rw [ring_total_size, h3b, h3c, h3d]; decide)
  obtain ⟨s2, hs2⟩ : ∃ s2, s2 = created 0 77 1234 zero_file s1 := ⟨_, rfl⟩
  rw [← hs2] at hstart hm htot hb hen
  have hidx2 : s2.runtime_custom_event_index = RUNTIME_EVENTS_MAX_CUSTOM_EVENTS := by
    rw [hs2, created_index]
    exact h2
  have hreg := user_register_ret [97] none .Unit s2 (by rw [hidx2]) (by decide) (by decide)
  have hmeta : (registered [97] none .Unit s2).current_metadata =
      some (events_register_write_buffer (RUNTIME_EVENTS_MAX_CUSTOM_EVENTS : Int) [97] m) := by
    have hto : to_int s2.runtime_custom_event_index = (RUNTIME_EVENTS_MAX_CUSTOM_EVENTS : Int) := by
      rw [hidx2]
      decide
    simp only [registered, hen, hm, hto]
    rfl
  have hbuild : (registered [97] none .Unit s2).build = example_build := by
    show s2.build = example_build
    rw [hb, h3d]
    rfl
  have htot3 : (registered [97] none .Unit s2).current_ring_total_size =
      (ring_total_size s1 : Int) := htot
  have hoff3 : (events_register_write_buffer (RUNTIME_EVENTS_MAX_CUSTOM_EVENTS : Int) [97]
      m).custom_events_offset = 64 + 2 * 80 + 2 * 16 * 8 := by
    show m.custom_events_offset = _
    rw [hoff, h3b, h3c, h3d]
    rfl
  have htotv : ring_total_size s1 = 64 + 2 * 80 + 2 * 16 * 8 + 8192 * 128 := by
    rw [ring_total_size, h3b, h3c, h3d]
    decide
  refine ⟨s2, registered [97] none .Unit s2, m, _, _, hstart, hen, hidx2, hm, hreg, ?_, hmeta,
    rfl, ?_, by decide, ?_, ?_⟩
  · show ((s2.runtime_custom_event_index : Nat) : Int) = _
    rw [hidx2]
  · rw [write_buffer_slot _ _ _ (by decide) 0 (by decide)]
    rfl
  · rw [hoff3, hbuild, htot3, htotv]
    decide
  · rw [hoff3, hbuild, htot3, htotv]
    decide

/-! ### Termination of the head-advancing loop -/

theorem advance_head_bounded (k : Nat) (hk : k < 64) (ring : Nat → Nat) (target tail : Nat)
    (htt : tail ≤ target) (htail : tail < UINT64_MOD) (hfit : target - tail < 2 ^ k) :
    ∀ (ls : List Nat) (head : Nat),
      Chain (2 ^ k) ring head ls → head + ls.sum = tail → target - head < UINT64_MOD →
      ∃ n, n ≤ ls.length ∧
        (∀ fuel, n ≤ fuel →
          advance_head (2 ^ k) ((2 ^ k + UINT64_MOD - 1) % UINT64_MOD) ring
            (target % UINT64_MOD) fuel head = .ok (head + (ls.take n).sum)) ∧
        (∀ fuel, fuel < n →
          advance_head (2 ^ k) ((2 ^ k + UINT64_MOD - 1) % UINT64_MOD) ring
            (target % UINT64_MOD) fuel head = .error .out_of_fuel) ∧
        (∀ j, j ≤ n →
          head_after ((2 ^ k + UINT64_MOD - 1) % UINT64_MOD) ring j head =
            head + (ls.take j).sum) := by
  intro ls
  induction ls with
  | nil =>
    intro head _ hsum hd
    simp only [List.sum_nil, Nat.add_zero] at hsum
    subst hsum
    have hcond : (target % UINT64_MOD + UINT64_MOD - head) % UINT64_MOD = target - head := by
      simp only [UINT64_MOD] at *
      omega
    refine ⟨0, Nat.le_refl _, ?_, fun fuel hf => absurd hf (Nat.not_lt_zero _), ?_⟩
    · intro fuel _
      simp only [List.take_nil, List.sum_nil, Nat.add_zero]
      exact advance_head_no_room _ _ _ _ _ _ (by rw [hcond]; exact hfit)
    · intro j hj
      have : j = 0 := by omega
      subst this
      simp [head_after]
  | cons l ls ih =>
    intro head hch hsum hd
    simp only [List.sum_cons] at hsum
    have hcond : (target % UINT64_MOD + UINT64_MOD - head) % UINT64_MOD = target - head := by
      simp only [UINT64_MOD] at *
      omega
    by_cases hroom : target - head < 2 ^ k
    · refine ⟨0, Nat.zero_le _, ?_, fun fuel hf => absurd hf (Nat.not_lt_zero _), ?_⟩
      · intro fuel _
        simp only [List.take_zero, List.sum_nil, Nat.add_zero]
        exact advance_head_no_room _ _ _ _ _ _ (by rw [hcond]; exact hroom)
      · intro j hj
        have : j = 0 := by omega
        subst this
        simp [head_after]
    · obtain ⟨hl, hlen, hrest⟩ := hch
      have hstep : (head + l) % UINT64_MOD = head + l := by
        simp only [UINT64_MOD] at *
        omega
      obtain ⟨n, hn, hok, herr, hheads⟩ := ih (head + l) hrest (by omega) (by omega)
      have hsumeq : ∀ j, head + ((l :: ls).take (j + 1)).sum = head + l + (ls.take j).sum := by
        intro j
        simp only [List.take_succ_cons, List.sum_cons]
        omega
      refine ⟨n + 1, by simpa using hn, ?_, ?_, ?_⟩
      · intro fuel hf
        cases fuel with
        | zero => omega
        | succ fuel =>
          simp only [advance_head, hcond]
          rw [if_pos (by omega), and_mask_eq_mod _ _ hk, hlen, hstep, hsumeq]
          exact hok fuel (by omega)
      · intro fuel hf
        cases fuel with
        | zero =>
          simp only [advance_head, hcond]
          rw [if_pos (by omega)]
        | succ fuel =>
          simp only [advance_head, hcond]
          rw [if_pos (by omega), and_mask_eq_mod _ _ hk, hlen, hstep]
          exact herr fuel (by omega)
      · intro j hj
        cases j with
        | zero => simp [head_after]
        | succ j =>
          simp only [head_after]
          rw [and_mask_eq_mod _ _ hk, hlen, hstep, hsumeq]
          exact hheads j (by omega)

theorem take_sum_le (ls : List Nat) (n : Nat) : (ls.take n).sum ≤ ls.sum := by
  have := List.sum_take_add_sum_drop ls n
  omega

/-- C23: take a ring of `2 ^ k` words that holds a chain of records from head
to tail (every record has a non-zero decoded length, the lengths add up to the
tail, and the chain is no longer than the ring), with a capacity above twice
the largest total event length `RUNTIME_EVENTS_MAX_MSG_LENGTH + 1`. For every
permitted payload length the head-advancing loop of `write_to_ring` ends after
a number `n` of iterations that is at most `tail - head`: with fuel for `n`
iterations it returns (and so does the call), with less it does not; after
each iteration the head is a record boundary of the chain, never beyond the
tail. -/
theorem eviction_terminates (k d : Nat) (c : write_call) (s : State) (m : Region)
    (ls : List Nat) (hk : k < 64) (hm : s.current_metadata = some m)
    (hcap : m.ring_size_elements = 2 ^ k) (hw : s.ring_size_words = 2 ^ k)
    (hch : Chain (2 ^ k) (fun i => m.data (ring_ptr m d i)) (m.headers d).ring_head ls)
    (hsum : (m.headers d).ring_head + ls.sum = (m.headers d).ring_tail)
    (htail : (m.headers d).ring_tail < UINT64_MOD)
    (hinv : (m.headers d).ring_tail - (m.headers d).ring_head ≤ 2 ^ k)
    (hperm : c.event_length < RUNTIME_EVENTS_MAX_MSG_LENGTH)
    (hbig : 2 * (RUNTIME_EVENTS_MAX_MSG_LENGTH + 1) < 2 ^ k) :
    ∃ n, n ≤ (m.headers d).ring_tail - (m.headers d).ring_head ∧
      (∀ fuel, n ≤ fuel →
        advance_head (s.ring_size_words % UINT64_MOD) (write_plan m d c.event_length).ring_mask
          (fun i => m.data (ring_ptr m d i))
          (((write_plan m d c.event_length).ring_tail +
            (write_plan m d c.event_length).length_with_header_ts +
            (write_plan m d c.event_length).padding_required) % UINT64_MOD)
          fuel (write_plan m d c.event_length).ring_head =
            .ok ((m.headers d).ring_head + (ls.take n).sum)) ∧
      (∀ fuel, fuel < n → c.run fuel d s = .error .out_of_fuel) ∧
      (∀ j, j ≤ n →
        head_after (write_plan m d c.event_length).ring_mask (fun i => m.data (ring_ptr m d i))
          j (m.headers d).ring_head = (m.headers d).ring_head + (ls.take j).sum ∧
        (m.headers d).ring_head + (ls.take j).sum ≤ (m.headers d).ring_tail) ∧
      (∀ fuel, n ≤ fuel → ∃ s1 m1, c.run fuel d s = .ok s1 ∧ s1.current_metadata = some m1 ∧
        (m1.headers d).ring_head = (m.headers d).ring_head + (ls.take n).sum ∧
        (m.headers d).ring_head ≤ (m1.headers d).ring_head ∧
        (m1.headers d).ring_head ≤ (m.headers d).ring_tail) := by
  have hcaplt : 2 ^ k < 2 ^ 64 := Nat.pow_lt_pow_right (by omega) hk
  have h63 : 2 ^ k ≤ 2 ^ 63 := Nat.pow_le_pow_right (by decide) (by omega)
  have hM : UINT64_MOD = 2 ^ 64 := rfl
  have hmax : RUNTIME_EVENTS_MAX_MSG_LENGTH = 1024 := rfl
  rw [hmax] at hperm hbig
  have hplan := write_plan_pow2 m d c.event_length k hk hcap (by rw [hM]; omega)
  obtain ⟨pad, hpad⟩ : ∃ pad, pad =
      if 2 ^ k - (m.headers d).ring_tail % 2 ^ k < c.event_length + 2 then
        2 ^ k - (m.headers d).ring_tail % 2 ^ k else 0 := ⟨_, rfl⟩
  rw [← hpad] at hplan
  have hpadlt : pad < c.event_length + 2 := by rw [hpad]; split <;> omega
  have hlen := chain_length_le_sum _ _ ls _ hch
  obtain ⟨n, hn, hok, herr, hheads⟩ :=
    advance_head_bounded k hk (fun i => m.data (ring_ptr m d i))
      ((m.headers d).ring_tail + (c.event_length + 2) + pad) (m.headers d).ring_tail
      (by omega) htail (by omega) ls (m.headers d).ring_head hch hsum
      (by rw [hM]; omega)
  have htake := take_sum_le ls n
  have hadv : ∀ fuel, n ≤ fuel →
      advance_head (s.ring_size_words % UINT64_MOD) (write_plan m d c.event_length).ring_mask
        (fun i => m.data (ring_ptr m d i))
        (((write_plan m d c.event_length).ring_tail +
          (write_plan m d c.event_length).length_with_header_ts +
          (write_plan m d c.event_length).padding_required) % UINT64_MOD)
        fuel (write_plan m d c.event_length).ring_head =
          .ok ((m.headers d).ring_head + (ls.take n).sum) := by
    intro fuel hf
    rw [hplan, hw]
    simp only []
    rw [Nat.mod_eq_of_lt (by rw [hM]; exact hcaplt)]
    exact hok fuel hf
  refine ⟨n, by omega, hadv, ?_, ?_, ?_⟩
  · intro fuel hf
    have he := herr fuel hf
    simp only [write_call.run, write_to_ring, hm]
    rw [hplan, hw]
    simp only []
    rw [Nat.mod_eq_of_lt (by rw [hM]; exact hcaplt), he]
  · intro j hj
    have := take_sum_le ls j
    refine ⟨?_, by omega⟩
    rw [hplan]
    exact hheads j hj
  · intro fuel hf
    have hrun := write_to_ring_ok fuel d c.timestamp c.category c.type c.event_id
      c.event_length c.content c.word_offset s m _ hm (hadv fuel hf)
    refine ⟨_, _, hrun, rfl, ?_, ?_, ?_⟩
    · rw [(write_item_fields _ _ _ _ _ _ _ _ _ _ _).2.2.2]
      simp [set_ring_buffer]
    · rw [(write_item_fields _ _ _ _ _ _ _ _ _ _ _).2.2.2]
      simp [set_ring_buffer]
    · rw [(write_item_fields _ _ _ _ _ _ _ _ _ _ _).2.2.2]
      simp only [set_ring_buffer, if_true]
      omega

/-- An instance of `eviction_terminates` in which a record is evicted: the ring
of domain 1 has 4096 words and holds four records of 1023 words, head 0 and
tail 4092; an event of total length 7 is written. Padding of 4 words is
required, the write would reach index 4103, so the loop makes one round: with
no fuel the call does not return, with fuel for one round or more it returns
with the head at 1023, the start of the second record. -/
theorem eviction_terminates_witness :
    example_nearly_full.current_metadata =
      some (region_or zero_region example_nearly_full) ∧
    (region_or zero_region example_nearly_full).ring_size_elements = 2 ^ 12 ∧
    ((region_or zero_region example_nearly_full).headers 1).ring_head = 0 ∧
    ((region_or zero_region example_nearly_full).headers 1).ring_tail = 4092 ∧
    Chain (2 ^ 12)
      (fun i => (region_or zero_region example_nearly_full).data
        (ring_ptr (region_or zero_region example_nearly_full) 1 i))
      0 [1023, 1023, 1023, 1023] ∧
    (example_call 5).run 0 1 example_nearly_full = .error .out_of_fuel ∧
    ∀ fuel, 1 ≤ fuel → ∃ s1 m1, (example_call 5).run fuel 1 example_nearly_full = .ok s1 ∧
      s1.current_metadata = some m1 ∧ (m1.headers 1).ring_head = 1023 ∧
      (m1.headers 1).ring_head ≤
        ((region_or zero_region example_nearly_full).headers 1).ring_tail := by
  have hch : Chain (2 ^ 12)
      (fun i => (region_or zero_region example_nearly_full).data
        (ring_ptr (region_or zero_region example_nearly_full) 1 i))
      0 [1023, 1023, 1023, 1023] :=
    ⟨by decide, by decide, by decide, by decide, by decide, by decide, by decide, by decide,
      trivial⟩
  obtain ⟨n, -, -, hless, -, hret⟩ :=
    eviction_terminates 12 1 (example_call 5) example_nearly_full
      (region_or zero_region example_nearly_full) [1023, 1023, 1023, 1023] (by decide)
      (region_or_eq _ _ (by decide)) (by decide) (by decide) hch (by decide) (by decide)
      (by decide) (by decide) (by decide)
  have hn1 : 1 ≤ n := by
    rcases Nat.eq_zero_or_pos n with hz | hp
    · obtain ⟨s1, m1, hrun, -⟩ := hret 0 (by omega)
      have h0 : ((example_call 5).run 0 1 example_nearly_full).toBool = false := by decide
      rw [hrun] at h0
      cases h0
    · exact hp
  have hn2 : n ≤ 1 := by
    by_contra hgt
    have h1 := hless 1 (by omega)
    have h2 : ((example_call 5).run 1 1 example_nearly_full).toBool = true := by decide
    rw [h1] at h2
    cases h2
  have hn : n = 1 := by omega
  subst hn
  refine ⟨region_or_eq _ _ (by decide), by decide, by decide, by decide, hch,
    hless 0 (by omega), ?_⟩
  intro fuel hfuel
  obtain ⟨s1, m1, hrun, hm1, hhead, -, hle⟩ := hret fuel hfuel
  refine ⟨s1, m1, hrun, hm1, ?_, hle⟩
  rw [hhead]
  decide

/-! ### The ring inside the mapping -/

theorem mapped_ring (s : State) (m : Region) (d : Nat) (hlay : MappedLayout s m)
    (hd : d < m.max_domains) : RingMapped s m d := by
  obtain ⟨h1, h2, h3, h4, h5, h6, h7⟩ := hlay
  have ha : (d + 1) * m.ring_header_size_bytes ≤ m.max_domains * m.ring_header_size_bytes :=
    Nat.mul_le_mul_right _ hd
  have hb : (d + 1) * m.ring_size_bytes ≤ m.max_domains * m.ring_size_bytes :=
    Nat.mul_le_mul_right _ hd
  have hc : (d + 1) * m.ring_header_size_bytes =
      d * m.ring_header_size_bytes + m.ring_header_size_bytes := Nat.succ_mul _ _
  refine ⟨by omega, by omega, by omega, ?_, h7⟩
  rw [h6]
  exact_mod_cast Nat.le_add_right _ _

theorem in_ring_of_ptr (m : Region) (d j : Nat)
    (hbytes : m.ring_size_bytes = m.ring_size_elements * 8)
    (h : ring_ptr m d 0 ≤ j ∧ j < ring_ptr m d 0 + m.ring_size_elements) : InRing m d j := by
  rw [ring_ptr_eq m d 0 hbytes] at h
  have e1 : d * m.ring_size_bytes = d * m.ring_size_elements * 8 := by
    rw [hbytes, Nat.mul_assoc]
  have e2 : (d + 1) * m.ring_size_bytes =
      (d * m.ring_size_elements + m.ring_size_elements) * 8 := by
    rw [hbytes, Nat.succ_mul, Nat.add_mul, Nat.mul_assoc]
  simp only [InRing, data_word_offset, e1, e2]
  omega

theorem ring_ptr_in_ring (m : Region) (d i : Nat)
    (hbytes : m.ring_size_bytes = m.ring_size_elements * 8) (hi : i < m.ring_size_elements) :
    InRing m d (ring_ptr m d i) := by
  apply in_ring_of_ptr m d _ hbytes
  simp only [ring_ptr]
  omega

theorem same_header_refl (m : Region) : SameHeader m m :=
  ⟨rfl, rfl, rfl, rfl, rfl, rfl, rfl, rfl, rfl⟩

theorem same_header_trans (m2 m1 m : Region) (h21 : SameHeader m2 m1) (h10 : SameHeader m1 m) :
    SameHeader m2 m := by
  obtain ⟨a1, a2, a3, a4, a5, a6, a7, a8, a9⟩ := h21
  obtain ⟨b1, b2, b3, b4, b5, b6, b7, b8, b9⟩ := h10
  exact ⟨a1.trans b1, a2.trans b2, a3.trans b3, a4.trans b4, a5.trans b5, a6.trans b6,
    a7.trans b7, a8.trans b8, a9.trans b9⟩

theorem mapped_layout_same (s s1 : State) (m m1 : Region) (hlay : MappedLayout s m)
    (hb : s1.build = s.build) (ht : s1.current_ring_total_size = s.current_ring_total_size)
    (hs : SameHeader m1 m) : MappedLayout s1 m1 := by
  obtain ⟨-, a2, a3, a4, a5, a6, a7, a8, -⟩ := hs
  unfold MappedLayout at *
  rw [hb, ht, a2, a3, a4, a5, a6, a7, a8]
  exact hlay

/-- A call of `write_to_ring` by domain `d` that fits the ring and returns
leaves the header fields of the region, the custom event table, the metadata
records of the other domains and every data word outside the ring of `d` as
they were; of the state only the region changes. -/
theorem write_to_ring_same (fuel d timestamp : Nat) (category : ev_category) (type : Nat)
    (event_id : Int) (event_length : Nat) (content : Option (List Nat)) (word_offset : Nat)
    (s s1 : State) (m : Region) (hm : s.current_metadata = some m)
    (hcap : 0 < m.ring_size_elements) (hlt : m.ring_size_elements < UINT64_MOD)
    (hfit : event_length + 2 ≤ m.ring_size_elements)
    (h : write_to_ring fuel d timestamp category type event_id event_length content
      word_offset s = .ok s1) :
    ∃ m1, s1.current_metadata = some m1 ∧ s1.build = s.build ∧
      s1.current_ring_total_size = s.current_ring_total_size ∧ SameHeader m1 m ∧
      (∀ d1, d1 ≠ d → m1.headers d1 = m.headers d1) ∧
      ∀ j, ¬ (ring_ptr m d 0 ≤ j ∧ j < ring_ptr m d 0 + m.ring_size_elements) →
        m1.data j = m.data j := by
  obtain ⟨m0, rh, hm0, -, hs1⟩ := write_to_ring_ok_inv _ _ _ _ _ _ _ _ _ _ _ h
  rw [hm] at hm0
  simp only [Option.some.injEq] at hm0
  subst hm0
  subst hs1
  obtain ⟨hb1, hb2⟩ := write_plan_bounds m d event_length hcap hlt hfit
  refine ⟨_, rfl, rfl, rfl, ⟨rfl, rfl, rfl, rfl, rfl, rfl, rfl, rfl, rfl⟩, ?_, ?_⟩
  · intro d1 hd1
    rw [(write_item_fields _ _ _ _ _ _ _ _ _ _ _).2.2.2]
    simp [set_ring_buffer, hd1]
  · intro j hj
    apply write_item_data_other
    intro x hx hjx
    apply hj
    rw [hjx]
    simp only [ring_ptr]
    rcases hx with hx | hx
    · omega
    · omega

/-- Successive calls of `write_to_ring` by domain `d` that fit the ring and
return leave everything outside the ring and the metadata record of `d` as it
was. -/
theorem write_calls_same (fuel d : Nat) :
    ∀ (calls : List write_call) (s s1 : State) (m : Region),
      s.current_metadata = some m → 0 < m.ring_size_elements →
      m.ring_size_elements < UINT64_MOD →
      (∀ x ∈ calls, x.event_length + 2 ≤ m.ring_size_elements) →
      write_calls fuel d calls s = .ok s1 →
      ∃ m1, s1.current_metadata = some m1 ∧ s1.build = s.build ∧
        s1.current_ring_total_size = s.current_ring_total_size ∧ SameHeader m1 m ∧
        (∀ d1, d1 ≠ d → m1.headers d1 = m.headers d1) ∧
        ∀ j, ¬ (ring_ptr m d 0 ≤ j ∧ j < ring_ptr m d 0 + m.ring_size_elements) →
          m1.data j = m.data j := by
  intro calls
  induction calls with
  | nil =>
    intro s s1 m hm _ _ _ h
    simp only [write_calls, Except.ok.injEq] at h
    subst h
    exact ⟨m, hm, rfl, rfl, same_header_refl m, fun _ _ => rfl, fun _ _ => rfl⟩
  | cons c rest ih =>
    intro s s2 m hm hcap hlt hcalls h
    simp only [write_calls] at h
    cases hrun : c.run fuel d s with
    | error f =>
      rw [hrun] at h
      cases h
    | ok s1 =>
      rw [hrun] at h
      simp only [] at h
      obtain ⟨m1, hm1, hb1, ht1, hs1, hh1, hd1⟩ :=
        write_to_ring_same fuel d c.timestamp c.category c.type c.event_id c.event_length
          c.content c.word_offset s s1 m hm hcap hlt (hcalls c (List.mem_cons_self _ _)) hrun
      have he : m1.ring_size_elements = m.ring_size_elements := hs1.2.2.2.2.1
      have hp : ∀ i, ring_ptr m1 d i = ring_ptr m d i := by
        intro i
        simp only [ring_ptr, hs1.2.2.2.1]
      obtain ⟨m2, hm2, hb2, ht2, hs2, hh2, hd2⟩ :=
        ih s1 s2 m1 hm1 (by rw [he]; exact hcap) (by rw [he]; exact hlt)
          (fun x hx => by rw [he]; exact hcalls x (List.mem_cons_of_mem _ hx)) h
      refine ⟨m2, hm2, hb2.trans hb1, ht2.trans ht1, same_header_trans _ _ _ hs2 hs1,
        fun d1 hne => (hh2 d1 hne).trans (hh1 d1 hne), ?_⟩
      intro j hj
      rw [hd2 j (by rw [hp, he]; exact hj), hd1 j hj]

theorem write_calls_mapped (fuel d : Nat) (calls : List write_call) (s s1 : State)
    (m m1 : Region) (hm : s.current_metadata = some m) (hcap : 0 < m.ring_size_elements)
    (hlt : m.ring_size_elements < UINT64_MOD) (hlay : MappedLayout s m)
    (hcalls : ∀ x ∈ calls, x.event_length + 2 ≤ m.ring_size_elements)
    (h : write_calls fuel d calls s = .ok s1) (hm1 : s1.current_metadata = some m1) :
    MappedLayout s1 m1 ∧ SameHeader m1 m ∧ (∀ d1, d1 ≠ d → m1.headers d1 = m.headers d1) ∧
      ∀ j, m1.data j ≠ m.data j → InRing m d j := by
  obtain ⟨m2, hm2, hb, ht, hs, hh, hdata⟩ := write_calls_same fuel d calls s s1 m hm hcap hlt hcalls h
  rw [hm1] at hm2
  simp only [Option.some.injEq] at hm2
  subst hm2
  refine ⟨mapped_layout_same s s1 m m1 hlay hb ht hs, hs, hh, ?_⟩
  intro j hj
  apply in_ring_of_ptr m d j hlay.2.2.2.1
  by_contra hn
  exact hj (hdata j hn)

theorem advance_head_exit (ring_size_words ring_mask : Nat) (ring : Nat → Nat) (target : Nat) :
    ∀ (fuel ring_head h : Nat),
      advance_head ring_size_words ring_mask ring target fuel ring_head = .ok h →
      (target + UINT64_MOD - h) % UINT64_MOD < ring_size_words := by
  intro fuel
  induction fuel with
  | zero =>
    intro ring_head h hadv
    simp only [advance_head] at hadv
    split at hadv
    · cases hadv
    · simp only [Except.ok.injEq] at hadv
      subst hadv
      omega
  | succ n ih =>
    intro ring_head h hadv
    simp only [advance_head] at hadv
    split at hadv
    · exact ih _ _ hadv
    · simp only [Except.ok.injEq] at hadv
      subst hadv
      omega

/-- Every call of `write_to_ring` that returns leaves the tail less than
`ring_size_words` ahead of the head, in 64-bit arithmetic: the head-advancing
loop ends only when the test of line 575 fails, and the new tail is the value
`ring_tail + length_with_header_ts + padding_required` of that test. -/
theorem write_to_ring_returns_within_capacity (fuel d timestamp : Nat)
    (category : ev_category) (type : Nat) (event_id : Int) (event_length : Nat)
    (content : Option (List Nat)) (word_offset : Nat) (s s1 : State)
    (h : write_to_ring fuel d timestamp category type event_id event_length content
      word_offset s = .ok s1) :
    ∃ m1, s1.current_metadata = some m1 ∧
      ((m1.headers d).ring_tail + UINT64_MOD - (m1.headers d).ring_head) % UINT64_MOD <
        s.ring_size_words % UINT64_MOD := by
  obtain ⟨m, rh, hm, hadv, hs1⟩ := write_to_ring_ok_inv _ _ _ _ _ _ _ _ _ _ _ h
  subst hs1
  have hex := advance_head_exit _ _ _ _ _ _ _ hadv
  refine ⟨_, rfl, ?_⟩
  rw [(write_item_fields _ _ _ _ _ _ _ _ _ _ _).2.2.2]
  simp only [set_ring_buffer, if_true]
  have htgt : ((if (write_plan m d event_length).padding_required > 0 then
        ((write_plan m d event_length).ring_tail +
          (write_plan m d event_length).ring_distance_to_end) % UINT64_MOD
        else (write_plan m d event_length).ring_tail) +
        (write_plan m d event_length).length_with_header_ts) % UINT64_MOD =
      ((write_plan m d event_length).ring_tail +
        (write_plan m d event_length).length_with_header_ts +
        (write_plan m d event_length).padding_required) % UINT64_MOD := by
    by_cases hp : (write_plan m d event_length).padding_required > 0
    · have hpd : (write_plan m d event_length).padding_required =
          (write_plan m d event_length).ring_distance_to_end := by
        have hp0 := hp
        simp only [write_plan] at hp0 ⊢
        split
        · rfl
        · rename_i hc
          simp only [hc, if_false] at hp0
          omega
      simp only [hp, if_true]
      rw [hpd, Nat.mod_add_mod]
      congr 1
      omega
    · have hp0 : (write_plan m d event_length).padding_required = 0 := by omega
      simp only [hp0, gt_iff_lt, Nat.lt_irrefl, if_false, Nat.add_zero]
  rw [htgt]
  exact hex

/-- C19 (amended): take a region laid out inside the mapping (total size below
`2 ^ 31` bytes, no length truncated), a domain `d` below `max_domains` whose
ring has `2 ^ k` words and head and tail 0, and any sequence of `write_to_ring`
calls by `d` in which every call has a total length `event_length + 2` below
`2 ^ 10` and at most half the capacity, a subtype below `2 ^ 5` and an event id
below `2 ^ 18`, short enough for the tail not to wrap around `2 ^ 64`. Then the
metadata record and the ring of `d` lie inside the mapped bytes, and with fuel
for `2 ^ k` head advances, after each call the ring holds from head to tail a
sequence of records, each a padding record or the event record (header,
timestamp, payload) of one of the calls made so far, with every stored word
still in place; the lengths of the records add up from head to tail, and the
walk from head by the decoded lengths reaches the tail exactly; the layout is
as before and every data word the calls changed is a word of the ring of
`d`. -/
theorem record_chain_invariant (k d fuel : Nat) (s0 : State) (m0 : Region)
    (calls : List write_call)
    (hk : k < 64) (hm : s0.current_metadata = some m0) (hlay : MappedLayout s0 m0)
    (hd : d < m0.max_domains) (hcap : m0.ring_size_elements = 2 ^ k)
    (hw : s0.ring_size_words = 2 ^ k)
    (hhead : (m0.headers d).ring_head = 0) (htail : (m0.headers d).ring_tail = 0)
    (hcalls : ∀ x ∈ calls, x.event_length + 2 < 2 ^ 10 ∧
      2 * (x.event_length + 2) ≤ 2 ^ k ∧ x.type < 2 ^ 5 ∧ to_uint64 x.event_id < 2 ^ 18)
    (hlong : 2 ^ 11 * calls.length < UINT64_MOD) (hfuel : 2 ^ k ≤ fuel) :
    RingMapped s0 m0 d ∧
    ∀ n, ∃ s1 m1 rs, write_calls fuel d (calls.take n) s0 = .ok s1 ∧
      s1.current_metadata = some m1 ∧
      Records (2 ^ k) (fun i => m1.data (ring_ptr m1 d i)) (m1.headers d).ring_head rs ∧
      (m1.headers d).ring_head + (rs.map (fun r => r.length)).sum = (m1.headers d).ring_tail ∧
      (∀ r ∈ rs, WrittenBy (calls.take n) r) ∧
      walk (2 ^ k) (fun i => m1.data (ring_ptr m1 d i)) (m1.headers d).ring_tail rs.length
        (m1.headers d).ring_head = true ∧
      MappedLayout s1 m1 ∧ ∀ j, m1.data j ≠ m0.data j → InRing m0 d j := by
  refine ⟨mapped_ring s0 m0 d hlay hd, ?_⟩
  intro n
  have hpos : 0 < 2 ^ k := Nat.pos_pow_of_pos _ (by omega)
  have hcaplt : 2 ^ k < UINT64_MOD := Nat.pow_lt_pow_right (by omega) hk
  have hlen : (calls.take n).length ≤ calls.length := List.length_take_le' _ _
  obtain ⟨s1, m1, rs, hrun, hm1, -, -, ⟨hrec, hsum, hall⟩, -, -⟩ :=
    write_calls_records k d hk fuel hfuel (calls.take n) (calls.take n) s0 m0 [] 0
      (fun x hx => hx) hm hcap hw
      ⟨trivial, by simp [hhead, htail], fun r hr => absurd hr (List.not_mem_nil r)⟩
      (by rw [hhead, htail]; exact hpos) (by omega)
      (fun x hx => hcalls x (List.mem_of_mem_take hx))
      (by
        have : 2 ^ 11 * (calls.take n).length ≤ 2 ^ 11 * calls.length :=
          Nat.mul_le_mul_left _ hlen
        omega)
  obtain ⟨hlay1, -, -, hdata⟩ := write_calls_mapped fuel d (calls.take n) s0 s1 m0 m1 hm
    (by rw [hcap]; exact hpos) (by rw [hcap]; exact hcaplt) hlay
    (fun x hx => by
      have := (hcalls x (List.mem_of_mem_take hx)).2.1
      rw [hcap]
      omega) hrun hm1
  exact ⟨s1, m1, rs, hrun, hm1, hrec, hsum, fun r hr => (hall r hr).2,
    records_walk _ _ _ rs _ hrec hsum, hlay1, hdata⟩

/-- An instance of `record_chain_invariant`: three events written by domain 1
to its empty ring of 16 words, in the region of 1049056 bytes that a start maps
for two domains. -/
theorem record_chain_invariant_witness :
    MappedLayout (example_started 4) (region_or zero_region (example_started 4)) ∧
    (example_started 4).current_ring_total_size = 1049056 ∧
    (∀ x ∈ [example_call 1, example_call 2, example_call 3],
      x.event_length + 2 < 2 ^ 10 ∧ 2 * (x.event_length + 2) ≤ 2 ^ 4 ∧ x.type < 2 ^ 5 ∧
        to_uint64 x.event_id < 2 ^ 18) ∧
    RingMapped (example_started 4) (region_or zero_region (example_started 4)) 1 ∧
    ∃ s1 m1 rs,
      write_calls 16 1 ([example_call 1, example_call 2, example_call 3].take 3)
        (example_started 4) = .ok s1 ∧
      s1.current_metadata = some m1 ∧
      Records (2 ^ 4) (fun i => m1.data (ring_ptr m1 1 i)) (m1.headers 1).ring_head rs ∧
      (m1.headers 1).ring_head + (rs.map (fun r => r.length)).sum = (m1.headers 1).ring_tail ∧
      (∀ r ∈ rs, WrittenBy ([example_call 1, example_call 2, example_call 3].take 3) r) ∧
      walk (2 ^ 4) (fun i => m1.data (ring_ptr m1 1 i)) (m1.headers 1).ring_tail rs.length
        (m1.headers 1).ring_head = true ∧
      MappedLayout s1 m1 ∧
      ∀ j, m1.data j ≠ (region_or zero_region (example_started 4)).data j →
        InRing (region_or zero_region (example_started 4)) 1 j :=
  have hlay : MappedLayout (example_started 4) (region_or zero_region (example_started 4)) := by
    unfold MappedLayout
    decide
  have h := record_chain_invariant 4 1 16 (example_started 4)
    (region_or zero_region (example_started 4))
    [example_call 1, example_call 2, example_call 3]
    (by decide) (region_or_eq _ _ (by decide)) hlay (by decide) (by decide) (by decide)
    (by decide) (by decide) (by decide) (by decide) (by decide)
  ⟨hlay, by decide, by decide, h.1, h.2 3⟩

/-- C18 (amended): take a region laid out inside the mapping (total size below
`2 ^ 31` bytes, no length truncated) and a call of `write_to_ring` by a domain
`d` below `max_domains` whose total length `event_length + 2` is at most the
capacity of the rings. If the call returns, it changes no data word outside
the ring of `d`: every data word that changed is a word of the ring of `d`,
whose bytes lie after the ring metadata array, before the custom event table
and inside the mapped bytes; for every other slot the head, the tail and all
ring elements are unchanged, and the fields of the region header, the layout
and the custom event table are unchanged. -/
theorem write_to_ring_frame (fuel d timestamp : Nat) (category : ev_category) (type : Nat)
    (event_id : Int) (event_length : Nat) (content : Option (List Nat)) (word_offset : Nat)
    (s s1 : State) (m : Region) (hm : s.current_metadata = some m)
    (hlay : MappedLayout s m) (hd : d < m.max_domains)
    (hcap : 0 < m.ring_size_elements) (hlt : m.ring_size_elements < UINT64_MOD)
    (hfit : event_length + 2 ≤ m.ring_size_elements)
    (h : write_to_ring fuel d timestamp category type event_id event_length content
      word_offset s = .ok s1) :
    RingMapped s m d ∧
    ∃ m1, s1.current_metadata = some m1 ∧ MappedLayout s1 m1 ∧
      (∀ j, m1.data j ≠ m.data j → InRing m d j) ∧
      (∀ d1, d1 ≠ d → m1.headers d1 = m.headers d1 ∧
        ∀ i, i < m.ring_size_elements → m1.data (ring_ptr m1 d1 i) = m.data (ring_ptr m d1 i)) ∧
      (∀ j, ¬ (ring_ptr m d 0 ≤ j ∧ j < ring_ptr m d 0 + m.ring_size_elements) →
        m1.data j = m.data j) ∧
      m1.custom_events = m.custom_events ∧
      (m1.version = m.version ∧ m1.max_domains = m.max_domains ∧
        m1.ring_header_size_bytes = m.ring_header_size_bytes ∧
        m1.ring_size_bytes = m.ring_size_bytes ∧
        m1.ring_size_elements = m.ring_size_elements ∧
        m1.headers_offset = m.headers_offset ∧ m1.data_offset = m.data_offset ∧
        m1.custom_events_offset = m.custom_events_offset) := by
  have hbytes : m.ring_size_bytes = m.ring_size_elements * 8 := hlay.2.2.2.1
  obtain ⟨m1, hm1, hb, ht, hs, hh, hdata⟩ := write_to_ring_same fuel d timestamp category type
    event_id event_length content word_offset s s1 m hm hcap hlt hfit h
  have hsame := hs
  obtain ⟨a1, a2, a3, a4, a5, a6, a7, a8, a9⟩ := hs
  refine ⟨mapped_ring s m d hlay hd, m1, hm1, mapped_layout_same s s1 m m1 hlay hb ht hsame,
    ?_, ?_, hdata, a9, a1, a2, a3, a4, a5, a6, a7, a8⟩
  · intro j hj
    apply in_ring_of_ptr m d j hbytes
    by_contra hn
    exact hj (hdata j hn)
  · intro d1 hd1
    refine ⟨hh d1 hd1, ?_⟩
    intro i hi
    have e : ring_ptr m1 d1 i = ring_ptr m d1 i := by
      simp only [ring_ptr, a4]
    rw [e]
    exact hdata _ (ring_ptr_other m d d1 i hbytes hd1 hi)

/-- An instance of `write_to_ring_frame`: domain 1 writes an event of total
length 7 to its ring of 16 words in the example state after a start, whose
region of 1049056 bytes has the table at byte 480, behind the two rings. -/
theorem write_to_ring_frame_witness :
    (example_started 4).current_metadata = some (region_or zero_region (example_started 4)) ∧
    MappedLayout (example_started 4) (region_or zero_region (example_started 4)) ∧
    (example_started 4).current_ring_total_size = 1049056 ∧
    (region_or zero_region (example_started 4)).custom_events_offset = 480 ∧
    (region_or zero_region (example_started 4)).ring_size_elements = 16 ∧
    RingMapped (example_started 4) (region_or zero_region (example_started 4)) 1 ∧
    ∃ m1, (state_or (example_init 4)
        ((example_call 5).run 16 1 (example_started 4))).current_metadata = some m1 ∧
      MappedLayout (state_or (example_init 4) ((example_call 5).run 16 1 (example_started 4)))
        m1 ∧
      (∀ j, m1.data j ≠ (region_or zero_region (example_started 4)).data j →
        InRing (region_or zero_region (example_started 4)) 1 j) ∧
      (∀ d1, d1 ≠ 1 → m1.headers d1 = (region_or zero_region (example_started 4)).headers d1 ∧
        ∀ i, i < (region_or zero_region (example_started 4)).ring_size_elements →
          m1.data (ring_ptr m1 d1 i) =
            (region_or zero_region (example_started 4)).data
              (ring_ptr (region_or zero_region (example_started 4)) d1 i)) ∧
      m1.custom_events = (region_or zero_region (example_started 4)).custom_events :=
  have hlay : MappedLayout (example_started 4) (region_or zero_region (example_started 4)) := by
    unfold MappedLayout
    decide
  have h := write_to_ring_frame 16 1 100 .EV_RUNTIME ev_runtime_message_type.EV_COUNTER.code 7 5
    (some (List.replicate 5 9)) 0 (example_started 4)
    (state_or (example_init 4) ((example_call 5).run 16 1 (example_started 4)))
    (region_or zero_region (example_started 4)) (region_or_eq _ _ (by decide)) hlay (by decide)
    (by decide) (by decide) (by decide) (state_or_eq _ _ (by decide))
  ⟨region_or_eq _ _ (by decide), hlay, by decide, by decide, by decide, h.1,
    h.2.elim fun m1 hm1 => ⟨m1, hm1.1, hm1.2.1, hm1.2.2.1, hm1.2.2.2.1, hm1.2.2.2.2.2.1⟩⟩

end RuntimeEvents
